import Mathlib

/-!
# Virtual-memory core of the OS/161 teaching kernel

A shallow embedding of `kern/vm/vm.c`, `kern/vm/addrspace.c` and
`kern/syscall/sbrk.c`, followed by theorems about the embedded functions.

Conventions of the embedding
* `uint32_t`, `vaddr_t`, `paddr_t`, `size_t` values are `Nat`, reduced modulo
  `2 ^ 32` wherever the C arithmetic can wrap.
* `int` values (flags, `copy_on_write`, reference counts, error numbers, the
  `sbrk` amount) are `Int`.
* A function that can hit a `KASSERT`, a `panic` or a null dereference returns
  `Option`; `none` is the kernel stopping.
* A pointer to a secondary page entry is the pair (root index, secondary
  index); `NULL` is `none`.
-/

namespace OS161

/-! ## Constants -/

/-- Modelled from the spec: the word size of the 32-bit machine; unsigned C
arithmetic is taken modulo this number. -/
def WORD : Nat := 2 ^ 32

/-- Modelled from the spec: `PAGE_SIZE` of the absent header `machine/vm.h`,
4096 bytes. -/
def PAGE_SIZE : Nat := 4096

/-- Modelled from the spec: `PAGE_FRAME` of the absent header `machine/vm.h`,
the mask `~0xFFF` on 32 bits. -/
def PAGE_FRAME : Nat := 0xfffff000

/-- Modelled from the spec: `MIPS_KSEG0` of the absent header `machine/vm.h`,
the base of the direct-mapped kernel segment. -/
def MIPS_KSEG0 : Nat := 0x80000000

/-- Modelled from the spec: `USERSPACETOP` of the absent header `machine/vm.h`
(top of user space, also the sentinel for a page without a frame). -/
def USERSPACETOP : Nat := MIPS_KSEG0

/-- Modelled from the spec: `TLBHI_VPAGE` of the absent header `mips/tlb.h`. -/
def TLBHI_VPAGE : Nat := 0xfffff000

/-- Modelled from the spec: `TLBLO_PPAGE` of the absent header `mips/tlb.h`. -/
def TLBLO_PPAGE : Nat := 0xfffff000

/-- Modelled from the spec: `TLBLO_DIRTY` of the absent header `mips/tlb.h`. -/
def TLBLO_DIRTY : Nat := 0x00000400

/-- Modelled from the spec: `TLBLO_VALID` of the absent header `mips/tlb.h`. -/
def TLBLO_VALID : Nat := 0x00000200

/-- Modelled from the spec: `NUM_TLB` of the absent header `mips/tlb.h`. -/
def NUM_TLB : Nat := 64

/-- Modelled from the spec: `TLBHI_INVALID(entryno)` of the absent header
`mips/tlb.h`, an entry-high word in the kernel segment that no user page
matches. -/
def TLBHI_INVALID (entryno : Nat) : Nat := ((0x80000 + entryno) <<< 12) % WORD

/-- Modelled from the spec: `TLBLO_INVALID()` of the absent header
`mips/tlb.h`. -/
def TLBLO_INVALID : Nat := 0

/-- Modelled from the spec: `PF_R` of the absent header `elf.h`. -/
def PF_R : Int := 4

/-- Modelled from the spec: `PF_W` of the absent header `elf.h`. -/
def PF_W : Int := 2

/-- Modelled from the spec: `PF_X` of the absent header `elf.h`. -/
def PF_X : Int := 1

/-- Modelled from the spec: `ENOMEM` of the absent header `kern/errno.h`. -/
def ENOMEM : Int := 3

/-- Modelled from the spec: `EFAULT` of the absent header `kern/errno.h`. -/
def EFAULT : Int := 6

/-- Modelled from the spec: `EINVAL` of the absent header `kern/errno.h`. -/
def EINVAL : Int := 8

/-- Modelled from the spec: `VM_FAULT_READ` of the absent header `vm.h`. -/
def VM_FAULT_READ : Int := 0

/-- Modelled from the spec: `VM_FAULT_WRITE` of the absent header `vm.h`. -/
def VM_FAULT_WRITE : Int := 1

/-- Modelled from the spec: `VM_FAULT_READONLY` of the absent header `vm.h`. -/
def VM_FAULT_READONLY : Int := 2

/-- Number of entries in the first-level page table (`addrspace.h`). -/
def NUM_ROOT_ENTRIES : Nat := 1 <<< 10

/-- Number of entries in a second-level page table (`addrspace.h`). -/
def NUM_SECONDARY_ENTRIES : Nat := 1 <<< 10

/-- Modelled from the spec: `PADDR_TO_KVADDR` of the absent header
`machine/vm.h`, `paddr + MIPS_KSEG0` on 32 bits. -/
def PADDR_TO_KVADDR (paddr : Nat) : Nat := (MIPS_KSEG0 + paddr) % WORD

/-- Modelled from the spec: `KVADDR_TO_PADDR` of the absent header
`machine/vm.h`, `kvaddr - MIPS_KSEG0` on 32 bits (the subtraction written as
the addition of `2 ^ 32 - MIPS_KSEG0`). -/
def KVADDR_TO_PADDR (kvaddr : Nat) : Nat := ((WORD - MIPS_KSEG0) + kvaddr) % WORD

/-! ## Data model (`addrspace.h`) -/

/-- One entry of a secondary page table (`struct secondary_page_entry`). -/
structure secondary_page_entry where
  vaddr : Nat
  paddr : Nat
  copy_on_write : Int
  flags : Int
deriving DecidableEq

/-- One entry of the root page table (`struct root_page_entry`); `target` is
`none` for a `NULL` secondary table. -/
structure root_page_entry where
  vaddr_prefix : Nat
  target : Option (Nat → secondary_page_entry)

/-- One node of the region list (`struct region`); the `next` pointer is the
tail of the list that holds the node. -/
structure region where
  vbase : Nat
  old_flags : Int
deriving DecidableEq

/-- The address space (`struct addrspace`, the non-dumbvm variant): the region
list from its head, the root page table indexed by root index, and the two
heap markers. -/
structure addrspace where
  as_region : List region
  page_table : Nat → root_page_entry
  as_heap_start : Nat
  as_heap_end : Nat

/-- The state outside any one address space: the global `frame_table` (the
`ref_count` of each frame index), physical memory seen through the kernel
segment (one byte per kernel virtual address), the TLB (entry-high and
entry-low word per slot), the arguments of the `free_kpages` calls made so far
(newest first) and the outcomes of the coming `kmalloc` calls. -/
structure machine where
  frame_table : Nat → Int
  ram : Nat → Nat
  tlb : Nat → Nat × Nat
  released : List Nat
  kheap : List Bool

/-! ## The environment: allocators, memory primitives, TLB -/

/-- Modelled from the spec: the kernel heap allocator `kmalloc`, absent from
the sources. A call takes its outcome (`true` for a non-null block) from the
head of `kheap`; when the list is exhausted the call succeeds. -/
def kmalloc (m : machine) : Bool × machine :=
  match m.kheap with
  | [] => (true, m)
  | b :: rest => (b, { m with kheap := rest })

/-- Modelled from the spec: `free_kpages`, the release half of the frame
allocator, absent from the sources. The call is recorded in `released`. -/
def free_kpages (m : machine) (kvaddr : Nat) : machine :=
  { m with released := kvaddr :: m.released }

/-- Modelled from the spec: `bzero(kvaddr, len)`, absent from the sources. -/
def bzero (m : machine) (kvaddr len : Nat) : machine :=
  { m with ram := fun a => if kvaddr ≤ a ∧ a < kvaddr + len then 0 else m.ram a }

/-- Modelled from the spec: `memmove(dst, src, len)`, absent from the
sources; every destination byte receives the source byte as it was before the
call. -/
def memmove (m : machine) (dst src len : Nat) : machine :=
  { m with ram := fun a => if dst ≤ a ∧ a < dst + len then m.ram (src + (a - dst)) else m.ram a }

/-- Modelled from the spec: `tlb_write(entryhi, entrylo, index)`, absent from
the sources. -/
def tlb_write (m : machine) (entryhi entrylo index : Nat) : machine :=
  { m with tlb := Function.update m.tlb index (entryhi, entrylo) }

/-- Modelled from the spec: `tlb_random(entryhi, entrylo)`, absent from the
sources; `slot` is the slot the hardware picks. -/
def tlb_random (slot : Nat) (m : machine) (entryhi entrylo : Nat) : machine :=
  tlb_write m entryhi entrylo slot

/-- Modelled from the spec: `tlb_probe(entryhi, 0)`, absent from the sources:
the index of the first slot whose virtual page equals that of `entryhi`, or
`-1`. -/
def tlb_probe (m : machine) (entryhi : Nat) : Int :=
  match (List.range NUM_TLB).find? (fun i => (m.tlb i).1 &&& TLBHI_VPAGE == entryhi &&& TLBHI_VPAGE) with
  | some i => (i : Int)
  | none => -1

/-- The idiom "remove the old TLB entry if it exists" that `as_copy`,
`as_prepare_load`, `as_complete_load` and `vm_fault` repeat: probe for the
page `vpage << 12` and overwrite a hit with the invalid entry of its slot. -/
def tlb_remove_entry (m : machine) (vpage : Nat) : machine :=
  let index := tlb_probe m ((vpage <<< 12) % WORD)
  if index ≥ 0 then tlb_write m (TLBHI_INVALID index.toNat) TLBLO_INVALID index.toNat else m

/-! ## Frame table (`vm.c`) -/

/-- The function `decrement_ref_count` of `vm.c`. -/
def decrement_ref_count (m : machine) (paddr : Nat) : machine :=
  let paddr := paddr >>> 12
  let m := { m with frame_table := Function.update m.frame_table paddr (m.frame_table paddr - 1) }
  if m.frame_table paddr = 0 then free_kpages m (PADDR_TO_KVADDR ((paddr <<< 12) % WORD)) else m

/-- The function `increment_ref_count` of `vm.c`; `none` when its `KASSERT`
fails. -/
def increment_ref_count (m : machine) (paddr : Nat) : Option machine :=
  let paddr := paddr >>> 12
  if m.frame_table paddr > 0 then
    some { m with frame_table := Function.update m.frame_table paddr (m.frame_table paddr + 1) }
  else none

/-! ## Page table (`vm.c`) -/

/-- Dereference of a page-entry pointer; `none` for a pointer into a secondary
table that does not exist. -/
def page_at (as : addrspace) (p : Nat × Nat) : Option secondary_page_entry :=
  match (as.page_table p.1).target with
  | none => none
  | some t => some (t p.2)

/-- Store through a page-entry pointer. -/
def write_page (as : addrspace) (p : Nat × Nat) (e : secondary_page_entry) : addrspace :=
  match (as.page_table p.1).target with
  | none => as
  | some t =>
    { as with
      page_table := Function.update as.page_table p.1
        ({ vaddr_prefix := root_page_entry.vaddr_prefix (as.page_table p.1),
           target := some (Function.update t p.2 e) }) }

/-- The function `create_secondary_table` of `vm.c`; `none` when its `KASSERT`
fails or `kmalloc` returns `NULL` (panic). -/
def create_secondary_table (m : machine) (as : addrspace) (pfx : Nat) : Option (machine × addrspace) :=
  match (as.page_table pfx).target with
  | some _ => none
  | none =>
    match kmalloc m with
    | (false, _) => none
    | (true, m1) =>
      some (m1, { as with
        page_table := Function.update as.page_table pfx
          ({ vaddr_prefix := root_page_entry.vaddr_prefix (as.page_table pfx),
             target := some (fun i =>
              ({ vaddr := ((pfx <<< 10) ||| i) % WORD,
                 paddr := USERSPACETOP,
                 copy_on_write := 0,
                 flags := -1 })) }) })

/-- The function `add_single_vaddr_page` of `vm.c`; `none` when a `KASSERT`
fails or the secondary table cannot be allocated. -/
def add_single_vaddr_page (m : machine) (as : addrspace) (address : Nat) (flags : Int) :
    Option (machine × addrspace) :=
  let page_num := (address % WORD) / PAGE_SIZE
  let pfx := page_num >>> 10
  let secondary_index := page_num ^^^ ((pfx <<< 10) % WORD)
  if root_page_entry.vaddr_prefix (as.page_table pfx) ≠ pfx then none
  else
    let created : Option (machine × addrspace) :=
      match (as.page_table pfx).target with
      | none => create_secondary_table m as pfx
      | some _ => some (m, as)
    match created with
    | none => none
    | some (m1, as1) =>
      match page_at as1 (pfx, secondary_index) with
      | none => none
      | some secondary_page =>
        if secondary_page.vaddr ≠ page_num then none
        else some (m1, write_page as1 (pfx, secondary_index) { secondary_page with flags := flags })

/-- The function `get_page` of `vm.c`: `none` when its `KASSERT` fails,
`some none` for a `NULL` result, `some (some p)` for a pointer. -/
def get_page (as : addrspace) (address : Nat) : Option (Option (Nat × Nat)) :=
  let page_num := (address % WORD) / PAGE_SIZE
  let pfx := page_num >>> 10
  let secondary_index := page_num ^^^ ((pfx <<< 10) % WORD)
  if pfx ≥ NUM_ROOT_ENTRIES then some none
  else if root_page_entry.vaddr_prefix (as.page_table pfx) ≠ pfx then none
  else
    match (as.page_table pfx).target with
    | none => some none
    | some _ => some (some (pfx, secondary_index))

/-- The function `ensure_paddr` of `vm.c`, on the entry its argument points
to, taken apart into its four fields. `kvaddr` is what `alloc_kpages(1)`
returns if it is called (`0` for `NULL`); `none` is the panic or a failed
`KASSERT`. -/
def ensure_paddr (kvaddr : Nat) (m : machine) (page : secondary_page_entry) :
    Option (machine × secondary_page_entry) :=
  match page with
  | ⟨vaddr, paddr, copy_on_write, flags⟩ =>
    if paddr = USERSPACETOP then
      let new_page := KVADDR_TO_PADDR kvaddr
      if PADDR_TO_KVADDR new_page = 0 then none
      else
        let m1 := { m with frame_table := Function.update m.frame_table (new_page >>> 12) 1 }
        let m2 := bzero m1 (PADDR_TO_KVADDR new_page) PAGE_SIZE
        let low := TLBLO_PPAGE &&& new_page
        let writeable := Int.land flags PF_W
        let low1 := if writeable ≠ 0 then low ||| TLBLO_DIRTY else low
        let low2 := low1 ||| TLBLO_VALID
        if low2 ≠ USERSPACETOP then some (m2, ⟨vaddr, low2, copy_on_write, flags⟩) else none
    else some (m, ⟨vaddr, paddr, copy_on_write, flags⟩)

/-- The call `get_page(as, address)` followed by a dereference of the result
without a null check, as `as_copy`, `as_destroy`, `as_remove_region`,
`as_prepare_load` and `as_complete_load` do: the pointer and the entry it
points to, or `none` when the kernel stops (failed `KASSERT`, null pointer). -/
def load_page (as : addrspace) (address : Nat) : Option ((Nat × Nat) × secondary_page_entry) :=
  match get_page as address with
  | some (some p) =>
    match page_at as p with
    | some e => some (p, e)
    | none => none
  | _ => none

/-! ## The fault handler (`vm.c`) -/

/-- Lines 191-200 of `vm_fault`, the `switch` on the fault type: `none` when
the kernel stops on the dereference of a null `page`, `some (some r)` when the
function returns `r`, `some none` when control leaves the `switch`. -/
def vm_fault_switch (as : addrspace) (page : Option (Nat × Nat)) (faulttype : Int) :
    Option (Option Int) :=
  if faulttype = VM_FAULT_READONLY then
    match page with
    | none => none
    | some p =>
      match page_at as p with
      | none => none
      | some e => if e.copy_on_write ≠ 0 then some none else some (some EFAULT)
  else if faulttype = VM_FAULT_READ ∨ faulttype = VM_FAULT_WRITE then some none
  else some (some EINVAL)

/-- Lines 208-239 of `vm_fault`, the copy-on-write branch, on the entry `page`
points to. -/
def vm_fault_cow (kvaddr : Nat) (m : machine) (page : secondary_page_entry) :
    Option (machine × secondary_page_entry) :=
  let paddr := page.paddr
  if paddr = USERSPACETOP then none
  else
    let broken : Option (machine × secondary_page_entry) :=
      if m.frame_table (paddr >>> 12) = 1 then
        let page1 := { page with copy_on_write := 0 }
        if Int.land page1.flags PF_W ≠ 0 then
          some (m, { page1 with paddr := page1.paddr ||| TLBLO_DIRTY })
        else some (m, page1)
      else
        let page1 := { page with paddr := USERSPACETOP }
        match ensure_paddr kvaddr m page1 with
        | none => none
        | some (m1, page2) =>
          let m2 := memmove m1 (PADDR_TO_KVADDR (page2.paddr &&& TLBLO_PPAGE))
            (PADDR_TO_KVADDR (paddr &&& TLBLO_PPAGE)) PAGE_SIZE
          let m3 := decrement_ref_count m2 paddr
          some (m3, { page2 with copy_on_write := 0 })
    match broken with
    | none => none
    | some (m4, page3) => some (tlb_remove_entry m4 page3.vaddr, page3)

/-- The function `vm_fault` of `vm.c`. `curproc` is `none` when there is no
current process, `some none` when `proc_getas()` is `NULL`, and otherwise
holds the current address space; `kvaddr` is what `alloc_kpages(1)` returns
if it is called and `slot` the TLB slot `tlb_random` picks. The result is the
return value, the machine and the current process afterwards; `none` is the
kernel stopping. -/
def vm_fault (curproc : Option (Option addrspace)) (kvaddr slot : Nat) (m : machine)
    (faulttype : Int) (faultaddress : Nat) :
    Option (Int × machine × Option (Option addrspace)) :=
  match curproc with
  | none => some (EFAULT, m, none)
  | some none => some (EFAULT, m, some none)
  | some (some as) =>
    match get_page as faultaddress with
    | none => none
    | some page =>
      match vm_fault_switch as page faulttype with
      | none => none
      | some (some r) => some (r, m, some (some as))
      | some none =>
        match page with
        | none => some (EFAULT, m, some (some as))
        | some p =>
          match page_at as p with
          | none => none
          | some e =>
            if e.flags = -1 then some (EFAULT, m, some (some as))
            else
              let resolved : Option (machine × secondary_page_entry) :=
                if e.copy_on_write ≠ 0 ∧
                    (faulttype = VM_FAULT_READONLY ∨ faulttype = VM_FAULT_WRITE) then
                  vm_fault_cow kvaddr m e
                else ensure_paddr kvaddr m e
              match resolved with
              | none => none
              | some (m1, e1) =>
                let high := faultaddress &&& TLBHI_VPAGE
                some (0, tlb_random slot m1 high e1.paddr, some (some (write_page as p e1)))

/-! ## Address spaces (`addrspace.c`) -/

/-- The function `as_create` of `addrspace.c`; the address space is `none`
when `kmalloc` returns `NULL`. -/
def as_create (m : machine) : machine × Option addrspace :=
  match kmalloc m with
  | (false, m1) => (m1, none)
  | (true, m1) =>
    (m1, some
      { as_region := [],
        page_table := fun i => ({ vaddr_prefix := i, target := none }),
        as_heap_start := 0,
        as_heap_end := 0 })

/-- One iteration of the `while` loop of `as_copy` (lines 94-119), for the
node `cur`: the machine, the old and the new address space afterwards. -/
def as_copy_step (cur : region) (m : machine) (old newas : addrspace) :
    Option (machine × addrspace × addrspace) :=
  match load_page old cur.vbase with
  | none => none
  | some (old_ptr, old_page) =>
    match add_single_vaddr_page m newas cur.vbase old_page.flags with
    | none => none
    | some (m1, newas1) =>
      match get_page newas1 cur.vbase with
      | none => none
      | some new_ptr =>
        if old_page.paddr ≠ USERSPACETOP then
          match new_ptr with
          | none => none
          | some np =>
            match page_at newas1 np with
            | none => none
            | some new_page =>
              let new_page1 := { new_page with paddr := old_page.paddr }
              let new_page2 := { new_page1 with copy_on_write := 1 }
              let new_page3 :=
                { new_page2 with paddr := new_page2.paddr &&& ((WORD - 1) ^^^ TLBLO_DIRTY) }
              let old_page1 := { old_page with copy_on_write := 1 }
              let old_page2 :=
                { old_page1 with paddr := old_page1.paddr &&& ((WORD - 1) ^^^ TLBLO_DIRTY) }
              match increment_ref_count m1 new_page3.paddr with
              | none => none
              | some m2 =>
                some (tlb_remove_entry m2 new_page3.vaddr,
                  write_page old old_ptr old_page2, write_page newas1 np new_page3)
        else some (m1, old, newas1)

/-- The `while` loop of `as_copy` (lines 92-121) from the node `cur` on. -/
def as_copy_loop : List region → machine → addrspace → addrspace →
    Option (machine × addrspace × addrspace)
  | [], m, old, newas => some (m, old, newas)
  | cur :: rest, m, old, newas =>
    match as_copy_step cur m old newas with
    | none => none
    | some (m1, old1, newas1) => as_copy_loop rest m1 old1 newas1

/-- The function `as_copy` of `addrspace.c`: the return value, the machine, the
old address space and `*ret` afterwards (`none` when `*ret` is not written);
the outer `none` is the kernel stopping. -/
def as_copy (m : machine) (old : addrspace) :
    Option (Int × machine × addrspace × Option addrspace) :=
  match as_create m with
  | (m1, none) => some (ENOMEM, m1, old, none)
  | (m1, some newas) =>
    let newas1 := { newas with as_heap_start := old.as_heap_start }
    let newas2 := { newas1 with as_heap_end := old.as_heap_end }
    match as_copy_loop old.as_region m1 old newas2 with
    | none => none
    | some (m2, old1, newas3) => some (0, m2, old1, some newas3)

/-- The function `as_deactivate` of `addrspace.c` (and `as_activate`, whose
body is the same); `has_as` tells whether `proc_getas()` is non-null. -/
def as_deactivate (has_as : Bool) (m : machine) : machine :=
  if has_as then
    (List.range NUM_TLB).foldl (fun m1 i => tlb_write m1 (TLBHI_INVALID i) TLBLO_INVALID i) m
  else m

/-- The `while` loop of `as_destroy` (lines 134-146) from `region_node` on. -/
def as_destroy_loop (as : addrspace) : List region → machine → Option machine
  | [], m => some m
  | region_node :: rest, m =>
    match load_page as region_node.vbase with
    | none => none
    | some (_, page) =>
      if page.paddr ≠ USERSPACETOP then
        as_destroy_loop as rest (decrement_ref_count m (page.paddr &&& TLBLO_PPAGE))
      else as_destroy_loop as rest m

/-- The function `as_destroy` of `addrspace.c`. The address space is consumed;
the `kfree` calls on region nodes and secondary tables leave no trace in the
machine. -/
def as_destroy (has_as : Bool) (m : machine) (as : addrspace) : Option machine :=
  as_destroy_loop as as.as_region (as_deactivate has_as m)

/-- The `for` loop shared by `as_define_region` and `as_define_region_noheap`
(lines 239-252 and 273-286). Since `memsize` is a multiple of `PAGE_SIZE`
the loop `for (i = 0; i < memsize; i += PAGE_SIZE)` runs
`memsize / PAGE_SIZE` times; the first argument counts the iterations left. -/
def define_pages (flags : Int) (vaddr : Nat) :
    Nat → Nat → machine → addrspace → Option (Int × machine × addrspace)
  | 0, _, m, as => some (0, m, as)
  | n + 1, i, m, as =>
    match add_single_vaddr_page m as ((vaddr + i) % WORD) flags with
    | none => none
    | some (m1, as1) =>
      match kmalloc m1 with
      | (false, m2) => some (EFAULT, m2, as1)
      | (true, m2) =>
        define_pages flags vaddr n ((i + PAGE_SIZE) % WORD) m2
          { as1 with
            as_region := ({ vbase := (vaddr + i) % WORD, old_flags := flags }) :: as1.as_region }

/-- The function `as_define_region` of `addrspace.c`. -/
def as_define_region (m : machine) (as : addrspace) (vaddr memsize : Nat)
    (readable writeable executable : Int) : Option (Int × machine × addrspace) :=
  let memsize1 := (memsize + (vaddr &&& ((WORD - 1) ^^^ PAGE_FRAME))) % WORD
  let vaddr1 := vaddr &&& PAGE_FRAME
  let memsize2 := ((memsize1 + PAGE_SIZE - 1) % WORD) &&& PAGE_FRAME
  let flags := Int.lor (Int.lor readable writeable) executable
  let as1 :=
    if writeable ≠ 0 then
      { as with
        as_heap_start := ((vaddr1 &&& PAGE_FRAME) + memsize2) % WORD,
        as_heap_end := ((vaddr1 &&& PAGE_FRAME) + memsize2) % WORD }
    else as
  define_pages flags vaddr1 (memsize2 / PAGE_SIZE) 0 m as1

/-- The function `as_define_region_noheap` of `addrspace.c`. -/
def as_define_region_noheap (m : machine) (as : addrspace) (vaddr memsize : Nat)
    (readable writeable executable : Int) : Option (Int × machine × addrspace) :=
  let memsize1 := (memsize + (vaddr &&& ((WORD - 1) ^^^ PAGE_FRAME))) % WORD
  let vaddr1 := vaddr &&& PAGE_FRAME
  let memsize2 := ((memsize1 + PAGE_SIZE - 1) % WORD) &&& PAGE_FRAME
  let flags := Int.lor (Int.lor readable writeable) executable
  define_pages flags vaddr1 (memsize2 / PAGE_SIZE) 0 m as

/-- The `while` loop of `as_remove_region` (lines 297-321) from `cur` on: the
machine afterwards and the nodes that stay linked, in order. The page table
is only read. -/
def as_remove_region_loop (as : addrspace) (vaddr memsize : Nat) :
    List region → machine → Option (machine × List region)
  | [], m => some (m, [])
  | cur :: rest, m =>
    if cur.vbase ≥ vaddr ∧ cur.vbase < (vaddr + memsize) % WORD then
      match load_page as cur.vbase with
      | none => none
      | some (_, page) =>
        if page.paddr ≠ USERSPACETOP then
          as_remove_region_loop as vaddr memsize rest
            (decrement_ref_count m (page.paddr &&& TLBLO_PPAGE))
        else as_remove_region_loop as vaddr memsize rest m
    else
      match as_remove_region_loop as vaddr memsize rest m with
      | none => none
      | some (m1, kept) => some (m1, cur :: kept)

/-- The function `as_remove_region` of `addrspace.c`. -/
def as_remove_region (m : machine) (as : addrspace) (vaddr memsize : Nat) :
    Option (machine × addrspace) :=
  match as_remove_region_loop as vaddr memsize as.as_region m with
  | none => none
  | some (m1, kept) => some (m1, { as with as_region := kept })

/-- The C expression `!x` on a word: 1 when `x` is 0, else 0. -/
def LNOT (x : Nat) : Nat := if x = 0 then 1 else 0

/-- The `while` loop of `as_prepare_load` (lines 328-348) from the node
`regions` on: the machine, the address space (its page table) and the nodes
walked, with their `old_flags` as the loop leaves them. -/
def as_prepare_load_loop : List region → machine → addrspace →
    Option (machine × addrspace × List region)
  | [], m, as => some (m, as, [])
  | regions :: rest, m, as =>
    match load_page as regions.vbase with
    | none => none
    | some (ptr, page) =>
      let node : region := { regions with old_flags := page.flags }
      let page1 := { page with flags := Int.lor page.flags PF_W }
      if page1.paddr ≠ USERSPACETOP ∧ page1.paddr &&& TLBLO_DIRTY = 0 then
        match as_prepare_load_loop rest (tlb_remove_entry m page1.vaddr)
            (write_page as ptr { page1 with paddr := page1.paddr ||| TLBLO_DIRTY }) with
        | none => none
        | some (m2, as2, nodes) => some (m2, as2, node :: nodes)
      else
        match as_prepare_load_loop rest m (write_page as ptr page1) with
        | none => none
        | some (m2, as2, nodes) => some (m2, as2, node :: nodes)

/-- The function `as_prepare_load` of `addrspace.c`. -/
def as_prepare_load (m : machine) (as : addrspace) : Option (Int × machine × addrspace) :=
  match as_prepare_load_loop as.as_region m as with
  | none => none
  | some (m1, as1, nodes) => some (0, m1, { as1 with as_region := nodes })

/-- The `while` loop of `as_complete_load` (lines 356-375) from the node
`regions` on. The region nodes are only read. -/
def as_complete_load_loop : List region → machine → addrspace → Option (machine × addrspace)
  | [], m, as => some (m, as)
  | regions :: rest, m, as =>
    match load_page as regions.vbase with
    | none => none
    | some (ptr, page) =>
      let page1 := { page with flags := regions.old_flags }
      if page1.paddr ≠ USERSPACETOP ∧ Int.land page1.flags PF_W = 0 ∧
          page1.paddr &&& TLBLO_DIRTY = 1 then
        as_complete_load_loop rest (tlb_remove_entry m page1.vaddr)
          (write_page as ptr { page1 with paddr := page1.paddr &&& LNOT TLBLO_DIRTY })
      else as_complete_load_loop rest m (write_page as ptr page1)

/-- The function `as_complete_load` of `addrspace.c`. -/
def as_complete_load (m : machine) (as : addrspace) : Option (Int × machine × addrspace) :=
  match as_complete_load_loop as.as_region m as with
  | none => none
  | some (m1, as1) => some (0, m1, as1)

/-! ## The heap primitive (`sbrk.c`) -/

/-- Lines 14-16 of `sys_sbrk`: the amount after the rounding step. The C
remainder truncates towards zero. -/
def sbrk_round (amount : Int) : Int :=
  if Int.tmod amount 4 ≠ 0 then amount + (4 - Int.tmod amount 4) else amount

/-- The function `sys_sbrk` of `sbrk.c` on the current address space `as`
(`proc_getas()` is taken to be non-null). The result is the return value,
`*retval` (`none` when it is not written; the word is the same read as `int`
or as `vaddr_t`), the machine and the address space. On 32 bits `x - 1` is
`(2 ^ 32 - 1) + x` and `x - y` is `(2 ^ 32 - y) + x`, both modulo `2 ^ 32`. -/
def sys_sbrk (m : machine) (as : addrspace) (amount0 : Int) :
    Option (Int × Option Nat × machine × addrspace) :=
  let amount := sbrk_round amount0
  let heapEnd := as.as_heap_end
  let heapStart := as.as_heap_start
  let sum := (((heapEnd : Int) + amount) % (WORD : Int)).toNat
  if sum < heapStart then some (EINVAL, none, m, as)
  else if sum > USERSPACETOP then some (EINVAL, none, m, as)
  else if amount > 536870912 ∨ amount < -536870912 then some (ENOMEM, none, m, as)
  else
    let retval := heapEnd
    let heapEnd1 := sum
    if amount > 0 then
      if (((WORD - 1) + retval) % WORD) &&& PAGE_FRAME
          ≠ (((WORD - 1) + heapEnd1) % WORD) &&& PAGE_FRAME then
        let newBase := (PAGE_SIZE + ((((WORD - 1) + retval) % WORD) &&& PAGE_FRAME)) % WORD
        match as_define_region_noheap m as newBase (((WORD - newBase) + heapEnd1) % WORD)
            PF_R PF_W PF_X with
        | none => none
        | some (_, m1, as1) => some (0, some retval, m1, { as1 with as_heap_end := heapEnd1 })
      else some (0, some retval, m, { as with as_heap_end := heapEnd1 })
    else if amount < 0 then
      let base := (PAGE_SIZE + ((((WORD - 1) + heapEnd1) % WORD) &&& PAGE_FRAME)) % WORD
      match as_remove_region m as base (((WORD - base) + retval) % WORD) with
      | none => none
      | some (m1, as1) => some (0, some retval, m1, { as1 with as_heap_end := heapEnd1 })
    else some (0, some retval, m, { as with as_heap_end := heapEnd1 })

/-! ## Concrete states used to exercise the model -/

/-- The machine after `vm_bootstrap` and a TLB flush: every reference count
zero, every TLB slot invalid, memory zero, nothing released, `kmalloc` never
failing. -/
def boot_machine : machine :=
  { frame_table := fun _ => 0,
    ram := fun _ => 0,
    tlb := fun i => (TLBHI_INVALID i, TLBLO_INVALID),
    released := [],
    kheap := [] }

/-- The address space `as_create` builds. -/
def fresh_as : addrspace :=
  { as_region := [],
    page_table := fun i => ({ vaddr_prefix := i, target := none }),
    as_heap_start := 0,
    as_heap_end := 0 }

/-- Scenario S1/S6 of the specification: a fresh address space with the region
`0x400000`, one page, defined readable and executable. -/
def text_as : addrspace :=
  match as_define_region boot_machine fresh_as 0x400000 0x1000 PF_R 0 PF_X with
  | some (_, _, as) => as
  | none => fresh_as

/-- The outcome of a first read fault in `text_as`, at `0x400123`, for which
the allocator hands back the frame at kernel address `0x80005000`. -/
def text_read : Option (Int × machine × Option (Option addrspace)) :=
  vm_fault (some (some text_as)) 0x80005000 3 boot_machine VM_FAULT_READ 0x400123

/-- The machine after `text_read`. -/
def text_read_machine : machine :=
  match text_read with
  | some (_, m, _) => m
  | none => boot_machine

/-- The address space after `text_read`. -/
def text_read_as : addrspace :=
  match text_read with
  | some (_, _, some (some as)) => as
  | _ => text_as

/-- Scenario S2 of the specification: a fresh address space with the region
`0x10000000`, one page, defined readable and writable. -/
def data_as : addrspace :=
  match as_define_region boot_machine fresh_as 0x10000000 0x1000 PF_R PF_W 0 with
  | some (_, _, as) => as
  | none => fresh_as

/-- The outcome of a first write fault in `data_as`, at `0x10000000`, for
which the allocator hands back the frame at kernel address `0x80005000`. -/
def data_written : Option (Int × machine × Option (Option addrspace)) :=
  vm_fault (some (some data_as)) 0x80005000 3 boot_machine VM_FAULT_WRITE 0x10000000

/-- The machine after `data_written`. -/
def data_written_machine : machine :=
  match data_written with
  | some (_, m, _) => m
  | none => boot_machine

/-- The address space after `data_written`. -/
def data_written_as : addrspace :=
  match data_written with
  | some (_, _, some (some as)) => as
  | _ => data_as

/-- The outcome of `as_copy` on `data_written_as`. -/
def data_copied : Option (Int × machine × addrspace × Option addrspace) :=
  as_copy data_written_machine data_written_as

/-- The machine after `data_copied`. -/
def copied_machine : machine :=
  match data_copied with
  | some (_, m, _, _) => m
  | none => data_written_machine

/-- The old address space (the parent) after `data_copied`. -/
def copied_parent : addrspace :=
  match data_copied with
  | some (_, _, old, _) => old
  | none => data_written_as

/-- The new address space (the child) after `data_copied`. -/
def copied_child : addrspace :=
  match data_copied with
  | some (_, _, _, some newas) => newas
  | _ => fresh_as

/-- The outcome of a write fault in the parent after `data_copied`, at
`0x10000000`, for which the allocator hands back the frame at kernel address
`0x80006000`. -/
def parent_broken : Option (Int × machine × Option (Option addrspace)) :=
  vm_fault (some (some copied_parent)) 0x80006000 4 copied_machine VM_FAULT_WRITE 0x10000000

/-- The machine after `parent_broken`. -/
def broken_machine : machine :=
  match parent_broken with
  | some (_, m, _) => m
  | none => copied_machine

/-- The machine after `as_destroy` of the child of `data_copied` (scenario S3
of the specification). -/
def child_destroyed_machine : machine :=
  match as_destroy true copied_machine copied_child with
  | some m => m
  | none => copied_machine

/-- Scenario S4 of the specification: a fresh address space in which loading
the writable region `0x4ff000`, one page, has put both heap markers at
`0x500000`. -/
def heap_as : addrspace :=
  match as_define_region boot_machine fresh_as 0x4ff000 0x1000 PF_R PF_W 0 with
  | some (_, _, as) => as
  | none => fresh_as

/-- The outcome of `sbrk(0x1000)` in `heap_as`. -/
def heap_grown : Option (Int × Option Nat × machine × addrspace) :=
  sys_sbrk boot_machine heap_as 0x1000

/-- The address space after `heap_grown`. -/
def heap_grown_as : addrspace :=
  match heap_grown with
  | some (_, _, _, as) => as
  | none => heap_as

/-- The outcome of a write fault at `0x500000` after `heap_grown`, for which
the allocator hands back the frame at kernel address `0x80005000`. -/
def heap_written : Option (Int × machine × Option (Option addrspace)) :=
  vm_fault (some (some heap_grown_as)) 0x80005000 3 boot_machine VM_FAULT_WRITE 0x500000

/-- The machine after `heap_written`. -/
def heap_written_machine : machine :=
  match heap_written with
  | some (_, m, _) => m
  | none => boot_machine

/-- The address space after `heap_written`. -/
def heap_written_as : addrspace :=
  match heap_written with
  | some (_, _, some (some as)) => as
  | _ => heap_grown_as

/-- The address space after `as_prepare_load` on `text_read_as`. -/
def text_prepared_as : addrspace :=
  match as_prepare_load text_read_machine text_read_as with
  | some (_, _, as) => as
  | none => text_read_as

/-- The machine after `as_prepare_load` on `text_read_as`. -/
def text_prepared_machine : machine :=
  match as_prepare_load text_read_machine text_read_as with
  | some (_, m, _) => m
  | none => text_read_machine

/-- The pointer (root index, secondary index) that `add_single_vaddr_page` and
`get_page` compute for an address (lines 50-54 and 71-75 of `vm.c`). -/
def page_ptr (address : Nat) : Nat × Nat :=
  ((address % WORD / PAGE_SIZE) >>> 10,
   (address % WORD / PAGE_SIZE) ^^^ ((((address % WORD / PAGE_SIZE) >>> 10) <<< 10) % WORD))

/-- The entry `create_secondary_table` writes at index `i` of the table for
root index `pfx` (lines 144-147 of `vm.c`). -/
def blank_entry (pfx i : Nat) : secondary_page_entry :=
  { vaddr := ((pfx <<< 10) ||| i) % WORD,
    paddr := USERSPACETOP,
    copy_on_write := 0,
    flags := -1 }

/-- Integrity of the page table, as `as_create` and `create_secondary_table`
establish it and the `KASSERT`s of `vm.c` check it: every root entry holds its
own index and every entry of a secondary table holds its page number. -/
def pt_wf (as : addrspace) : Prop :=
  ∀ i, i < NUM_ROOT_ENTRIES →
    root_page_entry.vaddr_prefix (as.page_table i) = i ∧
    ∀ t, (as.page_table i).target = some t →
      ∀ j, j < NUM_SECONDARY_ENTRIES → (t j).vaddr = i * 1024 + j

/-- The address space after `create_secondary_table` has installed a new
secondary table at root index `pfx` (lines 137-148 of `vm.c`). -/
def install_table (as : addrspace) (pfx : Nat) : addrspace :=
  { as with
    page_table := Function.update as.page_table pfx
      ({ vaddr_prefix := root_page_entry.vaddr_prefix (as.page_table pfx),
         target := some (blank_entry pfx) }) }

/-- Two region nodes whose pages both have a frame in `as` name different
frames. -/
def frames_differ (as : addrspace) (r s : region) : Prop :=
  ∀ e e1, page_at as (page_ptr r.vbase) = some e → page_at as (page_ptr s.vbase) = some e1 →
    e.paddr ≠ USERSPACETOP → e1.paddr ≠ USERSPACETOP → e.paddr >>> 12 ≠ e1.paddr >>> 12

/-- What `as_copy` has done for the page of the region node `r` of the old
address space: `m`, `a` are the machine and the old address space before the
copy, `m1`, `a1`, `b` the machine, the old and the new address space after it.
If the page had a frame, the two entries hold the same `paddr` word, which
names that frame and has `TLBLO_DIRTY` clear, both have `copy_on_write = 1`,
and the frame's reference count is one higher; if it had none, both entries
have none. In both cases the new entry has the flags of the old one. -/
def copied_page (m m1 : machine) (a a1 b : addrspace) (r : region) : Prop :=
  ∃ e, page_at a (page_ptr r.vbase) = some e ∧
    (e.paddr ≠ USERSPACETOP →
      ∃ ea eb, page_at a1 (page_ptr r.vbase) = some ea ∧
        page_at b (page_ptr r.vbase) = some eb ∧
        ea.paddr = eb.paddr ∧ ea.paddr >>> 12 = e.paddr >>> 12 ∧
        ea.copy_on_write = 1 ∧ eb.copy_on_write = 1 ∧
        ea.paddr &&& TLBLO_DIRTY = 0 ∧ eb.paddr &&& TLBLO_DIRTY = 0 ∧
        eb.flags = e.flags ∧
        m1.frame_table (e.paddr >>> 12) = m.frame_table (e.paddr >>> 12) + 1) ∧
    (e.paddr = USERSPACETOP →
      ∃ ea eb, page_at a1 (page_ptr r.vbase) = some ea ∧
        page_at b (page_ptr r.vbase) = some eb ∧
        ea.paddr = USERSPACETOP ∧ eb.paddr = USERSPACETOP ∧ eb.flags = e.flags)

/-- A fresh address space with the region `0x10000000`, two pages, defined
readable and writable. -/
def two_page_as : addrspace :=
  match as_define_region boot_machine fresh_as 0x10000000 0x2000 PF_R PF_W 0 with
  | some (_, _, as) => as
  | none => fresh_as

/-- The address space `two_page_as` in which both pages name frame 5: each
entry holds the word `0x5200` (frame 5, `TLBLO_VALID`). -/
def alias_as : addrspace :=
  write_page
    (write_page two_page_as (64, 0)
      ({ vaddr := 0x10000, paddr := 0x5200, copy_on_write := 0, flags := 6 }))
    (64, 1) ({ vaddr := 0x10001, paddr := 0x5200, copy_on_write := 0, flags := 6 })

/-- The machine `boot_machine` in which frame 5 has reference count 2, the
number of page entries of `alias_as` that name it. -/
def alias_machine : machine :=
  { boot_machine with frame_table := fun f => if f = 5 then 2 else 0 }

/-- The specification's rounding of `sys_sbrk`: the amount rounded up to a
multiple of 4, that is the smallest multiple of 4 greater than or equal to
the amount, to be compared with `sbrk_round`. -/
def round_up_4 (amount : Int) : Int := 4 * ((amount + 3) / 4)

/-- The outcome of `sbrk(1)` in `heap_as`. -/
def heap_plus_one : Option (Int × Option Nat × machine × addrspace) :=
  sys_sbrk boot_machine heap_as 1

/-- The outcome of `sbrk(-1)` after `heap_plus_one`. -/
def heap_plus_minus_one : Option (Int × Option Nat × machine × addrspace) :=
  match heap_plus_one with
  | some (_, _, m, as) => sys_sbrk m as (-1)
  | none => none

/-- The outcome of `as_remove_region` on the heap page `0x500000` after
`heap_written`. -/
def heap_removed : Option (machine × addrspace) :=
  as_remove_region heap_written_machine heap_written_as 0x500000 0x1000

/-- The machine after `heap_removed`. -/
def heap_removed_machine : machine :=
  match heap_removed with
  | some (m, _) => m
  | none => heap_written_machine

/-- The address space after `heap_removed`. -/
def heap_removed_as : addrspace :=
  match heap_removed with
  | some (_, as) => as
  | none => heap_written_as

/-- The machine after `as_complete_load` on `text_prepared_as`. -/
def text_completed_machine : machine :=
  match as_complete_load text_prepared_machine text_prepared_as with
  | some (_, m, _) => m
  | none => text_prepared_machine

/-- The address space after `as_complete_load` on `text_prepared_as`. -/
def text_completed_as : addrspace :=
  match as_complete_load text_prepared_machine text_prepared_as with
  | some (_, _, as) => as
  | none => text_prepared_as

/-- The machine after `heap_grown`. -/
def heap_grown_machine : machine :=
  match heap_grown with
  | some (_, _, m, _) => m
  | none => boot_machine

/-- The address space `as` after the two stores `as->as_heap_start = hs` and
`as->as_heap_end = he`. -/
def set_heap (hs he : Nat) (as : addrspace) : addrspace :=
  { as with as_heap_start := hs, as_heap_end := he }

/-- Lines 222 and 263 of `addrspace.c`: the base of a region after
`vaddr &= PAGE_FRAME`. -/
def aligned_base (vaddr : Nat) : Nat := vaddr &&& PAGE_FRAME

/-- Lines 221-225 and 262-266 of `addrspace.c`: the size of a region after
`memsize += vaddr & ~PAGE_FRAME` and
`memsize = (memsize + PAGE_SIZE - 1) & PAGE_FRAME`. -/
def aligned_size (vaddr memsize : Nat) : Nat :=
  ((((memsize + (vaddr &&& ((WORD - 1) ^^^ PAGE_FRAME))) % WORD) + PAGE_SIZE - 1) % WORD)
    &&& PAGE_FRAME

/-- Line 331 of `addrspace.c`, `regions->old_flags = page->flags`: the region
node `r` after `as_prepare_load` has saved the flags of its page in `as`. -/
def save_flags (as : addrspace) (r : region) : region :=
  match load_page as r.vbase with
  | some (_, page) => { r with old_flags := page.flags }
  | none => r

/-- The entry a page has: the entry its pointer leads to or, where the
secondary table does not exist yet, the undefined entry that
`create_secondary_table` puts there (no frame, flags -1). -/
def entry_view (as : addrspace) (q : Nat × Nat) : secondary_page_entry :=
  match page_at as q with
  | some e => e
  | none => blank_entry q.1 q.2

/-- What `as_define_region` and `as_define_region_noheap` are to achieve for
the `n` pages from `base` on, with `res` the outcome of the call on machine `m`
and address space `as`: the call returns 0; one region node per page has been
pushed, in ascending order, in front of the nodes of `as`, each with
`old_flags = flags`; every such page has an entry, which is the entry it had
with `flags` stored; every other entry is as it was; the frame table, memory
and the released frames are as they were. -/
def pages_defined (m : machine) (as : addrspace) (base n : Nat) (flags : Int)
    (res : Option (Int × machine × addrspace)) : Prop :=
  ∃ m1 as1, res = some (0, m1, as1) ∧
    as1.as_region = (List.range n).reverse.map
      (fun k => ({ vbase := base + k * PAGE_SIZE, old_flags := flags } : region))
      ++ as.as_region ∧
    (∀ k, k < n → page_at as1 (page_ptr (base + k * PAGE_SIZE)) ≠ none ∧
      entry_view as1 (page_ptr (base + k * PAGE_SIZE))
        = { entry_view as (page_ptr (base + k * PAGE_SIZE)) with flags := flags }) ∧
    (∀ q, (∀ k, k < n → q ≠ page_ptr (base + k * PAGE_SIZE)) →
      entry_view as1 q = entry_view as q) ∧
    m1.frame_table = m.frame_table ∧ m1.ram = m.ram ∧ m1.released = m.released

/-- The test of line 298 of `addrspace.c`,
`cur->vbase >= vaddr && cur->vbase < vaddr + memsize`, on the node `r`. -/
def in_range (vaddr memsize : Nat) (r : region) : Bool :=
  decide (r.vbase ≥ vaddr ∧ r.vbase < (vaddr + memsize) % WORD)

/-- Modelled from the spec: `USERSTACK`, the top of the user stack, absent
from the sources; in OS/161 it is `USERSPACETOP`. -/
def USERSTACK : Nat := USERSPACETOP

/-- The function `as_define_stack` of `addrspace.c`: the return value,
`*stackptr` (`none` when it is not written), the machine and the address
space. `stack_size` is `USERSTACK_SIZE`, which the sources do not define. -/
def as_define_stack (stack_size : Nat) (m : machine) (as : addrspace) :
    Option (Int × Option Nat × machine × addrspace) :=
  match as_define_region_noheap m as ((USERSTACK + (WORD - stack_size % WORD)) % WORD)
      stack_size 4 2 0 with
  | none => none
  | some (err, m1, as1) =>
    if err ≠ 0 then some (err, none, m1, as1)
    else some (0, some ((USERSTACK + (WORD - 1)) % WORD), m1, as1)

/-- A permission argument or flags word that is a bit mask within
`PF_R | PF_W | PF_X`. -/
def flags_ok (f : Int) : Prop := 0 ≤ f ∧ f ≤ 7

/-- The address spaces reachable from `as_create` through the operations of
`addrspace.c`, `sbrk.c` and `vm_fault`, each on any machine state and with any
arguments; `P` restricts the permission arguments of `as_define_region` and
`as_define_region_noheap`, `Q` the address spaces `as_prepare_load` is called
on. `as_copy` makes both the old and the new address space reachable. -/
inductive reachable (P : Int → Prop) (Q : addrspace → Prop) : addrspace → Prop
  | create (m m1 : machine) (as : addrspace) :
      as_create m = (m1, some as) → reachable P Q as
  | define_region (m m1 : machine) (as as1 : addrspace) (vaddr memsize : Nat)
      (rd wr ex ret : Int) :
      reachable P Q as → P rd → P wr → P ex →
      as_define_region m as vaddr memsize rd wr ex = some (ret, m1, as1) → reachable P Q as1
  | define_region_noheap (m m1 : machine) (as as1 : addrspace) (vaddr memsize : Nat)
      (rd wr ex ret : Int) :
      reachable P Q as → P rd → P wr → P ex →
      as_define_region_noheap m as vaddr memsize rd wr ex = some (ret, m1, as1) →
      reachable P Q as1
  | define_stack (m m1 : machine) (as as1 : addrspace) (stack_size : Nat) (ret : Int)
      (sp : Option Nat) :
      reachable P Q as → as_define_stack stack_size m as = some (ret, sp, m1, as1) →
      reachable P Q as1
  | remove_region (m m1 : machine) (as as1 : addrspace) (vaddr memsize : Nat) :
      reachable P Q as → as_remove_region m as vaddr memsize = some (m1, as1) →
      reachable P Q as1
  | prepare_load (m m1 : machine) (as as1 : addrspace) (ret : Int) :
      reachable P Q as → Q as → as_prepare_load m as = some (ret, m1, as1) →
      reachable P Q as1
  | complete_load (m m1 : machine) (as as1 : addrspace) (ret : Int) :
      reachable P Q as → as_complete_load m as = some (ret, m1, as1) → reachable P Q as1
  | sbrk (m m1 : machine) (as as1 : addrspace) (amount ret : Int) (rv : Option Nat) :
      reachable P Q as → sys_sbrk m as amount = some (ret, rv, m1, as1) → reachable P Q as1
  | fault (m m1 : machine) (as as1 : addrspace) (kvaddr slot : Nat) (faulttype ret : Int)
      (faultaddress : Nat) :
      reachable P Q as →
      vm_fault (some (some as)) kvaddr slot m faulttype faultaddress
        = some (ret, m1, some (some as1)) →
      reachable P Q as1
  | copy_old (m m1 : machine) (old old1 : addrspace) (ret : Int) (newas : Option addrspace) :
      reachable P Q old → as_copy m old = some (ret, m1, old1, newas) → reachable P Q old1
  | copy_new (m m1 : machine) (old old1 newas : addrspace) (ret : Int) :
      reachable P Q old → as_copy m old = some (ret, m1, old1, some newas) →
      reachable P Q newas

/-- The invariant of the data model on region nodes, with the page-table
integrity it rests on: every region node holds flags from the set `F` in
`old_flags`, and its page has an entry whose flags are in `F`. -/
def region_inv (F : Int → Prop) (as : addrspace) : Prop :=
  pt_wf as ∧
  ∀ r ∈ as.as_region, F r.old_flags ∧
    ∃ e, page_at as (page_ptr r.vbase) = some e ∧ F e.flags

/-- The set `F` of flags words holds the permission bits that the code itself
passes (`PF_R`, `PF_W`, `PF_X` in `sys_sbrk`, 4, 2 and 0 in `as_define_stack`)
and is closed under the bitwise or of `as_define_region` and
`as_prepare_load`. -/
def perm_closed (F : Int → Prop) : Prop :=
  (∀ a b, F a → F b → F (Int.lor a b)) ∧ F PF_R ∧ F PF_W ∧ F PF_X ∧ F 0

/-- Every node of the list `l` names a page that has an entry in `as` whose
flags are in the set `F`. -/
def pages_ok (F : Int → Prop) (as : addrspace) (l : List region) : Prop :=
  ∀ r ∈ l, ∃ e, page_at as (page_ptr r.vbase) = some e ∧ F e.flags

/-- A `paddr` word is the sentinel `USERSPACETOP` (no frame) or has
`TLBLO_VALID` set, as every word that `ensure_paddr` composes has. -/
def word_ok (x : Nat) : Prop := x = USERSPACETOP ∨ x &&& TLBLO_VALID ≠ 0

/-- Every page entry of `as` satisfies `K`. -/
def entries_all (K : secondary_page_entry → Prop) (as : addrspace) : Prop :=
  ∀ q e, page_at as q = some e → K e

/-- The invariant of the data model on copy-on-write entries, with the shape
of `paddr` words it rests on: the word is the sentinel or has `TLBLO_VALID`,
and an entry with `copy_on_write` set has a frame and `TLBLO_DIRTY` clear. -/
def cow_ok (e : secondary_page_entry) : Prop :=
  word_ok e.paddr ∧
  (e.copy_on_write ≠ 0 → e.paddr ≠ USERSPACETOP ∧ e.paddr &&& TLBLO_DIRTY = 0)

/-- No page entry of `as` has `copy_on_write` set. -/
def no_cow (as : addrspace) : Prop :=
  entries_all (fun e => e.copy_on_write = 0) as

/-- The property `K` of page entries holds of the undefined entries that
`create_secondary_table` writes and is kept by every store the code makes
outside `as_prepare_load`: of flags, by `ensure_paddr`, by the copy-on-write
branch of `vm_fault`, and of the shared word and `copy_on_write = 1` in
`as_copy`. -/
def entry_closed (K : secondary_page_entry → Prop) : Prop :=
  (∀ a b, K (blank_entry a b)) ∧
  (∀ e f, K e → K { e with flags := f }) ∧
  (∀ kv m m1 e e1, K e → ensure_paddr kv m e = some (m1, e1) → K e1) ∧
  (∀ kv m m1 e e1, K e → e.copy_on_write ≠ 0 → vm_fault_cow kv m e = some (m1, e1) → K e1) ∧
  (∀ e e1, K e → K e1 → e.paddr ≠ USERSPACETOP →
    K { e1 with paddr := e.paddr &&& ((WORD - 1) ^^^ TLBLO_DIRTY), copy_on_write := 1 })

/-- The outcome of `as_prepare_load` on the parent after `data_copied`. -/
def parent_prepared : Option (Int × machine × addrspace) :=
  as_prepare_load copied_machine copied_parent

/-- The machine after `parent_prepared`. -/
def parent_prepared_machine : machine :=
  match parent_prepared with
  | some (_, m, _) => m
  | none => copied_machine

/-- The address space after `parent_prepared`. -/
def parent_prepared_as : addrspace :=
  match parent_prepared with
  | some (_, _, as) => as
  | none => copied_parent

/-- The machine `boot_machine` in which the next `kmalloc` fails. -/
def starved_machine : machine := { boot_machine with kheap := [false] }

/-- The outcome of `sbrk(0x1000)` in `heap_as` when the `kmalloc` of the region
node fails. -/
def heap_starved : Option (Int × Option Nat × machine × addrspace) :=
  sys_sbrk starved_machine heap_as 0x1000

/-- The number of pages that hold the bytes of the heap `[hs, he)` when `hs` is
page-aligned: `he - hs` rounded up to whole pages. -/
def heap_pages (hs he : Nat) : Nat := (he - hs + (PAGE_SIZE - 1)) / PAGE_SIZE

/-- The base addresses of the region nodes of `as` whose `vbase` lies in
`[as_heap_start, L)`, in the order of the region list. -/
def heap_nodes (as : addrspace) (L : Nat) : List Nat :=
  (as.as_region.filter (fun r => decide (as.as_heap_start ≤ r.vbase ∧ r.vbase < L))).map
    (fun r => r.vbase)

/-- Heap page coverage: the region nodes with `vbase` in `[as_heap_start, L)`
are, once each and from the highest down, the page bases
`as_heap_start + k * PAGE_SIZE` below `as_heap_end`, and each of these pages has
an entry with flags `PF_R | PF_W | PF_X`. -/
def heap_cover (as : addrspace) (L : Nat) : Prop :=
  heap_nodes as L
    = (List.range (heap_pages as.as_heap_start as.as_heap_end)).reverse.map
        (fun k => as.as_heap_start + k * PAGE_SIZE) ∧
  ∀ k, k < heap_pages as.as_heap_start as.as_heap_end →
    ∃ e, page_at as (page_ptr (as.as_heap_start + k * PAGE_SIZE)) = some e ∧
      e.flags = Int.lor (Int.lor PF_R PF_W) PF_X

/-- A sequence of successful `sys_sbrk` calls on one address space, from the
first argument's state to the second's: every call returns 0, is made on a
machine whose `kmalloc` calls all succeed, and leaves `as_heap_end` at most
`L`. The machine of each call and the amounts are arbitrary. -/
inductive sbrk_run (L : Nat) : addrspace → addrspace → Prop
  | nil (as : addrspace) : sbrk_run L as as
  | call (as as1 as2 : addrspace) (m m1 : machine) (amount : Int) (rv : Option Nat) :
      sbrk_run L as as1 → (∀ b ∈ m.kheap, b = true) →
      sys_sbrk m as1 amount = some (0, rv, m1, as2) → as2.as_heap_end ≤ L →
      sbrk_run L as as2

/-- The outcome of `sbrk(0x3000)` in `heap_as`. -/
def heap_grown_three : Option (Int × Option Nat × machine × addrspace) :=
  sys_sbrk boot_machine heap_as 0x3000

/-- The machine after `heap_grown_three`. -/
def heap_grown_three_machine : machine :=
  match heap_grown_three with
  | some (_, _, m, _) => m
  | none => boot_machine

/-- The address space after `heap_grown_three`. -/
def heap_grown_three_as : addrspace :=
  match heap_grown_three with
  | some (_, _, _, as) => as
  | none => heap_as

/-- The outcome of `sbrk(-0x2000)` after `heap_grown_three`. -/
def heap_shrunk_two : Option (Int × Option Nat × machine × addrspace) :=
  sys_sbrk heap_grown_three_machine heap_grown_three_as (-0x2000)

/-- The machine after `heap_shrunk_two`. -/
def heap_shrunk_two_machine : machine :=
  match heap_shrunk_two with
  | some (_, _, m, _) => m
  | none => heap_grown_three_machine

/-- The address space after `heap_shrunk_two`. -/
def heap_shrunk_two_as : addrspace :=
  match heap_shrunk_two with
  | some (_, _, _, as) => as
  | none => heap_grown_three_as

/-- The outcome of `sbrk(0x100)` in `heap_as`. -/
def heap_small : Option (Int × Option Nat × machine × addrspace) :=
  sys_sbrk boot_machine heap_as 0x100

/-- The machine after `heap_small`. -/
def heap_small_machine : machine :=
  match heap_small with
  | some (_, _, m, _) => m
  | none => boot_machine

/-- The address space after `heap_small`. -/
def heap_small_as : addrspace :=
  match heap_small with
  | some (_, _, _, as) => as
  | none => heap_as

/-- The outcome of `sbrk(-1)` after `heap_small`. -/
def heap_small_minus_one : Option (Int × Option Nat × machine × addrspace) :=
  sys_sbrk heap_small_machine heap_small_as (-1)

/-- The outcome of `sbrk(-0x1000)` after `heap_grown`. -/
def heap_restored : Option (Int × Option Nat × machine × addrspace) :=
  sys_sbrk heap_grown_machine heap_grown_as (-0x1000)

/-- The machine after `heap_restored`. -/
def heap_restored_machine : machine :=
  match heap_restored with
  | some (_, _, m, _) => m
  | none => heap_grown_machine

/-- The address space after `heap_restored`. -/
def heap_restored_as : addrspace :=
  match heap_restored with
  | some (_, _, _, as) => as
  | none => heap_grown_as

/-! ## Arithmetic of addresses -/

theorem and_frame (x : Nat) (h : x < 2 ^ 32) : x &&& 0xfffff000 = x / 4096 * 4096 := by
  have e1 : (0xfffff000 : Nat) = (2 ^ 20 - 1) <<< 12 := by decide
  have e2 : x / 4096 * 4096 = (x >>> 12) <<< 12 := by
    rw [Nat.shiftRight_eq_div_pow, Nat.shiftLeft_eq]
  rw [e1, e2]
  apply Nat.eq_of_testBit_eq
  intro i
  rw [Nat.testBit_and, Nat.testBit_shiftLeft, Nat.testBit_shiftLeft, Nat.testBit_two_pow_sub_one,
    Nat.testBit_shiftRight]
  by_cases hi : 12 ≤ i
  · have : 12 + (i - 12) = i := by omega
    rw [this]
    by_cases h2 : i - 12 < 20
    · simp [hi, h2]
    · have : x < 2 ^ i := lt_of_lt_of_le h (Nat.pow_le_pow_right (by decide) (by omega))
      simp [hi, h2, Nat.testBit_lt_two_pow this]
  · simp [hi]

theorem xor_index (n : Nat) : n ^^^ ((n >>> 10) <<< 10) = n % 1024 := by
  apply Nat.eq_of_testBit_eq
  intro i
  have : (1024 : Nat) = 2 ^ 10 := by decide
  rw [this, Nat.testBit_xor, Nat.testBit_shiftLeft, Nat.testBit_shiftRight, Nat.testBit_mod_two_pow]
  by_cases hi : 10 ≤ i
  · have : 10 + (i - 10) = i := by omega
    have h3 : ¬ i < 10 := by omega
    simp [hi, this, h3]
  · have h3 : i < 10 := by omega
    simp [hi, h3]

theorem kvaddr_roundtrip (kvaddr : Nat) : PADDR_TO_KVADDR (KVADDR_TO_PADDR kvaddr) = kvaddr % WORD := by
  unfold PADDR_TO_KVADDR KVADDR_TO_PADDR WORD MIPS_KSEG0
  omega

/-! ## Reading and writing page entries -/

theorem page_at_write_page_same (as : addrspace) (p : Nat × Nat) (e e1 : secondary_page_entry)
    (h : page_at as p = some e) : page_at (write_page as p e1) p = some e1 := by
  unfold page_at at h
  unfold page_at write_page
  cases ht : (as.page_table p.1).target with
  | none => rw [ht] at h; exact absurd h (by simp)
  | some t => simp

theorem load_page_elim (as : addrspace) (v : Nat) (p : Nat × Nat) (e : secondary_page_entry)
    (h : load_page as v = some (p, e)) : get_page as v = some (some p) ∧ page_at as p = some e := by
  unfold load_page at h
  cases hg : get_page as v with
  | none => rw [hg] at h; exact absurd h (by simp)
  | some q =>
    cases q with
    | none => rw [hg] at h; exact absurd h (by simp)
    | some q =>
      rw [hg] at h
      cases hp : page_at as q with
      | none => simp only [hp] at h; exact absurd h (by simp)
      | some e1 =>
        simp only [hp] at h
        simp only [Option.some.injEq, Prod.mk.injEq] at h
        obtain ⟨h1, h2⟩ := h
        subst h1; subst h2
        exact ⟨rfl, hp⟩

theorem low_word (q d : Nat) (hd : d < 4096) : (q * 4096) ||| d = q * 4096 + d := by
  have h : d < 2 ^ 12 := by simpa using hd
  have := Nat.mul_add_lt_is_or h q
  rw [show (2:Nat) ^ 12 = 4096 from by decide] at this
  rw [Nat.mul_comm q 4096]
  exact this.symm

theorem get_page_write_page (as : addrspace) (p : Nat × Nat) (e1 : secondary_page_entry) (v : Nat) :
    get_page (write_page as p e1) v = get_page as v := by
  unfold write_page
  cases ht : (as.page_table p.1).target with
  | none => rfl
  | some t =>
    unfold get_page
    simp only
    generalize (v % WORD / PAGE_SIZE) >>> 10 = k
    generalize v % WORD / PAGE_SIZE = n
    by_cases hp : k = p.1
    · subst hp; simp [ht]
    · simp [Function.update_noteq hp]

theorem page_at_write_page_other (as : addrspace) (p q : Nat × Nat) (e1 : secondary_page_entry)
    (h : q ≠ p) : page_at (write_page as p e1) q = page_at as q := by
  unfold write_page
  cases ht : (as.page_table p.1).target with
  | none => rfl
  | some t =>
    unfold page_at
    simp only
    obtain ⟨q1, q2⟩ := q
    by_cases hp : q1 = p.1
    · have h2 : q2 ≠ p.2 := fun h2 => h (Prod.ext hp h2)
      subst hp
      simp [ht, Function.update_noteq h2]
    · simp [Function.update_noteq hp]

theorem load_page_intro (as : addrspace) (v : Nat) (p : Nat × Nat) (e : secondary_page_entry)
    (hg : get_page as v = some (some p)) (hp : page_at as p = some e) :
    load_page as v = some (p, e) := by
  simp [load_page, hg, hp]

theorem write_page_self (as : addrspace) (p : Nat × Nat) (e : secondary_page_entry)
    (h : page_at as p = some e) : write_page as p e = as := by
  unfold page_at at h
  unfold write_page
  cases ht : (as.page_table p.1).target with
  | none => rfl
  | some t =>
    rw [ht] at h
    simp only [Option.some.injEq] at h
    simp only
    have h1 : Function.update t p.2 e = t := by
      rw [← h]; exact Function.update_eq_self _ _
    rw [h1]
    have h2 : ({ vaddr_prefix := root_page_entry.vaddr_prefix (as.page_table p.1), target := some t } : root_page_entry) = as.page_table p.1 := by
      cases hr : as.page_table p.1 with
      | mk a b => rw [hr] at ht; simp at ht; simp [ht]
    rw [h2, Function.update_eq_self]


theorem or_valid_ne_sentinel (x : Nat) : x ||| TLBLO_VALID ≠ USERSPACETOP := by
  intro h
  have h1 := congrArg (fun z => Nat.testBit z 9) h
  simp only [Nat.testBit_or] at h1
  have h2 : Nat.testBit TLBLO_VALID 9 = true := by decide
  have h3 : Nat.testBit USERSPACETOP 9 = false := by decide
  rw [h2, h3] at h1
  simp at h1

theorem ensure_paddr_fresh (kvaddr : Nat) (m : machine) (e : secondary_page_entry)
    (hno : e.paddr = USERSPACETOP) (hkv : 0 < kvaddr) (hlt : kvaddr < WORD) :
    ensure_paddr kvaddr m e =
      some (bzero { m with frame_table := Function.update m.frame_table (KVADDR_TO_PADDR kvaddr >>> 12) 1 }
              kvaddr PAGE_SIZE,
            { e with paddr :=
                (if Int.land e.flags PF_W ≠ 0 then (TLBLO_PPAGE &&& KVADDR_TO_PADDR kvaddr) ||| TLBLO_DIRTY
                 else TLBLO_PPAGE &&& KVADDR_TO_PADDR kvaddr) ||| TLBLO_VALID }) := by
  obtain ⟨v, p, c, f⟩ := e
  have hk : PADDR_TO_KVADDR (KVADDR_TO_PADDR kvaddr) = kvaddr := by
    rw [kvaddr_roundtrip]; exact Nat.mod_eq_of_lt hlt
  have hk0 : kvaddr ≠ 0 := by omega
  have hp : p = USERSPACETOP := hno
  simp only [ensure_paddr, hp, if_true, hk, hk0, if_false]
  rw [if_pos (or_valid_ne_sentinel _)]

theorem ensure_paddr_present (kvaddr : Nat) (m : machine) (e : secondary_page_entry)
    (h : e.paddr ≠ USERSPACETOP) : ensure_paddr kvaddr m e = some (m, e) := by
  obtain ⟨v, p, c, f⟩ := e
  have hp : p ≠ USERSPACETOP := h
  simp only [ensure_paddr, if_neg hp]

theorem tlb_word_frame (a d : Nat) (ha : a < WORD) (hal : a % 4096 = 0) (hd : d < 4096) :
    ((TLBLO_PPAGE &&& a) ||| d) &&& TLBLO_PPAGE = a ∧ ((TLBLO_PPAGE &&& a) ||| d) >>> 12 = a >>> 12 := by
  unfold WORD at ha
  unfold TLBLO_PPAGE
  have h1 : (0xfffff000 : Nat) &&& a = a / 4096 * 4096 := by
    rw [Nat.and_comm]; exact and_frame a ha
  rw [h1, low_word _ _ hd]
  have h2 : a / 4096 * 4096 + d < 2 ^ 32 := by omega
  rw [and_frame _ h2]
  constructor <;> omega

theorem kvaddr_to_paddr_aligned (kvaddr : Nat) (halign : kvaddr % PAGE_SIZE = 0) :
    KVADDR_TO_PADDR kvaddr < WORD ∧ KVADDR_TO_PADDR kvaddr % 4096 = 0 := by
  unfold KVADDR_TO_PADDR WORD MIPS_KSEG0
  unfold PAGE_SIZE at halign
  omega

/-! ## The fault handler -/

theorem tlb_remove_entry_frame_table (m : machine) (v : Nat) :
    (tlb_remove_entry m v).frame_table = m.frame_table := by
  unfold tlb_remove_entry; simp only; split <;> rfl

theorem tlb_remove_entry_ram (m : machine) (v : Nat) :
    (tlb_remove_entry m v).ram = m.ram := by
  unfold tlb_remove_entry; simp only; split <;> rfl

theorem tlb_remove_entry_released (m : machine) (v : Nat) :
    (tlb_remove_entry m v).released = m.released := by
  unfold tlb_remove_entry; simp only; split <;> rfl

theorem dirty_bit_set (x : Nat) : ((x ||| TLBLO_DIRTY) ||| TLBLO_VALID) &&& TLBLO_DIRTY ≠ 0 := by
  intro h
  have h1 := congrArg (fun z => Nat.testBit z 10) h
  simp only [Nat.testBit_and, Nat.testBit_or, Nat.zero_testBit] at h1
  have h2 : Nat.testBit TLBLO_DIRTY 10 = true := by decide
  rw [h2] at h1
  simp at h1

theorem dirty_bit_clear (a : Nat) : ((TLBLO_PPAGE &&& a) ||| TLBLO_VALID) &&& TLBLO_DIRTY = 0 := by
  rw [Nat.and_distrib_right, Nat.and_comm TLBLO_PPAGE a, Nat.and_assoc]
  have h1 : TLBLO_PPAGE &&& TLBLO_DIRTY = 0 := by decide
  have h2 : TLBLO_VALID &&& TLBLO_DIRTY = 0 := by decide
  rw [h1, h2]; simp

theorem frames_apart (a b i j : Nat) (ha : a < WORD) (hb : b < WORD) (hal : a % 4096 = 0)
    (hne : a >>> 12 ≠ b >>> 12) (hi : i < 4096) (hj : j < 4096) :
    PADDR_TO_KVADDR (b &&& TLBLO_PPAGE) + i ≠ PADDR_TO_KVADDR a + j := by
  unfold TLBLO_PPAGE
  unfold WORD at ha hb
  rw [and_frame b hb]
  unfold PADDR_TO_KVADDR WORD MIPS_KSEG0
  omega

theorem decrement_ref_count_frame_table (m : machine) (k : Nat) :
    (decrement_ref_count m k).frame_table
      = Function.update m.frame_table (k >>> 12) (m.frame_table (k >>> 12) - 1) := by
  unfold decrement_ref_count
  dsimp only
  split <;> rfl

theorem decrement_ref_count_ram (m : machine) (k : Nat) : (decrement_ref_count m k).ram = m.ram := by
  unfold decrement_ref_count
  dsimp only
  split <;> rfl

theorem decrement_ref_count_tlb (m : machine) (k : Nat) : (decrement_ref_count m k).tlb = m.tlb := by
  unfold decrement_ref_count
  dsimp only
  split <;> rfl

theorem decrement_ref_count_kheap (m : machine) (k : Nat) :
    (decrement_ref_count m k).kheap = m.kheap := by
  unfold decrement_ref_count
  dsimp only
  split <;> rfl

theorem decrement_ref_count_released (m : machine) (k : Nat) :
    (decrement_ref_count m k).released
      = if m.frame_table (k >>> 12) - 1 = 0
        then PADDR_TO_KVADDR (((k >>> 12) <<< 12) % WORD) :: m.released else m.released := by
  unfold decrement_ref_count
  dsimp only
  rw [Function.update_same]
  split <;> rfl

theorem ram_after_copy (M : machine) (kv src i : Nat) (hi : i < 4096)
    (hapart : ∀ j, j < 4096 → src + i ≠ kv + j) :
    (memmove (bzero M kv PAGE_SIZE) kv src PAGE_SIZE).ram (kv + i) = M.ram (src + i) := by
  simp only [memmove, bzero, PAGE_SIZE]
  have h1 : kv ≤ kv + i ∧ kv + i < kv + 4096 := ⟨by omega, by omega⟩
  have h2 : ¬ (kv ≤ src + i ∧ src + i < kv + 4096) := by
    intro h
    exact hapart (src + i - kv) (by omega) (by omega)
  have h3 : kv + i - kv = i := by omega
  simp only [h1, h3, h2, and_self, if_true, if_false]


theorem vm_fault_cow_shared (kvaddr : Nat) (m : machine) (e : secondary_page_entry)
    (hframe : e.paddr ≠ USERSPACETOP) (hne1 : m.frame_table (e.paddr >>> 12) ≠ 1)
    (r : machine × secondary_page_entry)
    (hens : ensure_paddr kvaddr m { e with paddr := USERSPACETOP } = some r) :
    vm_fault_cow kvaddr m e
      = some (tlb_remove_entry (decrement_ref_count
          (memmove r.1 (PADDR_TO_KVADDR (r.2.paddr &&& TLBLO_PPAGE))
            (PADDR_TO_KVADDR (e.paddr &&& TLBLO_PPAGE)) PAGE_SIZE) e.paddr) r.2.vaddr,
          { r.2 with copy_on_write := 0 }) := by
  unfold vm_fault_cow
  dsimp only
  rw [if_neg hframe, if_neg hne1, hens]

theorem write_page_as_region (as : addrspace) (p : Nat × Nat) (e : secondary_page_entry) :
    (write_page as p e).as_region = as.as_region := by
  unfold write_page; split <;> rfl

theorem write_page_as_heap_start (as : addrspace) (p : Nat × Nat) (e : secondary_page_entry) :
    (write_page as p e).as_heap_start = as.as_heap_start := by
  unfold write_page; split <;> rfl

theorem write_page_as_heap_end (as : addrspace) (p : Nat × Nat) (e : secondary_page_entry) :
    (write_page as p e).as_heap_end = as.as_heap_end := by
  unfold write_page; split <;> rfl

/-- C3 (demand-zero fill): for a defined page (`flags ≠ -1`) with
`copy_on_write = 0` and no frame (`paddr` is the sentinel), when
`alloc_kpages(1)` hands back a non-null page-aligned kernel address `kvaddr`,
`vm_fault` of type `VM_FAULT_READ` or `VM_FAULT_WRITE` on an address of the
page returns 0. Afterwards the entry's `paddr` word is the new frame address
masked with `TLBLO_PPAGE`, or-ed with `TLBLO_VALID` and, exactly when the
flags include `PF_W`, with `TLBLO_DIRTY`; the word names the new frame; flags,
`copy_on_write` and `vaddr` are as before; the new frame has reference count
1; the 4096 bytes of the frame are zero; and TLB slot `slot` holds the pair
(`faultaddress & TLBHI_VPAGE`, the entry's `paddr` word). -/
theorem vm_fault_demand_zero (as : addrspace) (kvaddr slot : Nat) (m : machine) (faulttype : Int)
    (faultaddress : Nat) (p : Nat × Nat) (e : secondary_page_entry)
    (hpage : load_page as faultaddress = some (p, e))
    (hdef : e.flags ≠ -1) (hcow : e.copy_on_write = 0) (hno : e.paddr = USERSPACETOP)
    (htype : faulttype = VM_FAULT_READ ∨ faulttype = VM_FAULT_WRITE)
    (hkv : 0 < kvaddr) (hlt : kvaddr < WORD) (halign : kvaddr % PAGE_SIZE = 0) :
    ∃ m1 as1 e1,
      vm_fault (some (some as)) kvaddr slot m faulttype faultaddress
        = some (0, m1, some (some as1)) ∧
      load_page as1 faultaddress = some (p, e1) ∧
      e1.paddr = (if Int.land e.flags PF_W ≠ 0
        then ((TLBLO_PPAGE &&& KVADDR_TO_PADDR kvaddr) ||| TLBLO_DIRTY) ||| TLBLO_VALID
        else (TLBLO_PPAGE &&& KVADDR_TO_PADDR kvaddr) ||| TLBLO_VALID) ∧
      e1.paddr &&& TLBLO_PPAGE = KVADDR_TO_PADDR kvaddr ∧
      e1.paddr >>> 12 = KVADDR_TO_PADDR kvaddr >>> 12 ∧
      e1.flags = e.flags ∧ e1.copy_on_write = 0 ∧ e1.vaddr = e.vaddr ∧
      m1.frame_table (KVADDR_TO_PADDR kvaddr >>> 12) = 1 ∧
      (∀ i, i < PAGE_SIZE → m1.ram (kvaddr + i) = 0) ∧
      m1.tlb slot = (faultaddress &&& TLBHI_VPAGE, e1.paddr) := by
  obtain ⟨hg, hp⟩ := load_page_elim as faultaddress p e hpage
  obtain ⟨hnp, hnal⟩ := kvaddr_to_paddr_aligned kvaddr halign
  have hsw : vm_fault_switch as (some p) faulttype = some none := by
    unfold vm_fault_switch
    rcases htype with h | h <;> subst h <;> simp [VM_FAULT_READ, VM_FAULT_WRITE, VM_FAULT_READONLY]
  have hres : vm_fault (some (some as)) kvaddr slot m faulttype faultaddress
      = some (0, tlb_random slot
          (bzero { m with frame_table := Function.update m.frame_table (KVADDR_TO_PADDR kvaddr >>> 12) 1 }
              kvaddr PAGE_SIZE) (faultaddress &&& TLBHI_VPAGE)
          ((if Int.land e.flags PF_W ≠ 0 then (TLBLO_PPAGE &&& KVADDR_TO_PADDR kvaddr) ||| TLBLO_DIRTY
                 else TLBLO_PPAGE &&& KVADDR_TO_PADDR kvaddr) ||| TLBLO_VALID),
          some (some (write_page as p { e with paddr :=
                (if Int.land e.flags PF_W ≠ 0 then (TLBLO_PPAGE &&& KVADDR_TO_PADDR kvaddr) ||| TLBLO_DIRTY
                 else TLBLO_PPAGE &&& KVADDR_TO_PADDR kvaddr) ||| TLBLO_VALID }))) := by
    simp only [vm_fault, hg, hsw, hp, hdef, if_false, hcow, ne_eq, not_true_eq_false, false_and,
      ensure_paddr_fresh kvaddr m e hno hkv hlt]
  refine ⟨_, _, { e with paddr :=
      (if Int.land e.flags PF_W ≠ 0 then (TLBLO_PPAGE &&& KVADDR_TO_PADDR kvaddr) ||| TLBLO_DIRTY
       else TLBLO_PPAGE &&& KVADDR_TO_PADDR kvaddr) ||| TLBLO_VALID }, hres, ?_, ?_, ?_, ?_, ?_, ?_, ?_, ?_, ?_, ?_⟩
  · exact load_page_intro _ _ _ _ (by rw [get_page_write_page]; exact hg)
      (page_at_write_page_same as p e _ hp)
  · by_cases hw : Int.land e.flags PF_W ≠ 0
    · simp only [if_pos hw]
    · simp only [if_neg hw]
  · by_cases hw : Int.land e.flags PF_W ≠ 0
    · simp only [if_pos hw]
      rw [Nat.or_assoc]
      exact (tlb_word_frame _ _ hnp hnal (by decide)).1
    · simp only [if_neg hw]
      exact (tlb_word_frame _ _ hnp hnal (by decide)).1
  · by_cases hw : Int.land e.flags PF_W ≠ 0
    · simp only [if_pos hw]
      rw [Nat.or_assoc]
      exact (tlb_word_frame _ _ hnp hnal (by decide)).2
    · simp only [if_neg hw]
      exact (tlb_word_frame _ _ hnp hnal (by decide)).2
  · rfl
  · exact hcow
  · rfl
  · simp [tlb_random, tlb_write, bzero]
  · intro i hi
    simp only [tlb_random, tlb_write, bzero]
    rw [if_pos ⟨by omega, by omega⟩]
  · simp [tlb_random, tlb_write]

/-- C2 (copy-on-write break on a shared frame): for a defined page with
`copy_on_write = 1` backed by a frame whose reference count is at least 2,
when `alloc_kpages(1)` hands back a non-null page-aligned kernel address
`kvaddr` of another frame, `vm_fault` of type `VM_FAULT_WRITE` or
`VM_FAULT_READONLY` on an address of the page returns 0. Afterwards the
entry names the new frame, which differs from the old one, has reference
count 1 and holds the 4096 bytes of the old frame; the old frame's count is
one lower and nothing is released; `copy_on_write` is 0; `TLBLO_DIRTY` is set
in the new `paddr` word exactly when the flags include `PF_W`; and every
other page entry, the region list and the heap markers of the address space
are unchanged (no other address space is touched by `vm_fault`). -/
theorem vm_fault_cow_break (as : addrspace) (kvaddr slot : Nat) (m : machine) (faulttype : Int)
    (faultaddress : Nat) (p : Nat × Nat) (e : secondary_page_entry)
    (hpage : load_page as faultaddress = some (p, e))
    (hdef : e.flags ≠ -1) (hcow : e.copy_on_write = 1)
    (hframe : e.paddr ≠ USERSPACETOP) (hword : e.paddr < WORD)
    (hshared : 2 ≤ m.frame_table (e.paddr >>> 12))
    (htype : faulttype = VM_FAULT_WRITE ∨ faulttype = VM_FAULT_READONLY)
    (hkv : 0 < kvaddr) (hlt : kvaddr < WORD) (halign : kvaddr % PAGE_SIZE = 0)
    (hfresh : KVADDR_TO_PADDR kvaddr >>> 12 ≠ e.paddr >>> 12) :
    ∃ m1 as1 e1,
      vm_fault (some (some as)) kvaddr slot m faulttype faultaddress
        = some (0, m1, some (some as1)) ∧
      load_page as1 faultaddress = some (p, e1) ∧
      e1.paddr &&& TLBLO_PPAGE = KVADDR_TO_PADDR kvaddr ∧
      e1.paddr >>> 12 = KVADDR_TO_PADDR kvaddr >>> 12 ∧
      e1.paddr >>> 12 ≠ e.paddr >>> 12 ∧
      m1.frame_table (e1.paddr >>> 12) = 1 ∧
      (∀ i, i < PAGE_SIZE →
        m1.ram (PADDR_TO_KVADDR (e1.paddr &&& TLBLO_PPAGE) + i)
          = m.ram (PADDR_TO_KVADDR (e.paddr &&& TLBLO_PPAGE) + i)) ∧
      m1.frame_table (e.paddr >>> 12) = m.frame_table (e.paddr >>> 12) - 1 ∧
      m1.released = m.released ∧
      e1.copy_on_write = 0 ∧
      (e1.paddr &&& TLBLO_DIRTY ≠ 0 ↔ Int.land e.flags PF_W ≠ 0) ∧
      e1.flags = e.flags ∧ e1.vaddr = e.vaddr ∧
      (∀ q, q ≠ p → page_at as1 q = page_at as q) ∧
      as1.as_region = as.as_region ∧
      as1.as_heap_start = as.as_heap_start ∧ as1.as_heap_end = as.as_heap_end := by
  obtain ⟨hg, hp⟩ := load_page_elim as faultaddress p e hpage
  obtain ⟨hnp, hnal⟩ := kvaddr_to_paddr_aligned kvaddr halign
  have hk : PADDR_TO_KVADDR (KVADDR_TO_PADDR kvaddr) = kvaddr := by
    rw [kvaddr_roundtrip]; exact Nat.mod_eq_of_lt hlt
  have hcow0 : e.copy_on_write ≠ 0 := by rw [hcow]; decide
  have hsw : vm_fault_switch as (some p) faulttype = some none := by
    unfold vm_fault_switch
    rcases htype with h | h <;> subst h <;>
      simp [VM_FAULT_READ, VM_FAULT_WRITE, VM_FAULT_READONLY, hp, hcow0]
  have hty : faulttype = VM_FAULT_READONLY ∨ faulttype = VM_FAULT_WRITE := htype.symm
  have hne1 : m.frame_table (e.paddr >>> 12) ≠ 1 := by omega
  -- the word that `ensure_paddr` composes
  obtain ⟨w, hw⟩ : ∃ w, w = (if Int.land e.flags PF_W ≠ 0
      then (TLBLO_PPAGE &&& KVADDR_TO_PADDR kvaddr) ||| TLBLO_DIRTY
      else TLBLO_PPAGE &&& KVADDR_TO_PADDR kvaddr) ||| TLBLO_VALID := ⟨_, rfl⟩
  have hwf : w &&& TLBLO_PPAGE = KVADDR_TO_PADDR kvaddr ∧ w >>> 12 = KVADDR_TO_PADDR kvaddr >>> 12 := by
    rw [hw]
    by_cases hW : Int.land e.flags PF_W ≠ 0
    · simp only [if_pos hW]
      rw [Nat.or_assoc]
      exact tlb_word_frame _ _ hnp hnal (by decide)
    · simp only [if_neg hW]
      exact tlb_word_frame _ _ hnp hnal (by decide)
  have hwd : (w &&& TLBLO_DIRTY ≠ 0 ↔ Int.land e.flags PF_W ≠ 0) := by
    rw [hw]
    by_cases hW : Int.land e.flags PF_W ≠ 0
    · simp only [if_pos hW]
      exact ⟨fun _ => hW, fun _ => dirty_bit_set _⟩
    · simp only [if_neg hW]
      exact ⟨fun h => absurd (dirty_bit_clear _) h, fun h => absurd h hW⟩
  have hens : ensure_paddr kvaddr m { e with paddr := USERSPACETOP } =
      some (bzero { m with frame_table := Function.update m.frame_table (KVADDR_TO_PADDR kvaddr >>> 12) 1 }
              kvaddr PAGE_SIZE, { e with paddr := w }) := by
    rw [ensure_paddr_fresh kvaddr m _ rfl hkv hlt, hw]
  have hres : vm_fault (some (some as)) kvaddr slot m faulttype faultaddress
      = some (0, tlb_random slot (tlb_remove_entry (decrement_ref_count
          (memmove (bzero { m with frame_table := Function.update m.frame_table (KVADDR_TO_PADDR kvaddr >>> 12) 1 }
              kvaddr PAGE_SIZE) (PADDR_TO_KVADDR (w &&& TLBLO_PPAGE))
              (PADDR_TO_KVADDR (e.paddr &&& TLBLO_PPAGE)) PAGE_SIZE) e.paddr) e.vaddr)
            (faultaddress &&& TLBHI_VPAGE) w,
          some (some (write_page as p { e with paddr := w, copy_on_write := 0 }))) := by
    simp only [vm_fault, hg, hsw, hp, hdef, if_false]
    rw [if_pos ⟨hcow0, hty⟩, vm_fault_cow_shared kvaddr m e hframe hne1 _ hens]
  refine ⟨_, _, { e with paddr := w, copy_on_write := 0 }, hres, ?_, ?_, ?_, ?_, ?_, ?_, ?_, ?_,
    ?_, ?_, ?_, ?_, ?_, ?_, ?_, ?_⟩
  · exact load_page_intro _ _ _ _ (by rw [get_page_write_page]; exact hg)
      (page_at_write_page_same as p e _ hp)
  · exact hwf.1
  · exact hwf.2
  · show w >>> 12 ≠ e.paddr >>> 12
    rw [hwf.2]; exact hfresh
  · show _ = (1 : Int)
    simp only [tlb_random, tlb_write, tlb_remove_entry_frame_table, decrement_ref_count_frame_table,
      memmove, bzero]
    rw [hwf.2, Function.update_noteq hfresh, Function.update_same]
  · intro i hi
    show _ = m.ram _
    simp only [tlb_random, tlb_write, tlb_remove_entry_ram, decrement_ref_count_ram]
    rw [hwf.1, hk]
    unfold PAGE_SIZE at hi
    have hap : ∀ j, j < 4096 → PADDR_TO_KVADDR (e.paddr &&& TLBLO_PPAGE) + i ≠ kvaddr + j := by
      intro j hj
      have h1 := frames_apart (KVADDR_TO_PADDR kvaddr) e.paddr i j hnp hword hnal hfresh hi hj
      rw [hk] at h1
      exact h1
    rw [ram_after_copy _ kvaddr _ i hi hap]
  · show _ = m.frame_table _ - 1
    simp only [tlb_random, tlb_write, tlb_remove_entry_frame_table, decrement_ref_count_frame_table,
      memmove, bzero]
    rw [Function.update_same, Function.update_noteq (Ne.symm hfresh)]
  · show _ = m.released
    simp only [tlb_random, tlb_write, tlb_remove_entry_released, decrement_ref_count_released,
      memmove, bzero]
    rw [Function.update_noteq (Ne.symm hfresh), if_neg (by omega)]
  · rfl
  · exact hwd
  · rfl
  · rfl
  · intro q hq
    exact page_at_write_page_other as p q _ hq
  · exact write_page_as_region _ _ _
  · exact write_page_as_heap_start _ _ _
  · exact write_page_as_heap_end _ _ _

/-- C4, the behaviour of the code: when `get_page` returns `NULL` for the
fault address (as for every address of an address space fresh from
`as_create`), `vm_fault` of type `VM_FAULT_READ` or `VM_FAULT_WRITE` returns
`EFAULT` with the machine and the address space unchanged, but `vm_fault` of
type `VM_FAULT_READONLY` stops the kernel: line 193 reads
`page->copy_on_write` before the null check of line 202. -/
theorem vm_fault_null_page (as : addrspace) (kvaddr slot : Nat) (m : machine) (faultaddress : Nat)
    (hnull : get_page as faultaddress = some none) :
    vm_fault (some (some as)) kvaddr slot m VM_FAULT_READ faultaddress
      = some (EFAULT, m, some (some as)) ∧
    vm_fault (some (some as)) kvaddr slot m VM_FAULT_WRITE faultaddress
      = some (EFAULT, m, some (some as)) ∧
    vm_fault (some (some as)) kvaddr slot m VM_FAULT_READONLY faultaddress = none := by
  refine ⟨?_, ?_, ?_⟩ <;>
    simp [vm_fault, vm_fault_switch, hnull, VM_FAULT_READ, VM_FAULT_WRITE, VM_FAULT_READONLY]

theorem vm_fault_null_page_witness :
    get_page fresh_as 0x08048000 = some none ∧
    vm_fault (some (some fresh_as)) 0x80005000 3 boot_machine VM_FAULT_READONLY 0x08048000 = none :=
  ⟨by decide, (vm_fault_null_page fresh_as 0x80005000 3 boot_machine 0x08048000 (by decide)).2.2⟩

theorem vm_fault_undefined_entry (as : addrspace) (kvaddr slot : Nat) (m : machine) (faulttype : Int)
    (faultaddress : Nat) (p : Nat × Nat) (e : secondary_page_entry)
    (hpage : load_page as faultaddress = some (p, e)) (hundef : e.flags = -1)
    (htype : faulttype = VM_FAULT_READ ∨ faulttype = VM_FAULT_WRITE ∨ faulttype = VM_FAULT_READONLY) :
    vm_fault (some (some as)) kvaddr slot m faulttype faultaddress
      = some (EFAULT, m, some (some as)) := by
  obtain ⟨hg, hp⟩ := load_page_elim as faultaddress p e hpage
  rcases htype with h | h | h <;> subst h
  · simp [vm_fault, vm_fault_switch, hg, hp, hundef, VM_FAULT_READ, VM_FAULT_WRITE, VM_FAULT_READONLY]
  · simp [vm_fault, vm_fault_switch, hg, hp, hundef, VM_FAULT_READ, VM_FAULT_WRITE, VM_FAULT_READONLY]
  · by_cases hc : e.copy_on_write = 0
    · simp [vm_fault, vm_fault_switch, hg, hp, hundef, hc]
    · simp [vm_fault, vm_fault_switch, hg, hp, hundef, hc]

theorem vm_fault_readonly_plain (as : addrspace) (kvaddr slot : Nat) (m : machine)
    (faultaddress : Nat) (p : Nat × Nat) (e : secondary_page_entry)
    (hg : get_page as faultaddress = some (some p)) (hp : page_at as p = some e)
    (hcow : e.copy_on_write = 0) :
    vm_fault (some (some as)) kvaddr slot m VM_FAULT_READONLY faultaddress
      = some (EFAULT, m, some (some as)) := by
  simp [vm_fault, vm_fault_switch, hg, hp, hcow]

/-- C5: for a page whose entry exists and whose `copy_on_write` is 0 (so in
particular for every defined page, `flags ≠ -1`, that is not copy-on-write),
`vm_fault` of type `VM_FAULT_READONLY` on an address of the page returns
`EFAULT` and leaves the machine (frame table, memory, TLB, released frames)
and the address space exactly as they were: no frame is allocated, whatever
the allocator would have returned. -/
theorem vm_fault_readonly_without_cow (as : addrspace) (kvaddr slot : Nat) (m : machine)
    (faultaddress : Nat) (p : Nat × Nat) (e : secondary_page_entry)
    (hpage : load_page as faultaddress = some (p, e)) (hcow : e.copy_on_write = 0) :
    vm_fault (some (some as)) kvaddr slot m VM_FAULT_READONLY faultaddress
      = some (EFAULT, m, some (some as)) := by
  obtain ⟨hg, hp⟩ := load_page_elim as faultaddress p e hpage
  simp [vm_fault, vm_fault_switch, hg, hp, hcow]

theorem vm_fault_readonly_without_cow_witness :
    load_page text_as 0x400123 = some ((1, 0), ({ vaddr := 0x400, paddr := USERSPACETOP, copy_on_write := 0, flags := 5 })) ∧
    vm_fault (some (some text_as)) 0x80005000 3 boot_machine VM_FAULT_READONLY 0x400123
      = some (EFAULT, boot_machine, some (some text_as)) :=
  ⟨by decide, vm_fault_readonly_without_cow text_as 0x80005000 3 boot_machine 0x400123 (1, 0)
    ({ vaddr := 0x400, paddr := USERSPACETOP, copy_on_write := 0, flags := 5 })
    (by decide) (by decide)⟩

theorem or_dirty_frame (x : Nat) :
    (x ||| TLBLO_DIRTY) >>> 12 = x >>> 12 ∧ (x ||| TLBLO_DIRTY) &&& TLBLO_PPAGE = x &&& TLBLO_PPAGE ∧
    (x ||| TLBLO_DIRTY) &&& TLBLO_DIRTY ≠ 0 := by
  refine ⟨?_, ?_, ?_⟩
  · apply Nat.eq_of_testBit_eq
    intro i
    rw [Nat.testBit_shiftRight, Nat.testBit_shiftRight, Nat.testBit_or]
    have h : Nat.testBit TLBLO_DIRTY (12 + i) = false := by
      apply Nat.testBit_lt_two_pow
      have : (2 : Nat) ^ 12 ≤ 2 ^ (12 + i) := Nat.pow_le_pow_right (by decide) (by omega)
      have h2 : TLBLO_DIRTY < 2 ^ 12 := by decide
      omega
    rw [h, Bool.or_false]
  · rw [Nat.and_distrib_right]
    have h : TLBLO_DIRTY &&& TLBLO_PPAGE = 0 := by decide
    rw [h, Nat.or_zero]
  · intro h
    have h1 := congrArg (fun z => Nat.testBit z 10) h
    simp only [Nat.testBit_and, Nat.testBit_or, Nat.zero_testBit] at h1
    have h2 : Nat.testBit TLBLO_DIRTY 10 = true := by decide
    rw [h2] at h1
    simp at h1

theorem vm_fault_cow_sole (kvaddr : Nat) (m : machine) (e : secondary_page_entry)
    (hframe : e.paddr ≠ USERSPACETOP) (hsole : m.frame_table (e.paddr >>> 12) = 1) :
    vm_fault_cow kvaddr m e
      = some (tlb_remove_entry m e.vaddr,
          { e with copy_on_write := 0,
                   paddr := if Int.land e.flags PF_W ≠ 0 then e.paddr ||| TLBLO_DIRTY else e.paddr }) := by
  unfold vm_fault_cow
  dsimp only
  rw [if_neg hframe, if_pos hsole]
  by_cases hW : Int.land e.flags PF_W ≠ 0
  · rw [if_pos hW, if_pos hW]
  · rw [if_neg hW, if_neg hW]

theorem vm_fault_resolved (as : addrspace) (kvaddr slot : Nat) (m : machine) (faulttype : Int)
    (faultaddress : Nat) (p : Nat × Nat) (e : secondary_page_entry)
    (hg : get_page as faultaddress = some (some p)) (hp : page_at as p = some e)
    (hsw : vm_fault_switch as (some p) faulttype = some none)
    (hdef : e.flags ≠ -1) (m1 : machine) (e1 : secondary_page_entry)
    (hres : (if e.copy_on_write ≠ 0 ∧
              (faulttype = VM_FAULT_READONLY ∨ faulttype = VM_FAULT_WRITE)
            then vm_fault_cow kvaddr m e else ensure_paddr kvaddr m e) = some (m1, e1)) :
    vm_fault (some (some as)) kvaddr slot m faulttype faultaddress
      = some (0, tlb_random slot m1 (faultaddress &&& TLBHI_VPAGE) e1.paddr,
          some (some (write_page as p e1))) := by
  simp only [vm_fault, hg, hsw, hp, hdef, if_false, hres]

theorem vm_fault_demand_zero_witness :
    ∃ m1 as1 e1,
      vm_fault (some (some text_as)) 0x80005000 3 boot_machine VM_FAULT_READ 0x400123
        = some (0, m1, some (some as1)) ∧
      load_page as1 0x400123 = some ((1, 0), e1) ∧
      e1.paddr = 0x5200 ∧ m1.frame_table 5 = 1 ∧ m1.ram 0x80005fff = 0 ∧
      m1.tlb 3 = (0x400000, 0x5200) := by
  obtain ⟨m1, as1, e1, h1, h2, h3, _, _, _, _, _, h4, h5, h6⟩ :=
    vm_fault_demand_zero text_as 0x80005000 3 boot_machine VM_FAULT_READ 0x400123 (1, 0)
      ({ vaddr := 0x400, paddr := USERSPACETOP, copy_on_write := 0, flags := 5 })
      (by decide) (by decide) (by decide) (by decide) (Or.inl rfl) (by decide) (by decide)
      (by decide)
  refine ⟨m1, as1, e1, h1, h2, ?_, h4, h5 0xfff (by decide), ?_⟩
  · rw [h3]; decide
  · rw [h6, h3]; decide

theorem vm_fault_cow_break_witness :
    ∃ m1 as1 e1,
      vm_fault (some (some copied_parent)) 0x80006000 4 copied_machine VM_FAULT_WRITE 0x10000000
        = some (0, m1, some (some as1)) ∧
      load_page as1 0x10000000 = some ((64, 0), e1) ∧
      e1.paddr >>> 12 = 6 ∧ m1.frame_table 6 = 1 ∧ m1.frame_table 5 = 1 ∧
      m1.released = [] ∧ e1.copy_on_write = 0 ∧ e1.paddr &&& TLBLO_DIRTY ≠ 0 := by
  obtain ⟨m1, as1, e1, h1, h2, _, h4, _, h6, _, h8, h9, h10, h11, _⟩ :=
    vm_fault_cow_break copied_parent 0x80006000 4 copied_machine VM_FAULT_WRITE 0x10000000 (64, 0)
      ({ vaddr := 0x10000, paddr := 0x5200, copy_on_write := 1, flags := 6 })
      (by decide) (by decide) (by decide) (by decide) (by decide) (by decide) (Or.inl rfl)
      (by decide) (by decide) (by decide) (by decide)
  refine ⟨m1, as1, e1, h1, h2, h4, ?_, h8.trans (by decide), h9.trans (by decide), h10,
    h11.2 (by decide)⟩
  rw [h4] at h6
  exact h6

/-- C20 (copy-on-write sole-owner fast path): for a defined page with
`copy_on_write = 1` whose frame has reference count exactly 1 and whose
`paddr` word has `TLBLO_DIRTY` clear, `vm_fault` of type `VM_FAULT_WRITE` or
`VM_FAULT_READONLY` on an address of the page returns 0 whatever the allocator
would have returned: the frame table, memory and the released frames are
unchanged (no frame is allocated), the entry keeps its frame, whose count is
still 1, `copy_on_write` becomes 0, `TLBLO_DIRTY` is set in the `paddr` word
exactly when the flags include `PF_W`, and the word is loaded into TLB slot
`slot`. -/
theorem vm_fault_cow_sole_owner (as : addrspace) (kvaddr slot : Nat) (m : machine)
    (faulttype : Int) (faultaddress : Nat) (p : Nat × Nat) (e : secondary_page_entry)
    (hpage : load_page as faultaddress = some (p, e))
    (hdef : e.flags ≠ -1) (hcow : e.copy_on_write = 1)
    (hframe : e.paddr ≠ USERSPACETOP)
    (hsole : m.frame_table (e.paddr >>> 12) = 1)
    (hclean : e.paddr &&& TLBLO_DIRTY = 0)
    (htype : faulttype = VM_FAULT_WRITE ∨ faulttype = VM_FAULT_READONLY) :
    ∃ m1 as1 e1,
      vm_fault (some (some as)) kvaddr slot m faulttype faultaddress
        = some (0, m1, some (some as1)) ∧
      load_page as1 faultaddress = some (p, e1) ∧
      m1.frame_table = m.frame_table ∧ m1.ram = m.ram ∧ m1.released = m.released ∧
      e1.paddr >>> 12 = e.paddr >>> 12 ∧
      e1.paddr &&& TLBLO_PPAGE = e.paddr &&& TLBLO_PPAGE ∧
      m1.frame_table (e1.paddr >>> 12) = 1 ∧
      e1.copy_on_write = 0 ∧
      (e1.paddr &&& TLBLO_DIRTY ≠ 0 ↔ Int.land e.flags PF_W ≠ 0) ∧
      e1.flags = e.flags ∧ e1.vaddr = e.vaddr ∧
      m1.tlb slot = (faultaddress &&& TLBHI_VPAGE, e1.paddr) ∧
      (∀ q, q ≠ p → page_at as1 q = page_at as q) := by
  obtain ⟨hg, hp⟩ := load_page_elim as faultaddress p e hpage
  have hcow0 : e.copy_on_write ≠ 0 := by rw [hcow]; decide
  have hsw : vm_fault_switch as (some p) faulttype = some none := by
    unfold vm_fault_switch
    rcases htype with h | h <;> subst h <;>
      simp [VM_FAULT_READ, VM_FAULT_WRITE, VM_FAULT_READONLY, hp, hcow0]
  have hty : faulttype = VM_FAULT_READONLY ∨ faulttype = VM_FAULT_WRITE := htype.symm
  have hres := vm_fault_resolved as kvaddr slot m faulttype faultaddress p e hg hp hsw hdef _ _
    ((if_pos ⟨hcow0, hty⟩).trans (vm_fault_cow_sole kvaddr m e hframe hsole))
  have hfr : (if Int.land e.flags PF_W ≠ 0 then e.paddr ||| TLBLO_DIRTY else e.paddr) >>> 12
      = e.paddr >>> 12 := by
    by_cases hW : Int.land e.flags PF_W ≠ 0
    · rw [if_pos hW]; exact (or_dirty_frame e.paddr).1
    · rw [if_neg hW]
  refine ⟨_, _,
    { e with
      copy_on_write := 0,
      paddr := (if Int.land e.flags PF_W ≠ 0 then e.paddr ||| TLBLO_DIRTY else e.paddr) },
    hres, ?_, ?_, ?_, ?_, hfr, ?_, ?_, ?_, ?_, ?_, ?_, ?_, ?_⟩
  · exact load_page_intro _ _ _ _ (by rw [get_page_write_page]; exact hg)
      (page_at_write_page_same as p e _ hp)
  · simp only [tlb_random, tlb_write, tlb_remove_entry_frame_table]
  · simp only [tlb_random, tlb_write, tlb_remove_entry_ram]
  · simp only [tlb_random, tlb_write, tlb_remove_entry_released]
  · by_cases hW : Int.land e.flags PF_W ≠ 0
    · simp only [if_pos hW]; exact (or_dirty_frame e.paddr).2.1
    · simp only [if_neg hW]
  · simp only [tlb_random, tlb_write, tlb_remove_entry_frame_table]
    rw [hfr]; exact hsole
  · rfl
  · by_cases hW : Int.land e.flags PF_W ≠ 0
    · simp only [if_pos hW]
      exact ⟨fun _ => hW, fun _ => (or_dirty_frame e.paddr).2.2⟩
    · simp only [if_neg hW]
      exact ⟨fun h => absurd hclean h, fun h => absurd h hW⟩
  · rfl
  · rfl
  · simp [tlb_random, tlb_write]
  · intro q hq
    exact page_at_write_page_other as p q _ hq

theorem vm_fault_cow_sole_owner_witness :
    ∃ m1 as1 e1,
      vm_fault (some (some copied_child)) 0 7 broken_machine VM_FAULT_WRITE 0x10000abc
        = some (0, m1, some (some as1)) ∧
      load_page as1 0x10000abc = some ((64, 0), e1) ∧
      m1.frame_table = broken_machine.frame_table ∧ e1.paddr >>> 12 = 5 ∧
      m1.frame_table 5 = 1 ∧ e1.copy_on_write = 0 ∧ e1.paddr &&& TLBLO_DIRTY ≠ 0 := by
  obtain ⟨m1, as1, e1, h1, h2, h3, _, _, h6, _, h8, h9, h10, _⟩ :=
    vm_fault_cow_sole_owner copied_child 0 7 broken_machine VM_FAULT_WRITE 0x10000abc (64, 0)
      ({ vaddr := 0x10000, paddr := 0x5200, copy_on_write := 1, flags := 6 })
      (by decide) (by decide) (by decide) (by decide) (by decide) (by decide) (Or.inl rfl)
  refine ⟨m1, as1, e1, h1, h2, h3, h6.trans (by decide), ?_, h9, h10.2 (by decide)⟩
  rw [h6] at h8
  exact h8

/-- C6 as amended: for a page defined with flags that do not include `PF_W`,
not copy-on-write and without a frame, a `VM_FAULT_READ` fault (for which the
allocator hands back a non-null kernel address) returns 0 and gives the page a
frame whose `paddr` word has `TLBLO_DIRTY` clear. A following `vm_fault` of type
`VM_FAULT_WRITE` on an address of the page returns 0, not `EFAULT`: it leaves
the address space as it is, so the `paddr` word still has `TLBLO_DIRTY` clear,
and only loads that word into TLB slot `slot2`. The write is refused by the
next fault, of type `VM_FAULT_READONLY`, which returns `EFAULT` and changes
nothing. -/
theorem vm_fault_write_after_read (as : addrspace) (kvaddr kvaddr2 slot slot2 : Nat) (m : machine)
    (faultaddress faultaddress2 : Nat) (p : Nat × Nat) (e : secondary_page_entry)
    (hpage : load_page as faultaddress = some (p, e))
    (hsame : get_page as faultaddress2 = some (some p))
    (hdef : e.flags ≠ -1) (hro : Int.land e.flags PF_W = 0) (hcow : e.copy_on_write = 0)
    (hno : e.paddr = USERSPACETOP) (hkv : 0 < kvaddr) (hlt : kvaddr < WORD) :
    ∃ m1 as1 e1,
      vm_fault (some (some as)) kvaddr slot m VM_FAULT_READ faultaddress
        = some (0, m1, some (some as1)) ∧
      load_page as1 faultaddress2 = some (p, e1) ∧
      e1.paddr ≠ USERSPACETOP ∧ e1.paddr &&& TLBLO_DIRTY = 0 ∧ e1.flags = e.flags ∧
      vm_fault (some (some as1)) kvaddr2 slot2 m1 VM_FAULT_WRITE faultaddress2
        = some (0, tlb_random slot2 m1 (faultaddress2 &&& TLBHI_VPAGE) e1.paddr,
            some (some as1)) ∧
      vm_fault (some (some as1)) kvaddr2 slot2 m1 VM_FAULT_READONLY faultaddress2
        = some (EFAULT, m1, some (some as1)) := by
  obtain ⟨hg, hp⟩ := load_page_elim as faultaddress p e hpage
  have hcow1 : ¬ (e.copy_on_write ≠ 0 ∧
      (VM_FAULT_READ = VM_FAULT_READONLY ∨ VM_FAULT_READ = VM_FAULT_WRITE)) := by
    intro h; exact h.1 hcow
  have hsw : vm_fault_switch as (some p) VM_FAULT_READ = some none := by
    simp [vm_fault_switch, VM_FAULT_READ, VM_FAULT_WRITE, VM_FAULT_READONLY]
  have hnw : ¬ (Int.land e.flags PF_W ≠ 0) := fun h => h hro
  have hens := ensure_paddr_fresh kvaddr m e hno hkv hlt
  rw [if_neg hnw] at hens
  have hres1 := vm_fault_resolved as kvaddr slot m VM_FAULT_READ faultaddress p e hg hp hsw hdef
    _ _ ((if_neg hcow1).trans hens)
  have hp2 := page_at_write_page_same as p e
    { e with paddr := (TLBLO_PPAGE &&& KVADDR_TO_PADDR kvaddr) ||| TLBLO_VALID } hp
  have hg2 : get_page (write_page as p
      { e with paddr := (TLBLO_PPAGE &&& KVADDR_TO_PADDR kvaddr) ||| TLBLO_VALID }) faultaddress2
      = some (some p) := by
    rw [get_page_write_page]; exact hsame
  have hpres : ((TLBLO_PPAGE &&& KVADDR_TO_PADDR kvaddr) ||| TLBLO_VALID) ≠ USERSPACETOP :=
    or_valid_ne_sentinel _
  refine ⟨_, _, { e with paddr := (TLBLO_PPAGE &&& KVADDR_TO_PADDR kvaddr) ||| TLBLO_VALID },
    hres1, load_page_intro _ _ _ _ hg2 hp2, hpres, dirty_bit_clear _, rfl, ?_, ?_⟩
  · have hsw2 : vm_fault_switch (write_page as p
        { e with paddr := (TLBLO_PPAGE &&& KVADDR_TO_PADDR kvaddr) ||| TLBLO_VALID }) (some p)
        VM_FAULT_WRITE = some none := by
      simp [vm_fault_switch, VM_FAULT_READ, VM_FAULT_WRITE, VM_FAULT_READONLY]
    have hcow2 : ¬ (e.copy_on_write ≠ 0 ∧
        (VM_FAULT_WRITE = VM_FAULT_READONLY ∨ VM_FAULT_WRITE = VM_FAULT_WRITE)) := by
      intro h; exact h.1 hcow
    have hres2 : ∀ M : machine, vm_fault (some (some (write_page as p
          { e with paddr := (TLBLO_PPAGE &&& KVADDR_TO_PADDR kvaddr) ||| TLBLO_VALID })))
          kvaddr2 slot2 M VM_FAULT_WRITE faultaddress2 = _ := fun M =>
      vm_fault_resolved _ kvaddr2 slot2 M VM_FAULT_WRITE faultaddress2 p _ hg2 hp2 hsw2
        hdef _ _ ((if_neg hcow2).trans (ensure_paddr_present kvaddr2 M _ hpres))
    rw [write_page_self _ _ _ hp2] at hres2
    exact hres2 _
  · exact vm_fault_readonly_plain _ kvaddr2 slot2 _ faultaddress2 p _ hg2 hp2 hcow

theorem vm_fault_write_after_read_witness :
    ∃ m1 as1 e1,
      vm_fault (some (some text_as)) 0x80005000 3 boot_machine VM_FAULT_READ 0x400123
        = some (0, m1, some (some as1)) ∧
      load_page as1 0x400000 = some ((1, 0), e1) ∧
      e1.paddr &&& TLBLO_DIRTY = 0 ∧
      vm_fault (some (some as1)) 0x80006000 4 m1 VM_FAULT_WRITE 0x400000
        = some (0, tlb_random 4 m1 (0x400000 &&& TLBHI_VPAGE) e1.paddr, some (some as1)) ∧
      vm_fault (some (some as1)) 0x80006000 4 m1 VM_FAULT_READONLY 0x400000
        = some (EFAULT, m1, some (some as1)) := by
  obtain ⟨m1, as1, e1, h1, h2, _, h4, _, h6, h7⟩ :=
    vm_fault_write_after_read text_as 0x80005000 0x80006000 3 4 boot_machine 0x400123 0x400000
      (1, 0) ({ vaddr := 0x400, paddr := USERSPACETOP, copy_on_write := 0, flags := 5 })
      (by decide) (by decide) (by decide) (by decide) (by decide) (by decide) (by decide)
      (by decide)
  exact ⟨m1, as1, e1, h1, h2, h4, h6, h7⟩

/-- C6 as stated fails: in scenario S6 (region `0x400000` defined readable and
executable, frame allocated by a read fault at `0x400123`), the page is
defined, lacks `PF_W`, is not copy-on-write and has a frame, yet
`vm_fault(VM_FAULT_WRITE, 0x400000)` returns 0, which is not `EFAULT`. -/
theorem vm_fault_write_readonly_page_counterexample :
    text_read.map (fun r => r.1) = some 0 ∧
    load_page text_read_as 0x400000
      = some ((1, 0), { vaddr := 0x400, paddr := 0x5200, copy_on_write := 0, flags := 5 }) ∧
    Int.land 5 PF_W = 0 ∧
    (vm_fault (some (some text_read_as)) 0x80006000 4 text_read_machine VM_FAULT_WRITE
      0x400000).map (fun r => r.1) = some 0 ∧
    (0 : Int) ≠ EFAULT := by
  decide

/-! ## Page-table pointers -/

theorem page_ptr_bounds (a : Nat) :
    (page_ptr a).1 < 1024 ∧ (page_ptr a).2 < 1024 ∧
    (page_ptr a).1 * 1024 + (page_ptr a).2 = a % WORD / PAGE_SIZE := by
  unfold page_ptr
  simp only
  generalize hn : a % WORD / PAGE_SIZE = n
  have hlt : n < 2 ^ 20 := by
    rw [← hn]; unfold WORD PAGE_SIZE; omega
  have h1 : n >>> 10 < 1024 := by omega
  have h2 : ((n >>> 10) <<< 10) % WORD = (n >>> 10) <<< 10 := by
    apply Nat.mod_eq_of_lt; unfold WORD; omega
  rw [h2, xor_index]
  refine ⟨h1, ?_, ?_⟩ <;> omega

theorem page_ptr_eq_iff (a b : Nat) :
    page_ptr a = page_ptr b ↔ a % WORD / PAGE_SIZE = b % WORD / PAGE_SIZE := by
  constructor
  · intro h
    have ha := (page_ptr_bounds a).2.2
    have hb := (page_ptr_bounds b).2.2
    rw [← ha, ← hb, h]
  · intro h
    unfold page_ptr
    rw [h]

theorem get_page_eq (as : addrspace) (a : Nat) :
    get_page as a =
      if root_page_entry.vaddr_prefix (as.page_table (page_ptr a).1) ≠ (page_ptr a).1 then none
      else match (as.page_table (page_ptr a).1).target with
        | none => some none
        | some _ => some (some (page_ptr a)) := by
  have hb := (page_ptr_bounds a).1
  unfold get_page
  have h : ¬ ((a % WORD / PAGE_SIZE) >>> 10 ≥ NUM_ROOT_ENTRIES) := by
    have : NUM_ROOT_ENTRIES = 1024 := by decide
    rw [this]
    unfold page_ptr at hb
    simp only at hb
    omega
  simp only [h, if_false]
  rfl

theorem get_page_ptr (as : addrspace) (a : Nat) (p : Nat × Nat)
    (h : get_page as a = some (some p)) : p = page_ptr a := by
  rw [get_page_eq] at h
  split at h
  · exact absurd h (by simp)
  · split at h
    · exact absurd h (by simp)
    · simp only [Option.some.injEq] at h
      exact h.symm

theorem load_page_ptr (as : addrspace) (a : Nat) (p : Nat × Nat) (e : secondary_page_entry)
    (h : load_page as a = some (p, e)) : p = page_ptr a :=
  get_page_ptr as a p (load_page_elim as a p e h).1

/-! ## `add_single_vaddr_page` -/

theorem create_secondary_table_eq (m : machine) (as : addrspace) (pfx : Nat)
    (ht : (as.page_table pfx).target = none) :
    create_secondary_table m as pfx
      = if (kmalloc m).1 = true then some ((kmalloc m).2, install_table as pfx) else none := by
  unfold create_secondary_table
  rw [ht]
  simp only
  rcases hk : kmalloc m with ⟨b, m1⟩
  cases b
  · simp
  · simp only [if_true]
    rfl

theorem add_single_vaddr_page_existing (m : machine) (as : addrspace) (a : Nat) (f : Int)
    (t : Nat → secondary_page_entry)
    (hpfx : root_page_entry.vaddr_prefix (as.page_table (page_ptr a).1) = (page_ptr a).1)
    (ht : (as.page_table (page_ptr a).1).target = some t)
    (hv : (t (page_ptr a).2).vaddr = a % WORD / PAGE_SIZE) :
    add_single_vaddr_page m as a f
      = some (m, write_page as (page_ptr a) { t (page_ptr a).2 with flags := f }) := by
  have hpa : page_at as (page_ptr a) = some (t (page_ptr a).2) := by
    unfold page_at; rw [ht]
  unfold add_single_vaddr_page
  unfold page_ptr at hpfx ht hv hpa ⊢
  simp only at hpfx ht hv hpa ⊢
  simp only [hpfx, ht, hpa, hv, ne_eq, not_true_eq_false, if_false]

theorem page_at_install_table (as : addrspace) (pfx : Nat) (q : Nat × Nat) :
    page_at (install_table as pfx) q
      = if q.1 = pfx then some (blank_entry pfx q.2) else page_at as q := by
  unfold page_at install_table
  simp only
  by_cases h : q.1 = pfx
  · rw [if_pos h, h, Function.update_same]
  · rw [if_neg h, Function.update_noteq h]

theorem blank_entry_vaddr (a : Nat) :
    (blank_entry (page_ptr a).1 (page_ptr a).2).vaddr = a % WORD / PAGE_SIZE := by
  obtain ⟨h1, h2, h3⟩ := page_ptr_bounds a
  unfold blank_entry
  simp only
  have h4 : (page_ptr a).2 < 2 ^ 10 := by omega
  have h5 := Nat.mul_add_lt_is_or h4 (page_ptr a).1
  rw [Nat.shiftLeft_eq, Nat.mul_comm, ← h5]
  rw [Nat.mod_eq_of_lt]
  · omega
  · unfold WORD; omega

theorem add_single_vaddr_page_new (m : machine) (as : addrspace) (a : Nat) (f : Int)
    (hpfx : root_page_entry.vaddr_prefix (as.page_table (page_ptr a).1) = (page_ptr a).1)
    (ht : (as.page_table (page_ptr a).1).target = none)
    (hk : (kmalloc m).1 = true) :
    add_single_vaddr_page m as a f
      = some ((kmalloc m).2, write_page (install_table as (page_ptr a).1) (page_ptr a)
          { blank_entry (page_ptr a).1 (page_ptr a).2 with flags := f }) := by
  have hc := create_secondary_table_eq m as (page_ptr a).1 ht
  rw [if_pos hk] at hc
  have hpa : page_at (install_table as (page_ptr a).1) (page_ptr a)
      = some (blank_entry (page_ptr a).1 (page_ptr a).2) := by
    rw [page_at_install_table, if_pos rfl]
  have hv := blank_entry_vaddr a
  unfold add_single_vaddr_page
  unfold page_ptr at hpfx ht hc hpa hv ⊢
  simp only at hpfx ht hc hpa hv ⊢
  simp only [hpfx, ht, hc, hpa, hv, ne_eq, not_true_eq_false, if_false]

theorem add_single_vaddr_page_inv (m m1 : machine) (as as1 : addrspace) (a : Nat) (f : Int)
    (h : add_single_vaddr_page m as a f = some (m1, as1)) :
    root_page_entry.vaddr_prefix (as.page_table (page_ptr a).1) = (page_ptr a).1 ∧
    ((∃ t, (as.page_table (page_ptr a).1).target = some t ∧
        (t (page_ptr a).2).vaddr = a % WORD / PAGE_SIZE ∧ m1 = m ∧
        as1 = write_page as (page_ptr a) { t (page_ptr a).2 with flags := f }) ∨
     ((as.page_table (page_ptr a).1).target = none ∧ (kmalloc m).1 = true ∧
        m1 = (kmalloc m).2 ∧
        as1 = write_page (install_table as (page_ptr a).1) (page_ptr a)
          { blank_entry (page_ptr a).1 (page_ptr a).2 with flags := f })) := by
  by_cases hpfx : root_page_entry.vaddr_prefix (as.page_table (page_ptr a).1) = (page_ptr a).1
  · refine ⟨hpfx, ?_⟩
    cases ht : (as.page_table (page_ptr a).1).target with
    | none =>
      right
      by_cases hk : (kmalloc m).1 = true
      · rw [add_single_vaddr_page_new m as a f hpfx ht hk] at h
        simp only [Option.some.injEq, Prod.mk.injEq] at h
        exact ⟨rfl, hk, h.1.symm, h.2.symm⟩
      · exfalso
        have hc := create_secondary_table_eq m as (page_ptr a).1 ht
        rw [if_neg hk] at hc
        unfold add_single_vaddr_page at h
        unfold page_ptr at hpfx ht hc
        simp only at hpfx ht hc h
        simp only [hpfx, ht, hc, ne_eq, not_true_eq_false, if_false] at h
        exact absurd h (by simp)
    | some t =>
      left
      by_cases hv : (t (page_ptr a).2).vaddr = a % WORD / PAGE_SIZE
      · rw [add_single_vaddr_page_existing m as a f t hpfx ht hv] at h
        simp only [Option.some.injEq, Prod.mk.injEq] at h
        exact ⟨t, rfl, hv, h.1.symm, h.2.symm⟩
      · exfalso
        have hpa : page_at as (page_ptr a) = some (t (page_ptr a).2) := by
          unfold page_at; rw [ht]
        unfold add_single_vaddr_page at h
        unfold page_ptr at hpfx ht hv hpa
        simp only at hpfx ht hv hpa h
        simp only [hpfx, ht, hpa, hv, ne_eq, not_true_eq_false, if_false, not_false_eq_true,
          if_true] at h
        exact absurd h (by simp)
  · exfalso
    unfold add_single_vaddr_page at h
    unfold page_ptr at hpfx
    simp only at hpfx h
    simp only [hpfx, ne_eq, not_false_eq_true, if_true] at h
    exact absurd h (by simp)

theorem kmalloc_fields (m : machine) :
    (kmalloc m).2.frame_table = m.frame_table ∧ (kmalloc m).2.ram = m.ram ∧
    (kmalloc m).2.tlb = m.tlb ∧ (kmalloc m).2.released = m.released := by
  unfold kmalloc
  split <;> exact ⟨rfl, rfl, rfl, rfl⟩

theorem add_single_vaddr_page_machine (m m1 : machine) (as as1 : addrspace) (a : Nat) (f : Int)
    (h : add_single_vaddr_page m as a f = some (m1, as1)) :
    m1.frame_table = m.frame_table ∧ m1.ram = m.ram ∧ m1.tlb = m.tlb ∧
    m1.released = m.released := by
  obtain ⟨_, h1 | h1⟩ := add_single_vaddr_page_inv m m1 as as1 a f h
  · obtain ⟨t, _, _, hm, _⟩ := h1
    subst hm; exact ⟨rfl, rfl, rfl, rfl⟩
  · obtain ⟨_, _, hm, _⟩ := h1
    subst hm; exact kmalloc_fields m

theorem add_single_vaddr_page_fields (m m1 : machine) (as as1 : addrspace) (a : Nat) (f : Int)
    (h : add_single_vaddr_page m as a f = some (m1, as1)) :
    as1.as_region = as.as_region ∧ as1.as_heap_start = as.as_heap_start ∧
    as1.as_heap_end = as.as_heap_end := by
  obtain ⟨_, h1 | h1⟩ := add_single_vaddr_page_inv m m1 as as1 a f h
  · obtain ⟨t, _, _, _, has⟩ := h1
    subst has
    exact ⟨write_page_as_region _ _ _, write_page_as_heap_start _ _ _, write_page_as_heap_end _ _ _⟩
  · obtain ⟨_, _, _, has⟩ := h1
    subst has
    exact ⟨write_page_as_region _ _ _, write_page_as_heap_start _ _ _, write_page_as_heap_end _ _ _⟩

theorem page_at_of_target (as : addrspace) (p : Nat × Nat) (t : Nat → secondary_page_entry)
    (ht : (as.page_table p.1).target = some t) : page_at as p = some (t p.2) := by
  unfold page_at; rw [ht]

theorem page_at_of_no_target (as : addrspace) (p : Nat × Nat)
    (ht : (as.page_table p.1).target = none) : page_at as p = none := by
  unfold page_at; rw [ht]

theorem add_single_vaddr_page_self (m m1 : machine) (as as1 : addrspace) (a : Nat) (f : Int)
    (h : add_single_vaddr_page m as a f = some (m1, as1)) :
    (∃ e, page_at as (page_ptr a) = some e ∧
      page_at as1 (page_ptr a) = some { e with flags := f }) ∨
    (page_at as (page_ptr a) = none ∧
      page_at as1 (page_ptr a)
        = some { blank_entry (page_ptr a).1 (page_ptr a).2 with flags := f }) := by
  obtain ⟨_, h1 | h1⟩ := add_single_vaddr_page_inv m m1 as as1 a f h
  · obtain ⟨t, ht, _, _, has⟩ := h1
    left
    have hp := page_at_of_target as (page_ptr a) t ht
    exact ⟨_, hp, by rw [has]; exact page_at_write_page_same as _ _ _ hp⟩
  · obtain ⟨ht, _, _, has⟩ := h1
    right
    refine ⟨page_at_of_no_target as _ ht, ?_⟩
    rw [has]
    apply page_at_write_page_same _ _ (blank_entry (page_ptr a).1 (page_ptr a).2)
    rw [page_at_install_table, if_pos rfl]

theorem add_single_vaddr_page_other (m m1 : machine) (as as1 : addrspace) (a : Nat) (f : Int)
    (h : add_single_vaddr_page m as a f = some (m1, as1)) (q : Nat × Nat) (hq : q ≠ page_ptr a) :
    page_at as1 q = page_at as q ∨
    (page_at as q = none ∧ page_at as1 q = some (blank_entry q.1 q.2)) := by
  obtain ⟨_, h1 | h1⟩ := add_single_vaddr_page_inv m m1 as as1 a f h
  · obtain ⟨t, _, _, _, has⟩ := h1
    left
    rw [has]; exact page_at_write_page_other as _ q _ hq
  · obtain ⟨ht, _, _, has⟩ := h1
    rw [has, page_at_write_page_other _ _ q _ hq, page_at_install_table]
    by_cases hq1 : q.1 = (page_ptr a).1
    · right
      rw [if_pos hq1]
      refine ⟨?_, by rw [hq1]⟩
      apply page_at_of_no_target
      rw [hq1]; exact ht
    · left
      rw [if_neg hq1]

theorem add_single_vaddr_page_keeps (m m1 : machine) (as as1 : addrspace) (a : Nat) (f : Int)
    (h : add_single_vaddr_page m as a f = some (m1, as1)) (q : Nat × Nat) (hq : q ≠ page_ptr a)
    (e : secondary_page_entry) (he : page_at as q = some e) : page_at as1 q = some e := by
  rcases add_single_vaddr_page_other m m1 as as1 a f h q hq with h1 | h1
  · rw [h1]; exact he
  · rw [h1.1] at he; exact absurd he (by simp)

theorem get_page_install_table (as : addrspace) (pfx v : Nat) (hne : (page_ptr v).1 ≠ pfx) :
    get_page (install_table as pfx) v = get_page as v := by
  rw [get_page_eq, get_page_eq]
  unfold install_table
  simp only
  rw [Function.update_noteq hne]

theorem get_page_install_table_same (as : addrspace) (v : Nat)
    (hpfx : root_page_entry.vaddr_prefix (as.page_table (page_ptr v).1) = (page_ptr v).1) :
    get_page (install_table as (page_ptr v).1) v = some (some (page_ptr v)) := by
  rw [get_page_eq]
  unfold install_table
  simp only
  rw [Function.update_same]
  simp only [hpfx, ne_eq, not_true_eq_false, if_false]

theorem add_single_vaddr_page_get_self (m m1 : machine) (as as1 : addrspace) (a : Nat) (f : Int)
    (h : add_single_vaddr_page m as a f = some (m1, as1)) :
    get_page as1 a = some (some (page_ptr a)) := by
  obtain ⟨hpfx, h1 | h1⟩ := add_single_vaddr_page_inv m m1 as as1 a f h
  · obtain ⟨t, ht, _, _, has⟩ := h1
    rw [has, get_page_write_page, get_page_eq]
    simp only [hpfx, ne_eq, not_true_eq_false, if_false, ht]
  · obtain ⟨_, _, _, has⟩ := h1
    rw [has, get_page_write_page]
    exact get_page_install_table_same as a hpfx

theorem add_single_vaddr_page_get_keeps (m m1 : machine) (as as1 : addrspace) (a : Nat) (f : Int)
    (h : add_single_vaddr_page m as a f = some (m1, as1)) (v : Nat) (q : Nat × Nat)
    (hq : get_page as v = some (some q)) : get_page as1 v = some (some q) := by
  obtain ⟨hpfx, h1 | h1⟩ := add_single_vaddr_page_inv m m1 as as1 a f h
  · obtain ⟨t, _, _, _, has⟩ := h1
    rw [has, get_page_write_page]; exact hq
  · obtain ⟨ht, _, _, has⟩ := h1
    rw [has, get_page_write_page]
    by_cases hv : (page_ptr v).1 = (page_ptr a).1
    · exfalso
      rw [get_page_eq] at hq
      rw [hv, ht] at hq
      split at hq <;> exact absurd hq (by simp)
    · rw [get_page_install_table as _ v hv]; exact hq

/-! ## `as_copy` -/

theorem as_copy_step_inv (cur : region) (m m' : machine) (old old' newas new' : addrspace)
    (h : as_copy_step cur m old newas = some (m', old', new')) :
    ∃ op oe m1 n1, load_page old cur.vbase = some (op, oe) ∧
      add_single_vaddr_page m newas cur.vbase oe.flags = some (m1, n1) ∧
      ((oe.paddr = USERSPACETOP ∧ m' = m1 ∧ old' = old ∧ new' = n1) ∨
       (oe.paddr ≠ USERSPACETOP ∧ ∃ ne m2,
          page_at n1 (page_ptr cur.vbase) = some ne ∧
          increment_ref_count m1 (oe.paddr &&& ((WORD - 1) ^^^ TLBLO_DIRTY)) = some m2 ∧
          m' = tlb_remove_entry m2 ne.vaddr ∧
          old' = write_page old op
            { oe with copy_on_write := 1,
                      paddr := oe.paddr &&& ((WORD - 1) ^^^ TLBLO_DIRTY) } ∧
          new' = write_page n1 (page_ptr cur.vbase)
            { ne with paddr := oe.paddr &&& ((WORD - 1) ^^^ TLBLO_DIRTY),
                      copy_on_write := 1 })) := by
  cases h1 : load_page old cur.vbase with
  | none => simp only [as_copy_step, h1] at h; exact absurd h (by simp)
  | some x =>
    obtain ⟨op, oe⟩ := x
    cases h2 : add_single_vaddr_page m newas cur.vbase oe.flags with
    | none => simp only [as_copy_step, h1, h2] at h; exact absurd h (by simp)
    | some y =>
      obtain ⟨m1, n1⟩ := y
      have h3 := add_single_vaddr_page_get_self m m1 newas n1 cur.vbase oe.flags h2
      refine ⟨op, oe, m1, n1, rfl, h2, ?_⟩
      by_cases hf : oe.paddr = USERSPACETOP
      · left
        simp only [as_copy_step, h1, h2, h3, hf, ne_eq, not_true_eq_false, if_false,
          Option.some.injEq, Prod.mk.injEq] at h
        exact ⟨hf, h.1.symm, h.2.1.symm, h.2.2.symm⟩
      · right
        refine ⟨hf, ?_⟩
        cases h4 : page_at n1 (page_ptr cur.vbase) with
        | none =>
          simp only [as_copy_step, h1, h2, h3, hf, ne_eq, not_false_eq_true, if_true, h4] at h
          exact absurd h (by simp)
        | some ne =>
          cases h5 : increment_ref_count m1 (oe.paddr &&& ((WORD - 1) ^^^ TLBLO_DIRTY)) with
          | none =>
            simp only [as_copy_step, h1, h2, h3, hf, ne_eq, not_false_eq_true, if_true, h4,
              h5] at h
            exact absurd h (by simp)
          | some m2 =>
            simp only [as_copy_step, h1, h2, h3, hf, ne_eq, not_false_eq_true, if_true, h4,
              h5, Option.some.injEq, Prod.mk.injEq] at h
            exact ⟨ne, m2, rfl, rfl, h.1.symm, h.2.1.symm, h.2.2.symm⟩

theorem as_copy_step_new_region (cur : region) (m m' : machine) (old old' newas new' : addrspace)
    (h : as_copy_step cur m old newas = some (m', old', new')) :
    new'.as_region = newas.as_region := by
  obtain ⟨op, oe, m1, n1, _, h2, h3 | h3⟩ := as_copy_step_inv cur m m' old old' newas new' h
  · obtain ⟨_, _, _, hn⟩ := h3
    rw [hn]; exact (add_single_vaddr_page_fields _ _ _ _ _ _ h2).1
  · obtain ⟨_, ne, m2, _, _, _, _, hn⟩ := h3
    rw [hn, write_page_as_region]; exact (add_single_vaddr_page_fields _ _ _ _ _ _ h2).1

theorem as_copy_loop_new_region (l : List region) (m m1 : machine)
    (old old1 newas newas1 : addrspace)
    (h : as_copy_loop l m old newas = some (m1, old1, newas1)) :
    newas1.as_region = newas.as_region := by
  induction l generalizing m old newas with
  | nil =>
    simp only [as_copy_loop, Option.some.injEq, Prod.mk.injEq] at h
    rw [← h.2.2]
  | cons cur rest ih =>
    cases hs : as_copy_step cur m old newas with
    | none => simp only [as_copy_loop, hs] at h; exact absurd h (by simp)
    | some x =>
      obtain ⟨m2, old2, new2⟩ := x
      simp only [as_copy_loop, hs] at h
      rw [ih _ _ _ h, as_copy_step_new_region _ _ _ _ _ _ _ hs]

theorem as_copy_inv (m m1 : machine) (old old1 newas : addrspace) (r : Int)
    (h : as_copy m old = some (r, m1, old1, some newas)) :
    r = 0 ∧ (kmalloc m).1 = true ∧
    as_copy_loop old.as_region (kmalloc m).2 old
      { fresh_as with as_heap_start := old.as_heap_start, as_heap_end := old.as_heap_end }
      = some (m1, old1, newas) := by
  unfold as_copy as_create at h
  rcases hk : kmalloc m with ⟨b, mk⟩
  rw [hk] at h
  cases b
  · simp only [Option.some.injEq, Prod.mk.injEq] at h
    exact absurd h.2.2.2 (by simp)
  · simp only at h
    split at h
    · exact absurd h (by simp)
    · rename_i m2 old2 new2 hl
      simp only [Option.some.injEq, Prod.mk.injEq] at h
      obtain ⟨h0, h1, h2, h3⟩ := h
      subst h1; subst h2; subst h3
      exact ⟨h0.symm, rfl, hl⟩

/-- C9, the behaviour of the code: `as_copy` never links a region node into the
new address space; whenever it succeeds, the region list of the new address
space is empty, whatever the region list of the old one. -/
theorem as_copy_region_list_empty (m m1 : machine) (old old1 newas : addrspace)
    (h : as_copy m old = some (0, m1, old1, some newas)) : newas.as_region = [] := by
  obtain ⟨_, _, hl⟩ := as_copy_inv m m1 old old1 newas 0 h
  rw [as_copy_loop_new_region _ _ _ _ _ _ _ hl]
  rfl

theorem as_copy_region_list_empty_witness :
    data_written_as.as_region = [{ vbase := 0x10000000, old_flags := 6 }] ∧
    copied_child.as_region = [] :=
  ⟨by decide, as_copy_region_list_empty data_written_machine copied_machine data_written_as
    copied_parent copied_child rfl⟩

theorem clear_dirty_word (x : Nat) (h : x < WORD) :
    (x &&& ((WORD - 1) ^^^ TLBLO_DIRTY)) >>> 12 = x >>> 12 ∧
    (x &&& ((WORD - 1) ^^^ TLBLO_DIRTY)) &&& TLBLO_DIRTY = 0 ∧
    (x &&& ((WORD - 1) ^^^ TLBLO_DIRTY)) &&& TLBLO_PPAGE = x &&& TLBLO_PPAGE := by
  have h1 : ((WORD - 1) ^^^ TLBLO_DIRTY) &&& TLBLO_DIRTY = 0 := by decide
  have h2 : ((WORD - 1) ^^^ TLBLO_DIRTY) &&& TLBLO_PPAGE = TLBLO_PPAGE := by decide
  have h3 : (x &&& ((WORD - 1) ^^^ TLBLO_DIRTY)) &&& TLBLO_PPAGE = x &&& TLBLO_PPAGE := by
    rw [Nat.and_assoc, h2]
  refine ⟨?_, by rw [Nat.and_assoc, h1, Nat.and_zero], h3⟩
  have hle : x &&& ((WORD - 1) ^^^ TLBLO_DIRTY) ≤ x := Nat.and_le_left
  unfold WORD at h
  unfold TLBLO_PPAGE at h3
  rw [and_frame _ (by omega), and_frame _ h] at h3
  omega

theorem increment_ref_count_inv (m m2 : machine) (k : Nat)
    (h : increment_ref_count m k = some m2) :
    0 < m.frame_table (k >>> 12) ∧
    m2.frame_table = Function.update m.frame_table (k >>> 12) (m.frame_table (k >>> 12) + 1) ∧
    m2.ram = m.ram ∧ m2.released = m.released := by
  unfold increment_ref_count at h
  simp only at h
  split at h
  · rename_i hpos
    simp only [Option.some.injEq] at h
    subst h
    exact ⟨hpos, rfl, rfl, rfl⟩
  · exact absurd h (by simp)

theorem as_copy_step_effect (cur : region) (m m2 : machine) (old old2 newas new2 : addrspace)
    (h : as_copy_step cur m old newas = some (m2, old2, new2)) :
    ∃ oe, page_at old (page_ptr cur.vbase) = some oe ∧
      (∀ q, q ≠ page_ptr cur.vbase → page_at old2 q = page_at old q) ∧
      (∀ q, q ≠ page_ptr cur.vbase → ∀ e, page_at newas q = some e → page_at new2 q = some e) ∧
      (∀ q, q ≠ page_ptr cur.vbase → ∀ e, page_at new2 q = some e →
        page_at newas q = some e ∨ e.paddr = USERSPACETOP) ∧
      (oe.paddr = USERSPACETOP →
        page_at old2 (page_ptr cur.vbase) = some oe ∧ m2.frame_table = m.frame_table ∧
        ∃ eb, page_at new2 (page_ptr cur.vbase) = some eb ∧ eb.flags = oe.flags ∧
          (eb.paddr = USERSPACETOP ∨
            ∃ e0, page_at newas (page_ptr cur.vbase) = some e0 ∧ eb.paddr = e0.paddr)) ∧
      (oe.paddr ≠ USERSPACETOP →
        0 < m.frame_table ((oe.paddr &&& ((WORD - 1) ^^^ TLBLO_DIRTY)) >>> 12) ∧
        m2.frame_table = Function.update m.frame_table
          ((oe.paddr &&& ((WORD - 1) ^^^ TLBLO_DIRTY)) >>> 12)
          (m.frame_table ((oe.paddr &&& ((WORD - 1) ^^^ TLBLO_DIRTY)) >>> 12) + 1) ∧
        ∃ ea eb, page_at old2 (page_ptr cur.vbase) = some ea ∧
          page_at new2 (page_ptr cur.vbase) = some eb ∧
          ea.paddr = oe.paddr &&& ((WORD - 1) ^^^ TLBLO_DIRTY) ∧
          eb.paddr = oe.paddr &&& ((WORD - 1) ^^^ TLBLO_DIRTY) ∧
          ea.copy_on_write = 1 ∧ eb.copy_on_write = 1 ∧
          ea.flags = oe.flags ∧ eb.flags = oe.flags) := by
  obtain ⟨op, oe, m1, n1, h1, h2, h3⟩ := as_copy_step_inv cur m m2 old old2 newas new2 h
  have hop := load_page_ptr old cur.vbase op oe h1
  subst hop
  have hoe := (load_page_elim old cur.vbase _ oe h1).2
  have hm := add_single_vaddr_page_machine _ _ _ _ _ _ h2
  have hkeep := add_single_vaddr_page_keeps _ _ _ _ _ _ h2
  have hother := add_single_vaddr_page_other _ _ _ _ _ _ h2
  have hself := add_single_vaddr_page_self _ _ _ _ _ _ h2
  refine ⟨oe, hoe, ?_⟩
  rcases h3 with ⟨hf, hm2, ho2, hn2⟩ | ⟨hf, ne, m3, hne, hinc, hm2, ho2, hn2⟩
  · subst hm2; subst ho2; subst hn2
    refine ⟨fun q _ => rfl, fun q hq e he => hkeep q hq e he, ?_, ?_, ?_⟩
    · intro q hq e he
      rcases hother q hq with h4 | h4
      · left; rw [← h4]; exact he
      · right
        rw [h4.2] at he
        simp only [Option.some.injEq] at he
        rw [← he]; rfl
    · intro _
      refine ⟨hoe, hm.1, ?_⟩
      rcases hself with ⟨e0, he0, he1⟩ | ⟨_, he1⟩
      · exact ⟨_, he1, rfl, Or.inr ⟨e0, he0, rfl⟩⟩
      · exact ⟨_, he1, rfl, Or.inl rfl⟩
    · intro hc; exact absurd hf hc
  · obtain ⟨hpos, hft, _, _⟩ := increment_ref_count_inv _ _ _ hinc
    subst hm2; subst ho2; subst hn2
    refine ⟨fun q hq => page_at_write_page_other old _ q _ hq, ?_, ?_, ?_, ?_⟩
    · intro q hq e he
      rw [page_at_write_page_other _ _ q _ hq]
      exact hkeep q hq e he
    · intro q hq e he
      rw [page_at_write_page_other _ _ q _ hq] at he
      rcases hother q hq with h4 | h4
      · left; rw [← h4]; exact he
      · right
        rw [h4.2] at he
        simp only [Option.some.injEq] at he
        rw [← he]; rfl
    · intro hc; exact absurd hc hf
    · intro _
      rw [hm.1] at hpos hft
      refine ⟨hpos, ?_, _, _, page_at_write_page_same old _ oe _ hoe,
        page_at_write_page_same n1 _ ne _ hne, rfl, rfl, rfl, rfl, rfl, ?_⟩
      · rw [tlb_remove_entry_frame_table]; exact hft
      · rcases hself with ⟨e0, _, he1⟩ | ⟨_, he1⟩
        · rw [he1] at hne
          simp only [Option.some.injEq] at hne
          rw [← hne]
        · rw [he1] at hne
          simp only [Option.some.injEq] at hne
          rw [← hne]

theorem as_copy_loop_spec (l : List region) :
    ∀ (m m1 : machine) (old old1 newas new1 : addrspace),
    as_copy_loop l m old newas = some (m1, old1, new1) →
    (l.map (fun r => page_ptr r.vbase)).Nodup →
    l.Pairwise (frames_differ old) →
    (∀ r ∈ l, ∀ e, page_at old (page_ptr r.vbase) = some e → e.paddr < WORD) →
    (∀ r ∈ l, ∀ e, page_at newas (page_ptr r.vbase) = some e → e.paddr = USERSPACETOP) →
    (∀ q, q ∉ l.map (fun r => page_ptr r.vbase) → page_at old1 q = page_at old q) ∧
    (∀ q, q ∉ l.map (fun r => page_ptr r.vbase) →
      ∀ e, page_at newas q = some e → page_at new1 q = some e) ∧
    (∀ f, (∀ r ∈ l, ∀ e, page_at old (page_ptr r.vbase) = some e →
        e.paddr ≠ USERSPACETOP → e.paddr >>> 12 ≠ f) → m1.frame_table f = m.frame_table f) ∧
    (∀ r ∈ l, copied_page m m1 old old1 new1 r) := by
  induction l with
  | nil =>
    intro m m1 old old1 newas new1 h _ _ _ _
    simp only [as_copy_loop, Option.some.injEq, Prod.mk.injEq] at h
    obtain ⟨h1, h2, h3⟩ := h
    subst h1; subst h2; subst h3
    refine ⟨fun _ _ => rfl, fun _ _ e he => he, fun _ _ => rfl, ?_⟩
    intro r hr
    exact absurd hr (List.not_mem_nil r)
  | cons cur rest ih =>
    intro m m1 old old1 newas new1 h hnd hpw hword hnew
    cases hs : as_copy_step cur m old newas with
    | none => simp only [as_copy_loop, hs] at h; exact absurd h (by simp)
    | some x =>
      obtain ⟨m2, old2, new2⟩ := x
      simp only [as_copy_loop, hs] at h
      rw [List.map_cons, List.nodup_cons] at hnd
      obtain ⟨hcur, hnd⟩ := hnd
      rw [List.pairwise_cons] at hpw
      obtain ⟨hpc, hpw⟩ := hpw
      obtain ⟨oe, hoe, hO, hN, hN', hnf, hfr⟩ := as_copy_step_effect cur m m2 old old2 newas new2 hs
      have hne : ∀ r ∈ rest, page_ptr r.vbase ≠ page_ptr cur.vbase := by
        intro r hr heq
        exact hcur (List.mem_map.mpr ⟨r, hr, heq⟩)
      have hsame : ∀ r ∈ rest, page_at old2 (page_ptr r.vbase) = page_at old (page_ptr r.vbase) :=
        fun r hr => hO _ (hne r hr)
      have hwcur : oe.paddr < WORD := hword cur (List.mem_cons_self _ _) oe hoe
      have hidx := (clear_dirty_word oe.paddr hwcur).1
      obtain ⟨hB, hC, hD, hA⟩ := ih m2 m1 old2 old1 new2 new1 h hnd
        (by
          apply List.Pairwise.imp_of_mem _ hpw
          intro r s hr hs' hrs e e1 he he1
          rw [hsame r hr] at he
          rw [hsame s hs'] at he1
          exact hrs e e1 he he1)
        (by
          intro r hr e he
          rw [hsame r hr] at he
          exact hword r (List.mem_cons_of_mem _ hr) e he)
        (by
          intro r hr e he
          rcases hN' _ (hne r hr) e he with h1 | h1
          · exact hnew r (List.mem_cons_of_mem _ hr) e h1
          · exact h1)
      -- the frame table after the step, away from the frame of `cur`
      have hm2 : ∀ f, (oe.paddr ≠ USERSPACETOP → oe.paddr >>> 12 ≠ f) →
          m2.frame_table f = m.frame_table f := by
        intro f hf
        by_cases hc : oe.paddr = USERSPACETOP
        · rw [(hnf hc).2.1]
        · rw [(hfr hc).2.1, hidx, Function.update_noteq (Ne.symm (hf hc))]
      refine ⟨?_, ?_, ?_, ?_⟩
      · intro q hq
        rw [List.map_cons, List.mem_cons, not_or] at hq
        rw [hB q hq.2, hO q hq.1]
      · intro q hq e he
        rw [List.map_cons, List.mem_cons, not_or] at hq
        exact hC q hq.2 e (hN q hq.1 e he)
      · intro f hf
        rw [hD f (by
          intro r hr e he
          rw [hsame r hr] at he
          exact hf r (List.mem_cons_of_mem _ hr) e he)]
        exact hm2 f (fun hc => hf cur (List.mem_cons_self _ _) oe hoe hc)
      · intro r hr
        rw [List.mem_cons] at hr
        rcases hr with hr | hr
        · subst hr
          refine ⟨oe, hoe, ?_, ?_⟩
          · intro hc
            obtain ⟨_, hft, ea, eb, hea, heb, hpa, hpb, hca, hcb, _, hfb⟩ := hfr hc
            refine ⟨ea, eb, ?_, hC _ hcur eb heb, by rw [hpa, hpb], by rw [hpa, hidx], hca, hcb,
              by rw [hpa]; exact (clear_dirty_word oe.paddr hwcur).2.1,
              by rw [hpb]; exact (clear_dirty_word oe.paddr hwcur).2.1, hfb, ?_⟩
            · rw [hB _ hcur]; exact hea
            · rw [hD (oe.paddr >>> 12) (by
                intro s hs' e he hce
                rw [hsame s hs'] at he
                exact Ne.symm (hpc s hs' oe e hoe he hc hce))]
              rw [hft, hidx, Function.update_same]
          · intro hc
            obtain ⟨ho2, _, eb, heb, hfb, hpb⟩ := hnf hc
            refine ⟨oe, eb, by rw [hB _ hcur]; exact ho2, hC _ hcur eb heb, hc, ?_, hfb⟩
            rcases hpb with hpb | ⟨e0, he0, hpb⟩
            · exact hpb
            · rw [hpb]; exact hnew r (List.mem_cons_self _ _) e0 he0
        · obtain ⟨e, he, hfc, hnc⟩ := hA r hr
          have he' : page_at old (page_ptr r.vbase) = some e := by
            rw [← hsame r hr]; exact he
          refine ⟨e, he', ?_, hnc⟩
          intro hc
          obtain ⟨ea, eb, h1, h2, h3, h4, h5, h6, h7, h8, h9, h10⟩ := hfc hc
          refine ⟨ea, eb, h1, h2, h3, h4, h5, h6, h7, h8, h9, ?_⟩
          rw [h10, hm2 _ (fun hco => hpc r hr oe e hoe he' hco hc)]

/-- C1 as amended: let the region list of `a` have pairwise distinct pages, let
no two of those pages name the same frame, and let their `paddr` fields be
32-bit words. After a successful `as_copy(a) -> b`, for every region node of
`a` whose page has a frame, the entries of `a` and `b` hold the same `paddr`
word, which names that frame and has `TLBLO_DIRTY` clear, both have
`copy_on_write = 1`, and the frame's reference count is exactly one higher than
before; for every region node whose page has no frame, both entries have no
frame; and the reference count of every frame that no region page names is
unchanged. -/
theorem as_copy_shares_frames (m m1 : machine) (a a1 b : addrspace)
    (hnodup : (a.as_region.map (fun r => page_ptr r.vbase)).Nodup)
    (hdiff : a.as_region.Pairwise (frames_differ a))
    (hword : ∀ r ∈ a.as_region, ∀ e, page_at a (page_ptr r.vbase) = some e → e.paddr < WORD)
    (h : as_copy m a = some (0, m1, a1, some b)) :
    (∀ r ∈ a.as_region, copied_page m m1 a a1 b r) ∧
    (∀ f, (∀ r ∈ a.as_region, ∀ e, page_at a (page_ptr r.vbase) = some e →
        e.paddr ≠ USERSPACETOP → e.paddr >>> 12 ≠ f) → m1.frame_table f = m.frame_table f) := by
  obtain ⟨_, _, hl⟩ := as_copy_inv m m1 a a1 b 0 h
  obtain ⟨_, _, hD, hA⟩ := as_copy_loop_spec a.as_region _ _ _ _ _ _ hl hnodup hdiff hword
    (by
      intro r _ e he
      have hn : ∀ (x : addrspace) (q : Nat × Nat), x.page_table = fresh_as.page_table →
          page_at x q = none := by
        intro x q hx
        unfold page_at
        rw [hx]
        rfl
      have hq := hn _ (page_ptr r.vbase) rfl
      exact absurd (hq.symm.trans he) (by simp))
  have hk := (kmalloc_fields m).1
  refine ⟨?_, ?_⟩
  · intro r hr
    obtain ⟨e, he, hf, hn⟩ := hA r hr
    refine ⟨e, he, ?_, hn⟩
    intro hc
    obtain ⟨ea, eb, h1, h2, h3, h4, h5, h6, h7, h8, h9, h10⟩ := hf hc
    rw [hk] at h10
    exact ⟨ea, eb, h1, h2, h3, h4, h5, h6, h7, h8, h9, h10⟩
  · intro f hf
    rw [hD f hf, hk]

theorem as_copy_shares_frames_witness :
    copied_page data_written_machine copied_machine data_written_as copied_parent copied_child
      { vbase := 0x10000000, old_flags := 6 } :=
  (as_copy_shares_frames data_written_machine copied_machine data_written_as copied_parent
    copied_child (by decide)
    (by
      have h : data_written_as.as_region = [{ vbase := 0x10000000, old_flags := 6 }] := by decide
      rw [h]
      exact List.pairwise_singleton _ _)
    (by
      have h : data_written_as.as_region = [{ vbase := 0x10000000, old_flags := 6 }] := by decide
      rw [h]
      intro r hr e he
      rw [List.mem_singleton] at hr
      subst hr
      have h2 : page_at data_written_as
          (page_ptr ({ vbase := 0x10000000, old_flags := 6 } : region).vbase)
          = some { vaddr := 0x10000, paddr := 0x5600, copy_on_write := 0, flags := 6 } := by
        decide
      rw [h2] at he
      simp only [Option.some.injEq] at he
      rw [← he]
      decide)
    rfl).1 _ (by decide)

/-- C1 as stated fails: `alias_as` has two region nodes with distinct pages,
both defined (flags 6), both naming frame 5 with `copy_on_write = 0`, and frame
5 has reference count 2, the number of entries that name it, so the data-model
invariants hold; `as_copy` succeeds and leaves frame 5 with reference count 4,
two higher than before and not one. -/
theorem as_copy_shared_frame_counterexample :
    alias_as.as_region
      = [{ vbase := 0x10001000, old_flags := 6 }, { vbase := 0x10000000, old_flags := 6 }] ∧
    (alias_as.as_region.map (fun r => page_ptr r.vbase)).Nodup ∧
    load_page alias_as 0x10000000
      = some ((64, 0), { vaddr := 0x10000, paddr := 0x5200, copy_on_write := 0, flags := 6 }) ∧
    load_page alias_as 0x10001000
      = some ((64, 1), { vaddr := 0x10001, paddr := 0x5200, copy_on_write := 0, flags := 6 }) ∧
    alias_machine.frame_table (0x5200 >>> 12) = 2 ∧
    alias_as.as_heap_start ≤ alias_as.as_heap_end ∧ alias_as.as_heap_end ≤ USERSPACETOP ∧
    (as_copy alias_machine alias_as).map (fun r => (r.1, r.2.1.frame_table (0x5200 >>> 12)))
      = some (0, 4) ∧
    (4 : Int) ≠ 2 + 1 := by
  decide

/-! ## Copy followed by destroy -/

theorem as_deactivate_fields (has_as : Bool) (m : machine) :
    (as_deactivate has_as m).frame_table = m.frame_table ∧
    (as_deactivate has_as m).released = m.released ∧
    (as_deactivate has_as m).ram = m.ram := by
  unfold as_deactivate
  cases has_as
  · exact ⟨rfl, rfl, rfl⟩
  · simp only [if_true]
    generalize List.range NUM_TLB = l
    induction l generalizing m with
    | nil => exact ⟨rfl, rfl, rfl⟩
    | cons i l ih =>
      rw [List.foldl_cons]
      obtain ⟨h1, h2, h3⟩ := ih (tlb_write m (TLBHI_INVALID i) TLBLO_INVALID i)
      exact ⟨h1, h2, h3⟩

/-- C8, the behaviour of the code: the address space `b` that a successful
`as_copy` returns has no region node, so `as_destroy(b)` returns without a
single `decrement_ref_count`: the frame table, the released frames and memory
are what `as_copy` left, each shared frame still one reference above its count
before the copy. -/
theorem as_destroy_of_copy_keeps_counts (has_as : Bool) (m m1 : machine) (a a1 b : addrspace)
    (h : as_copy m a = some (0, m1, a1, some b)) :
    ∃ m2, as_destroy has_as m1 b = some m2 ∧ m2.frame_table = m1.frame_table ∧
      m2.released = m1.released ∧ m2.ram = m1.ram := by
  obtain ⟨_, _, hl⟩ := as_copy_inv m m1 a a1 b 0 h
  have hr : b.as_region = [] := by
    rw [as_copy_loop_new_region _ _ _ _ _ _ _ hl]
    rfl
  refine ⟨as_deactivate has_as m1, ?_, as_deactivate_fields has_as m1⟩
  unfold as_destroy
  rw [hr]
  rfl

theorem as_destroy_of_copy_keeps_counts_witness :
    data_written_machine.frame_table 5 = 1 ∧
    copied_machine.frame_table 5 = 2 ∧
    (∃ m2, as_destroy true copied_machine copied_child = some m2 ∧
      m2.frame_table = copied_machine.frame_table ∧
      m2.released = copied_machine.released ∧ m2.ram = copied_machine.ram) ∧
    child_destroyed_machine.frame_table 5 = 2 ∧
    load_page copied_parent 0x10000000
      = some ((64, 0), { vaddr := 0x10000, paddr := 0x5200, copy_on_write := 1, flags := 6 }) ∧
    (vm_fault (some (some copied_parent)) 0x80006000 4 child_destroyed_machine VM_FAULT_WRITE
      0x10000000).bind (fun r =>
        match r.2.2 with
        | some (some as) =>
          (load_page as 0x10000000).map
            (fun p => (r.1, p.2, r.2.1.frame_table 5, r.2.1.frame_table 6))
        | _ => none)
      = some (0, { vaddr := 0x10000, paddr := 0x6600, copy_on_write := 0, flags := 6 }, 1, 1) :=
  ⟨by decide, by decide,
    as_destroy_of_copy_keeps_counts true data_written_machine copied_machine data_written_as
      copied_parent copied_child rfl,
    by decide, by decide, by decide⟩

/-! ## The heap primitive -/

theorem tmod_four (a : Int) :
    Int.tmod a 4 = if a < 0 ∧ a % 4 ≠ 0 then a % 4 - 4 else a % 4 := by
  rcases Int.lt_or_le a 0 with h | h
  · obtain ⟨n, rfl⟩ := Int.eq_negSucc_of_lt_zero h
    have h1 : Int.tmod (Int.negSucc n) 4 = -(((n + 1 : Nat) % 4 : Nat) : Int) := rfl
    rw [h1]
    have h2 : Int.negSucc n = -((n : Int) + 1) := rfl
    rw [h2]
    push_cast
    split <;> omega
  · rw [Int.tmod_eq_emod h (by decide)]
    have : ¬ (a < 0 ∧ a % 4 ≠ 0) := by omega
    rw [if_neg this]

theorem round_up_4_least (a : Int) :
    4 ∣ round_up_4 a ∧ a ≤ round_up_4 a ∧ ∀ k : Int, 4 ∣ k → a ≤ k → round_up_4 a ≤ k := by
  unfold round_up_4
  refine ⟨Dvd.intro _ rfl, by omega, ?_⟩
  intro k hk hle
  obtain ⟨c, rfl⟩ := hk
  omega

theorem sbrk_round_eq (amount : Int) :
    sbrk_round amount
      = if amount < 0 ∧ amount % 4 ≠ 0 then round_up_4 amount + 4 else round_up_4 amount := by
  unfold sbrk_round round_up_4
  rw [tmod_four]
  split <;> split <;> omega

/-- C12, the behaviour of the code: the rounding step of `sys_sbrk` (lines
14-16) yields the smallest multiple of 4 that is greater than or equal to the
amount only when the amount is non-negative or already a multiple of 4; for a
negative amount that is not a multiple of 4 it yields that multiple plus 4, for
instance 4 for the amount -1 and 0 for the amount -5, where rounding up gives 0
and -4. -/
theorem sbrk_round_negative_overshoots :
    (∀ amount : Int, sbrk_round amount
      = if amount < 0 ∧ amount % 4 ≠ 0 then round_up_4 amount + 4 else round_up_4 amount) ∧
    (∀ amount : Int, 4 ∣ round_up_4 amount ∧ amount ≤ round_up_4 amount ∧
      ∀ k : Int, 4 ∣ k → amount ≤ k → round_up_4 amount ≤ k) ∧
    sbrk_round (-1) = 4 ∧ round_up_4 (-1) = 0 ∧
    sbrk_round (-5) = 0 ∧ round_up_4 (-5) = -4 :=
  ⟨sbrk_round_eq, round_up_4_least, by decide, by decide, by decide, by decide⟩

/-- C11, the behaviour of the code: the sum `heapEnd + amount` of the range
check (lines 26-30) is formed in unsigned 32-bit arithmetic. In the address
space `as_create` builds, `heap_start = heap_end = 0`; for the amount `-2^31`,
which the rounding leaves alone, the exact sum `-2^31` is below `heap_start`,
yet the wrapped sum is `USERSPACETOP`, both range tests pass and `sys_sbrk`
returns `ENOMEM`, not `EINVAL`. -/
theorem sys_sbrk_range_check_wraps :
    fresh_as.as_heap_start ≤ fresh_as.as_heap_end ∧ fresh_as.as_heap_end ≤ USERSPACETOP ∧
    sbrk_round (-2147483648) = -2147483648 ∧
    (fresh_as.as_heap_end : Int) + sbrk_round (-2147483648) < (fresh_as.as_heap_start : Int) ∧
    (sys_sbrk boot_machine fresh_as (-2147483648)).map (fun r => (r.1, r.2.1))
      = some (ENOMEM, none) ∧
    ENOMEM ≠ EINVAL := by
  decide

/-- C13 as stated fails: in scenario S4 (`heap_start = heap_end = 0x500000`,
page-aligned, the only other region at `0x4ff000`) both `sbrk(1)` and the
`sbrk(-1)` that follows return 0, yet the break ends at `0x500008`, not at
`0x500000`, and the page `0x500000` stays in the region list. Rounding up to a
multiple of 4 turns 1 into 4 and -1 into 0, so the two rounded amounts are not
opposite whatever the code does with them (the code adds 4 twice). -/
theorem sys_sbrk_round_trip_counterexample :
    heap_as.as_heap_start = 0x500000 ∧ heap_as.as_heap_end = 0x500000 ∧
    heap_as.as_heap_start % PAGE_SIZE = 0 ∧
    heap_as.as_region.map (fun r => r.vbase) = [0x4ff000] ∧
    heap_plus_one.map (fun r => (r.1, r.2.1, r.2.2.2.as_heap_end))
      = some (0, some 0x500000, 0x500004) ∧
    heap_plus_minus_one.map
        (fun r => (r.1, r.2.1, r.2.2.2.as_heap_end, r.2.2.2.as_region.map (fun n => n.vbase)))
      = some (0, some 0x500004, 0x500008, [0x500000, 0x4ff000]) ∧
    (0x500008 : Nat) ≠ 0x500000 ∧
    round_up_4 1 = 4 ∧ round_up_4 (-1) = 0 := by
  decide

/-! ## Removing regions and loading segments -/

/-- C14, the behaviour of the code: `as_remove_region` only unlinks region
nodes and decrements reference counts; it never writes a page entry, so the
page table afterwards is the page table before, and the entry of a removed page
keeps its flags and its `paddr` word, also when its frame has been released. -/
theorem as_remove_region_keeps_page_table (m m1 : machine) (as as1 : addrspace)
    (vaddr memsize : Nat) (h : as_remove_region m as vaddr memsize = some (m1, as1)) :
    as1.page_table = as.page_table ∧
    ∀ v, get_page as1 v = get_page as v ∧ load_page as1 v = load_page as v := by
  unfold as_remove_region at h
  split at h
  · exact absurd h (by simp)
  · simp only [Option.some.injEq, Prod.mk.injEq] at h
    obtain ⟨_, h2⟩ := h
    subst h2
    exact ⟨rfl, fun _ => ⟨rfl, rfl⟩⟩

theorem as_remove_region_keeps_page_table_witness :
    heap_written_as.as_region.map (fun r => r.vbase) = [0x500000, 0x4ff000] ∧
    load_page heap_written_as 0x500000
      = some ((1, 256), { vaddr := 0x500, paddr := 0x5600, copy_on_write := 0, flags := 7 }) ∧
    heap_written_machine.frame_table 5 = 1 ∧
    heap_removed_as.as_region.map (fun r => r.vbase) = [0x4ff000] ∧
    heap_removed_machine.frame_table 5 = 0 ∧
    heap_removed_machine.released = [0x80005000] ∧
    load_page heap_removed_as 0x500000
      = some ((1, 256), { vaddr := 0x500, paddr := 0x5600, copy_on_write := 0, flags := 7 }) ∧
    (heap_removed_as.page_table = heap_written_as.page_table ∧
      ∀ v, get_page heap_removed_as v = get_page heap_written_as v ∧
        load_page heap_removed_as v = load_page heap_written_as v) :=
  ⟨by decide, by decide, by decide, by decide, by decide, by decide, by decide,
    as_remove_region_keeps_page_table heap_written_machine heap_removed_machine heap_written_as
      heap_removed_as 0x500000 0x1000 rfl⟩

theorem and_dirty_ne_one (x : Nat) : x &&& TLBLO_DIRTY ≠ 1 := by
  intro h
  have h1 := congrArg (fun n => n.testBit 0) h
  simp [TLBLO_DIRTY, Nat.testBit_and] at h1

theorem as_complete_load_loop_paddr (l : List region) :
    ∀ (m m1 : machine) (as as1 : addrspace),
    as_complete_load_loop l m as = some (m1, as1) →
    m1 = m ∧ as1.as_region = as.as_region ∧
    ∀ q, (page_at as1 q).map (fun e => (e.vaddr, e.paddr, e.copy_on_write))
      = (page_at as q).map (fun e => (e.vaddr, e.paddr, e.copy_on_write)) := by
  induction l with
  | nil =>
    intro m m1 as as1 h
    simp only [as_complete_load_loop, Option.some.injEq, Prod.mk.injEq] at h
    obtain ⟨h1, h2⟩ := h
    subst h1; subst h2
    exact ⟨rfl, rfl, fun _ => rfl⟩
  | cons r rest ih =>
    intro m m1 as as1 h
    cases hl : load_page as r.vbase with
    | none =>
      simp only [as_complete_load_loop, hl] at h
      exact absurd h (by simp)
    | some pe =>
      obtain ⟨ptr, page⟩ := pe
      have hc : ¬ (page.paddr ≠ USERSPACETOP ∧ Int.land r.old_flags PF_W = 0 ∧
          page.paddr &&& TLBLO_DIRTY = 1) := fun hh => and_dirty_ne_one _ hh.2.2
      simp only [as_complete_load_loop, hl, hc, if_false] at h
      obtain ⟨hm, hr, hq⟩ := ih _ _ _ _ h
      refine ⟨hm, ?_, ?_⟩
      · rw [hr, write_page_as_region]
      · intro q
        rw [hq q]
        obtain ⟨_, hp⟩ := load_page_elim _ _ _ _ hl
        by_cases hqp : q = ptr
        · subst hqp
          rw [page_at_write_page_same _ _ _ _ hp, hp]
          rfl
        · rw [page_at_write_page_other _ _ _ _ hqp]

/-- C19, the behaviour of the code: the test `(page->paddr & TLBLO_DIRTY) == 1`
of `as_complete_load` (line 362) never holds, because `TLBLO_DIRTY` is bit 10,
so the branch that invalidates the TLB entry and clears the bit is dead:
`as_complete_load` returns with the machine (the TLB included) untouched and
with the `paddr` word of every page entry as it was, `TLBLO_DIRTY` included,
whatever the restored flags. -/
theorem as_complete_load_keeps_dirty (m m1 : machine) (as as1 : addrspace) (r : Int)
    (h : as_complete_load m as = some (r, m1, as1)) :
    m1 = m ∧ ∀ q, (page_at as1 q).map (fun e => e.paddr) = (page_at as q).map (fun e => e.paddr) := by
  unfold as_complete_load at h
  split at h
  · exact absurd h (by simp)
  · rename_i m2 as2 hl
    simp only [Option.some.injEq, Prod.mk.injEq] at h
    obtain ⟨_, h1, h2⟩ := h
    subst h1; subst h2
    obtain ⟨hm, _, hq⟩ := as_complete_load_loop_paddr _ _ _ _ _ hl
    refine ⟨hm, fun q => ?_⟩
    have h3 := congrArg (fun o => o.map (fun (t : Nat × Nat × Int) => t.2.1)) (hq q)
    simp only [Option.map_map] at h3
    exact h3

theorem as_complete_load_keeps_dirty_witness :
    text_prepared_as.as_region = [{ vbase := 0x400000, old_flags := 5 }] ∧
    load_page text_prepared_as 0x400000
      = some ((1, 0), { vaddr := 0x400, paddr := 0x5600, copy_on_write := 0, flags := 7 }) ∧
    load_page text_completed_as 0x400000
      = some ((1, 0), { vaddr := 0x400, paddr := 0x5600, copy_on_write := 0, flags := 5 }) ∧
    Int.land 5 PF_W = 0 ∧ 0x5600 &&& TLBLO_DIRTY ≠ 0 ∧
    (text_completed_machine = text_prepared_machine ∧
      ∀ q, (page_at text_completed_as q).map (fun e => e.paddr)
        = (page_at text_prepared_as q).map (fun e => e.paddr)) :=
  ⟨by decide, by decide, by decide, by decide, by decide,
    as_complete_load_keeps_dirty text_prepared_machine text_completed_machine text_prepared_as
      text_completed_as 0 rfl⟩

theorem define_pages_heap (flags : Int) (vaddr : Nat) (n : Nat) :
    ∀ (i : Nat) (m m1 : machine) (as as1 : addrspace) (r : Int),
    define_pages flags vaddr n i m as = some (r, m1, as1) →
    as1.as_heap_start = as.as_heap_start ∧ as1.as_heap_end = as.as_heap_end := by
  induction n with
  | zero =>
    intro i m m1 as as1 r h
    simp only [define_pages, Option.some.injEq, Prod.mk.injEq] at h
    obtain ⟨_, _, h3⟩ := h
    subst h3
    exact ⟨rfl, rfl⟩
  | succ n ih =>
    intro i m m1 as as1 r h
    cases ha : add_single_vaddr_page m as ((vaddr + i) % WORD) flags with
    | none =>
      simp only [define_pages, ha] at h
      exact absurd h (by simp)
    | some p =>
      obtain ⟨m2, as2⟩ := p
      obtain ⟨_, hs, he⟩ := add_single_vaddr_page_fields _ _ _ _ _ _ ha
      cases hk : kmalloc m2 with
      | mk b m3 =>
        cases b with
        | false =>
          simp only [define_pages, ha, hk, Option.some.injEq, Prod.mk.injEq] at h
          obtain ⟨_, _, h3⟩ := h
          subst h3
          exact ⟨hs, he⟩
        | true =>
          simp only [define_pages, ha, hk] at h
          obtain ⟨h1, h2⟩ := ih _ _ _ _ _ _ h
          exact ⟨h1.trans hs, h2.trans he⟩

theorem as_define_region_noheap_heap (m m1 : machine) (as as1 : addrspace) (vaddr memsize : Nat)
    (rd wr ex r : Int)
    (h : as_define_region_noheap m as vaddr memsize rd wr ex = some (r, m1, as1)) :
    as1.as_heap_start = as.as_heap_start ∧ as1.as_heap_end = as.as_heap_end :=
  define_pages_heap _ _ _ _ _ _ _ _ _ h

theorem as_remove_region_heap (m m1 : machine) (as as1 : addrspace) (vaddr memsize : Nat)
    (h : as_remove_region m as vaddr memsize = some (m1, as1)) :
    as1.as_heap_start = as.as_heap_start ∧ as1.as_heap_end = as.as_heap_end := by
  unfold as_remove_region at h
  split at h
  · exact absurd h (by simp)
  · simp only [Option.some.injEq, Prod.mk.injEq] at h
    obtain ⟨_, h2⟩ := h
    subst h2
    exact ⟨rfl, rfl⟩

theorem sbrk_sum_exact (he hs : Nat) (a : Int) (het : he ≤ USERSPACETOP)
    (h1 : ¬ (((he : Int) + a) % (WORD : Int)).toNat < hs)
    (h2 : ¬ (((he : Int) + a) % (WORD : Int)).toNat > USERSPACETOP)
    (h3 : ¬ (a > 536870912 ∨ a < -536870912)) :
    (((((he : Int) + a) % (WORD : Int)).toNat : Nat) : Int) = he + a ∧
    hs ≤ (((he : Int) + a) % (WORD : Int)).toNat ∧
    (((he : Int) + a) % (WORD : Int)).toNat ≤ USERSPACETOP := by
  unfold USERSPACETOP MIPS_KSEG0 at *
  unfold WORD at *
  push_cast at *
  omega

theorem sys_sbrk_inv (m m1 : machine) (as as1 : addrspace) (amount r : Int) (rv : Option Nat)
    (h : sys_sbrk m as amount = some (r, rv, m1, as1)) :
    (r = EINVAL ∧ rv = none ∧ m1 = m ∧ as1 = as ∧
      ((((as.as_heap_end : Int) + sbrk_round amount) % (WORD : Int)).toNat < as.as_heap_start ∨
        (((as.as_heap_end : Int) + sbrk_round amount) % (WORD : Int)).toNat > USERSPACETOP)) ∨
    (r = ENOMEM ∧ rv = none ∧ m1 = m ∧ as1 = as ∧
      ¬ (((as.as_heap_end : Int) + sbrk_round amount) % (WORD : Int)).toNat < as.as_heap_start ∧
      ¬ (((as.as_heap_end : Int) + sbrk_round amount) % (WORD : Int)).toNat > USERSPACETOP ∧
      (sbrk_round amount > 536870912 ∨ sbrk_round amount < -536870912)) ∨
    (r = 0 ∧ rv = some as.as_heap_end ∧
      ¬ (((as.as_heap_end : Int) + sbrk_round amount) % (WORD : Int)).toNat < as.as_heap_start ∧
      ¬ (((as.as_heap_end : Int) + sbrk_round amount) % (WORD : Int)).toNat > USERSPACETOP ∧
      ¬ (sbrk_round amount > 536870912 ∨ sbrk_round amount < -536870912) ∧
      as1.as_heap_start = as.as_heap_start ∧
      as1.as_heap_end = (((as.as_heap_end : Int) + sbrk_round amount) % (WORD : Int)).toNat) := by
  unfold sys_sbrk at h
  simp only at h
  split at h
  · rename_i c1
    simp only [Option.some.injEq, Prod.mk.injEq] at h
    obtain ⟨h1, h2, h3, h4⟩ := h
    exact Or.inl ⟨h1.symm, h2.symm, h3.symm, h4.symm, Or.inl c1⟩
  · rename_i c1
    split at h
    · rename_i c2
      simp only [Option.some.injEq, Prod.mk.injEq] at h
      obtain ⟨h1, h2, h3, h4⟩ := h
      exact Or.inl ⟨h1.symm, h2.symm, h3.symm, h4.symm, Or.inr c2⟩
    · rename_i c2
      split at h
      · rename_i c3
        simp only [Option.some.injEq, Prod.mk.injEq] at h
        obtain ⟨h1, h2, h3, h4⟩ := h
        exact Or.inr (Or.inl ⟨h1.symm, h2.symm, h3.symm, h4.symm, c1, c2, c3⟩)
      · rename_i c3
        right
        right
        split at h
        · split at h
          · split at h
            · exact absurd h (by simp)
            · rename_i r0 m2 as2 hd
              simp only [Option.some.injEq, Prod.mk.injEq] at h
              obtain ⟨h1, h2, h3, h4⟩ := h
              subst h4
              obtain ⟨hs, _⟩ := as_define_region_noheap_heap _ _ _ _ _ _ _ _ _ _ hd
              exact ⟨h1.symm, h2.symm, c1, c2, c3, hs, rfl⟩
          · simp only [Option.some.injEq, Prod.mk.injEq] at h
            obtain ⟨h1, h2, h3, h4⟩ := h
            subst h4
            exact ⟨h1.symm, h2.symm, c1, c2, c3, rfl, rfl⟩
        · split at h
          · split at h
            · exact absurd h (by simp)
            · rename_i m2 as2 hd
              simp only [Option.some.injEq, Prod.mk.injEq] at h
              obtain ⟨h1, h2, h3, h4⟩ := h
              subst h4
              obtain ⟨hs, _⟩ := as_remove_region_heap _ _ _ _ _ _ hd
              exact ⟨h1.symm, h2.symm, c1, c2, c3, hs, rfl⟩
          · simp only [Option.some.injEq, Prod.mk.injEq] at h
            obtain ⟨h1, h2, h3, h4⟩ := h
            subst h4
            exact ⟨h1.symm, h2.symm, c1, c2, c3, rfl, rfl⟩

/-- What a `sys_sbrk` call that returns 0 has stored, in terms of the amount
`sbrk_round amount` that lines 14-16 compute: `*retval` holds the old
`heap_end`, the new `heap_end` is the old `heap_end` plus that amount as an
exact integer, `heap_start` is unchanged, and
`heap_start <= heap_end <= USERSPACETOP` holds again. -/
theorem sys_sbrk_success (m m1 : machine) (as as1 : addrspace) (amount : Int) (rv : Option Nat)
    (_hse : as.as_heap_start ≤ as.as_heap_end) (het : as.as_heap_end ≤ USERSPACETOP)
    (_hint : -2147483648 ≤ amount ∧ sbrk_round amount ≤ 2147483647)
    (h : sys_sbrk m as amount = some (0, rv, m1, as1)) :
    rv = some as.as_heap_end ∧
    (as1.as_heap_end : Int) = (as.as_heap_end : Int) + sbrk_round amount ∧
    as1.as_heap_start = as.as_heap_start ∧
    as1.as_heap_start ≤ as1.as_heap_end ∧ as1.as_heap_end ≤ USERSPACETOP := by
  rcases sys_sbrk_inv _ _ _ _ _ _ _ h with ⟨h0, _⟩ | ⟨h0, _⟩ | ⟨_, hrv, c1, c2, c3, hs, he⟩
  · exact absurd h0 (by decide)
  · exact absurd h0 (by decide)
  · obtain ⟨e1, e2, e3⟩ := sbrk_sum_exact _ _ _ het c1 c2 c3
    rw [he, hs]
    exact ⟨hrv, e1, rfl, e2, e3⟩

theorem sys_sbrk_success_witness :
    heap_as.as_heap_start = 0x500000 ∧ heap_as.as_heap_end = 0x500000 ∧
    sbrk_round 0x1000 = 0x1000 ∧
    (some 0x500000 = some heap_as.as_heap_end ∧
    (heap_grown_as.as_heap_end : Int) = (heap_as.as_heap_end : Int) + sbrk_round 0x1000 ∧
    heap_grown_as.as_heap_start = heap_as.as_heap_start ∧
    heap_grown_as.as_heap_start ≤ heap_grown_as.as_heap_end ∧
    heap_grown_as.as_heap_end ≤ USERSPACETOP) :=
  ⟨by decide, by decide, by decide,
    sys_sbrk_success boot_machine heap_grown_machine heap_as heap_grown_as 0x1000
      (some 0x500000) (by decide) (by decide) (by decide) rfl⟩

/-- For an amount that is non-negative or a multiple of 4 the amount that lines
14-16 compute is the amount rounded up to a multiple of 4, and a `sys_sbrk`
call that returns 0 has moved `heap_end` by exactly that; for a negative amount
that is not a multiple of 4 it has moved `heap_end` by 4 more. -/
theorem sys_sbrk_success_round_up (m m1 : machine) (as as1 : addrspace) (amount : Int)
    (rv : Option Nat) (hse : as.as_heap_start ≤ as.as_heap_end)
    (het : as.as_heap_end ≤ USERSPACETOP)
    (hint : -2147483648 ≤ amount ∧ sbrk_round amount ≤ 2147483647)
    (h : sys_sbrk m as amount = some (0, rv, m1, as1)) :
    rv = some as.as_heap_end ∧
    (as1.as_heap_end : Int) = (as.as_heap_end : Int) + round_up_4 amount
      + (if amount < 0 ∧ amount % 4 ≠ 0 then 4 else 0) ∧
    as1.as_heap_start = as.as_heap_start ∧
    as1.as_heap_start ≤ as1.as_heap_end ∧ as1.as_heap_end ≤ USERSPACETOP := by
  obtain ⟨h1, h2, h3, h4, h5⟩ := sys_sbrk_success m m1 as as1 amount rv hse het hint h
  refine ⟨h1, ?_, h3, h4, h5⟩
  rw [h2, sbrk_round_eq]
  split <;> omega

/-- C10, the behaviour of the code: after `sbrk(0x100)` in scenario S4 the heap
is `0x500000..0x500100`, within `heap_start <= heap_end <= USERSPACETOP`. The
call `sbrk(-1)` returns 0 with `*retval = 0x500100` and leaves `heap_start`
alone, but stores `heap_end = 0x500104`: the amount -1 rounded up to a multiple
of 4 is 0, so the old `heap_end` plus the rounded amount is `0x500100`, while
lines 14-16 turn -1 into 4. -/
theorem sys_sbrk_negative_amount_grows :
    heap_small_as.as_heap_start = 0x500000 ∧ heap_small_as.as_heap_end = 0x500100 ∧
    heap_small_as.as_heap_start ≤ heap_small_as.as_heap_end ∧
    heap_small_as.as_heap_end ≤ USERSPACETOP ∧
    round_up_4 (-1) = 0 ∧ sbrk_round (-1) = 4 ∧
    heap_small_minus_one.map
        (fun r => (r.1, r.2.1, r.2.2.2.as_heap_start, r.2.2.2.as_heap_end))
      = some (0, some 0x500100, 0x500000, 0x500104) ∧
    (0x500104 : Int) ≠ 0x500100 + round_up_4 (-1) := by
  decide

theorem sbrk_sum_cases (he hs : Nat) (a : Int) (hse : hs ≤ he) (het : he ≤ USERSPACETOP)
    (hint : -2147483648 ≤ a ∧ a ≤ 2147483647)
    (hne : ¬ (he = 0 ∧ a = -2147483648)) :
    ((((he : Int) + a) % (WORD : Int)).toNat < hs ∨
      (((he : Int) + a) % (WORD : Int)).toNat > USERSPACETOP) ↔
    ((he : Int) + a < hs ∨ (he : Int) + a > (USERSPACETOP : Int)) := by
  unfold USERSPACETOP MIPS_KSEG0 at *
  unfold WORD at *
  push_cast at *
  omega

/-- The error classes of `sys_sbrk` away from the one input on which the
unsigned sum of the range check lands on `USERSPACETOP` (`heap_end = 0` with
the rounded amount `-2^31`): the range check decides as on exact integers and
comes first, then the size check; a call that passes both returns 0 if it
returns. -/
theorem sys_sbrk_error_classes (m : machine) (as : addrspace) (amount : Int)
    (hse : as.as_heap_start ≤ as.as_heap_end) (het : as.as_heap_end ≤ USERSPACETOP)
    (hint : -2147483648 ≤ sbrk_round amount ∧ sbrk_round amount ≤ 2147483647)
    (hne : ¬ (as.as_heap_end = 0 ∧ sbrk_round amount = -2147483648)) :
    (((as.as_heap_end : Int) + sbrk_round amount < as.as_heap_start ∨
        (as.as_heap_end : Int) + sbrk_round amount > (USERSPACETOP : Int)) →
      sys_sbrk m as amount = some (EINVAL, none, m, as)) ∧
    (¬ ((as.as_heap_end : Int) + sbrk_round amount < as.as_heap_start ∨
        (as.as_heap_end : Int) + sbrk_round amount > (USERSPACETOP : Int)) →
      (sbrk_round amount > 536870912 ∨ sbrk_round amount < -536870912) →
      sys_sbrk m as amount = some (ENOMEM, none, m, as)) ∧
    (¬ ((as.as_heap_end : Int) + sbrk_round amount < as.as_heap_start ∨
        (as.as_heap_end : Int) + sbrk_round amount > (USERSPACETOP : Int)) →
      ¬ (sbrk_round amount > 536870912 ∨ sbrk_round amount < -536870912) →
      ∀ r, sys_sbrk m as amount = some r → r.1 = 0) := by
  have hc := sbrk_sum_cases _ _ _ hse het hint hne
  refine ⟨?_, ?_, ?_⟩
  · intro hr
    have hw := hc.mpr hr
    unfold sys_sbrk
    simp only
    by_cases c1 : (((as.as_heap_end : Int) + sbrk_round amount) % (WORD : Int)).toNat
        < as.as_heap_start
    · rw [if_pos c1]
    · have c2 := hw.resolve_left c1
      rw [if_neg c1, if_pos c2]
  · intro hr hs
    have hw := fun h => hr (hc.mp h)
    have c1 := fun h => hw (Or.inl h)
    have c2 := fun h => hw (Or.inr h)
    unfold sys_sbrk
    simp only
    rw [if_neg c1, if_neg c2, if_pos hs]
  · intro hr hs r h
    obtain ⟨r0, rv, m1, as1⟩ := r
    rcases sys_sbrk_inv _ _ _ _ _ _ _ h with ⟨_, _, _, _, hw⟩ | ⟨_, _, _, _, _, _, c3⟩ | ⟨h0, _⟩
    · exact absurd (hc.mp hw) hr
    · exact absurd c3 hs
    · exact h0

theorem as_remove_region_loop_filter (as : addrspace) (vaddr memsize : Nat) (l : List region) :
    ∀ m : machine,
    (∀ r ∈ l, vaddr ≤ r.vbase ∧ r.vbase < (vaddr + memsize) % WORD → load_page as r.vbase ≠ none) →
    ∃ m1, as_remove_region_loop as vaddr memsize l m
      = some (m1, l.filter
          (fun r => decide (¬ (vaddr ≤ r.vbase ∧ r.vbase < (vaddr + memsize) % WORD)))) := by
  induction l with
  | nil =>
    intro m _
    exact ⟨m, rfl⟩
  | cons cur rest ih =>
    intro m hl
    have hrest : ∀ r ∈ rest, vaddr ≤ r.vbase ∧ r.vbase < (vaddr + memsize) % WORD →
        load_page as r.vbase ≠ none := fun r hr => hl r (List.mem_cons_of_mem _ hr)
    by_cases hc : vaddr ≤ cur.vbase ∧ cur.vbase < (vaddr + memsize) % WORD
    · have hf : List.filter
          (fun r => decide (¬ (vaddr ≤ r.vbase ∧ r.vbase < (vaddr + memsize) % WORD)))
          (cur :: rest)
          = List.filter
          (fun r => decide (¬ (vaddr ≤ r.vbase ∧ r.vbase < (vaddr + memsize) % WORD))) rest := by
        rw [List.filter_cons_of_neg]
        simpa using hc
      rw [hf]
      cases hp : load_page as cur.vbase with
      | none => exact absurd hp (hl cur (List.mem_cons_self _ _) hc)
      | some pe =>
        obtain ⟨ptr, page⟩ := pe
        have hc2 : cur.vbase ≥ vaddr ∧ cur.vbase < (vaddr + memsize) % WORD := hc
        by_cases hf2 : page.paddr ≠ USERSPACETOP
        · obtain ⟨m1, h1⟩ := ih (decrement_ref_count m (page.paddr &&& TLBLO_PPAGE)) hrest
          refine ⟨m1, ?_⟩
          rw [← h1]
          simp only [as_remove_region_loop, hc2, hp, hf2, if_true, and_self, ne_eq,
            not_false_eq_true]
        · obtain ⟨m1, h1⟩ := ih m hrest
          refine ⟨m1, ?_⟩
          rw [← h1]
          simp only [as_remove_region_loop, hc2, hp, hf2, if_true, if_false, and_self]
    · have hf : List.filter
          (fun r => decide (¬ (vaddr ≤ r.vbase ∧ r.vbase < (vaddr + memsize) % WORD)))
          (cur :: rest)
          = cur :: List.filter
          (fun r => decide (¬ (vaddr ≤ r.vbase ∧ r.vbase < (vaddr + memsize) % WORD))) rest := by
        rw [List.filter_cons_of_pos]
        exact decide_eq_true hc
      rw [hf]
      have hc2 : ¬ (cur.vbase ≥ vaddr ∧ cur.vbase < (vaddr + memsize) % WORD) := hc
      obtain ⟨m1, h1⟩ := ih m hrest
      refine ⟨m1, ?_⟩
      simp only [as_remove_region_loop, hc2, if_false, h1]

theorem as_remove_region_loop_none (as : addrspace) (vaddr memsize : Nat) (l : List region) :
    ∀ m : machine, (vaddr + memsize) % WORD ≤ vaddr →
    as_remove_region_loop as vaddr memsize l m = some (m, l) := by
  induction l with
  | nil =>
    intro m _
    rfl
  | cons cur rest ih =>
    intro m hw
    have hc2 : ¬ (cur.vbase ≥ vaddr ∧ cur.vbase < (vaddr + memsize) % WORD) := by
      intro h
      omega
    simp only [as_remove_region_loop, hc2, if_false, ih m hw]

/-- C15: the region list after `as_remove_region(as, v, s)` is the original
list without the nodes whose `vbase` satisfies `v <= vbase < (v + s) mod 2^32`,
the other nodes in their original order (the call returns whenever the page of
every matching node can be dereferenced); and when `(v + s) mod 2^32 <= v` no
node matches and the call returns with the machine (frame table included) and
the address space (region list and page table) unchanged. -/
theorem as_remove_region_unlinks (m : machine) (as : addrspace) (vaddr memsize : Nat) :
    ((∀ r ∈ as.as_region, vaddr ≤ r.vbase ∧ r.vbase < (vaddr + memsize) % WORD →
        load_page as r.vbase ≠ none) →
      ∃ m1, as_remove_region m as vaddr memsize
        = some (m1, { as with
            as_region := as.as_region.filter
              (fun r => decide (¬ (vaddr ≤ r.vbase ∧ r.vbase < (vaddr + memsize) % WORD))) })) ∧
    ((vaddr + memsize) % WORD ≤ vaddr → as_remove_region m as vaddr memsize = some (m, as)) := by
  refine ⟨?_, ?_⟩
  · intro hl
    obtain ⟨m1, h1⟩ := as_remove_region_loop_filter as vaddr memsize as.as_region m hl
    refine ⟨m1, ?_⟩
    unfold as_remove_region
    rw [h1]
  · intro hw
    unfold as_remove_region
    rw [as_remove_region_loop_none as vaddr memsize as.as_region m hw]

theorem as_remove_region_unlinks_witness :
    heap_written_as.as_region
      = [{ vbase := 0x500000, old_flags := 7 }, { vbase := 0x4ff000, old_flags := 6 }] ∧
    (∃ m1, as_remove_region heap_written_machine heap_written_as 0x500000 0x1000
      = some (m1, { heap_written_as with
          as_region := heap_written_as.as_region.filter
            (fun r => decide (¬ (0x500000 ≤ r.vbase ∧ r.vbase < (0x500000 + 0x1000) % WORD))) })) ∧
    heap_removed_as.as_region = [{ vbase := 0x4ff000, old_flags := 6 }] ∧
    (0x500000 + 0xfffff000) % WORD ≤ 0x500000 ∧
    as_remove_region heap_written_machine heap_written_as 0x500000 0xfffff000
      = some (heap_written_machine, heap_written_as) :=
  ⟨by decide,
    (as_remove_region_unlinks heap_written_machine heap_written_as 0x500000 0x1000).1
      (by decide),
    by decide, by decide,
    (as_remove_region_unlinks heap_written_machine heap_written_as 0x500000 0xfffff000).2
      (by decide)⟩

theorem write_page_set_heap (hs he : Nat) (as : addrspace) (p : Nat × Nat)
    (e : secondary_page_entry) :
    write_page (set_heap hs he as) p e = set_heap hs he (write_page as p e) := by
  unfold write_page set_heap
  simp only
  cases (as.page_table p.1).target <;> rfl

theorem add_single_vaddr_page_set_heap (hs he : Nat) (m : machine) (as : addrspace) (a : Nat)
    (f : Int) :
    add_single_vaddr_page m (set_heap hs he as) a f
      = (add_single_vaddr_page m as a f).map (fun r => (r.1, set_heap hs he r.2)) := by
  cases h : add_single_vaddr_page m as a f with
  | none =>
    cases h1 : add_single_vaddr_page m (set_heap hs he as) a f with
    | none => rfl
    | some p =>
      exfalso
      obtain ⟨m1, as1⟩ := p
      obtain ⟨hp, hc⟩ := add_single_vaddr_page_inv _ _ _ _ _ _ h1
      rcases hc with ⟨t, ht, hv, _, _⟩ | ⟨ht, hk, _, _⟩
      · rw [add_single_vaddr_page_existing m as a f t hp ht hv] at h
        exact absurd h (by simp)
      · rw [add_single_vaddr_page_new m as a f hp ht hk] at h
        exact absurd h (by simp)
  | some p =>
    obtain ⟨m1, as1⟩ := p
    obtain ⟨hp, hc⟩ := add_single_vaddr_page_inv _ _ _ _ _ _ h
    rcases hc with ⟨t, ht, hv, hm, ha⟩ | ⟨ht, hk, hm, ha⟩
    · rw [add_single_vaddr_page_existing m (set_heap hs he as) a f t hp ht hv]
      subst hm; subst ha
      rw [write_page_set_heap]
      rfl
    · rw [add_single_vaddr_page_new m (set_heap hs he as) a f hp ht hk]
      subst hm; subst ha
      have hi : install_table (set_heap hs he as) (page_ptr a).1
          = set_heap hs he (install_table as (page_ptr a).1) := rfl
      rw [hi, write_page_set_heap]
      rfl

theorem define_pages_set_heap (hs he : Nat) (flags : Int) (vaddr : Nat) (n : Nat) :
    ∀ (i : Nat) (m : machine) (as : addrspace),
    define_pages flags vaddr n i m (set_heap hs he as)
      = (define_pages flags vaddr n i m as).map (fun r => (r.1, r.2.1, set_heap hs he r.2.2)) := by
  induction n with
  | zero =>
    intro i m as
    rfl
  | succ n ih =>
    intro i m as
    unfold define_pages
    rw [add_single_vaddr_page_set_heap]
    cases add_single_vaddr_page m as ((vaddr + i) % WORD) flags with
    | none => rfl
    | some p =>
      obtain ⟨m1, as1⟩ := p
      simp only [Option.map_some']
      cases hk : kmalloc m1 with
      | mk b m2 =>
        cases b with
        | false => rfl
        | true =>
          simp only
          exact ih ((i + PAGE_SIZE) % WORD) m2
            { as1 with
              as_region := ({ vbase := (vaddr + i) % WORD, old_flags := flags }) :: as1.as_region }

theorem as_define_region_noheap_eq (m : machine) (as : addrspace) (vaddr memsize : Nat)
    (rd wr ex : Int) :
    as_define_region_noheap m as vaddr memsize rd wr ex
      = define_pages (Int.lor (Int.lor rd wr) ex) (aligned_base vaddr)
          (aligned_size vaddr memsize / PAGE_SIZE) 0 m as := rfl

theorem as_define_region_eq (m : machine) (as : addrspace) (vaddr memsize : Nat)
    (rd wr ex : Int) :
    as_define_region m as vaddr memsize rd wr ex
      = define_pages (Int.lor (Int.lor rd wr) ex) (aligned_base vaddr)
          (aligned_size vaddr memsize / PAGE_SIZE) 0 m
          (if wr ≠ 0 then
            set_heap ((aligned_base vaddr + aligned_size vaddr memsize) % WORD)
              ((aligned_base vaddr + aligned_size vaddr memsize) % WORD) as
          else as) := by
  have h : (vaddr &&& PAGE_FRAME) &&& PAGE_FRAME = vaddr &&& PAGE_FRAME := by
    rw [Nat.and_assoc, Nat.and_self]
  unfold as_define_region aligned_base aligned_size set_heap
  simp only [h]

/-- C17: on identical inputs `as_define_region` yields what
`as_define_region_noheap` yields (the same return value, machine, page table
and region list, and no result when the other has none), except that when
`writeable` is non-zero `heap_start` and `heap_end` both hold the aligned
`vaddr` plus the aligned size (a 32-bit sum); when `writeable` is zero the two
results are equal, and `as_define_region_noheap` never changes `heap_start` or
`heap_end`. -/
theorem as_define_region_vs_noheap (m : machine) (as : addrspace) (vaddr memsize : Nat)
    (rd wr ex : Int) :
    as_define_region m as vaddr memsize rd wr ex
      = (as_define_region_noheap m as vaddr memsize rd wr ex).map
          (fun r => (r.1, r.2.1,
            if wr ≠ 0 then
              { r.2.2 with
                as_heap_start := (aligned_base vaddr + aligned_size vaddr memsize) % WORD,
                as_heap_end := (aligned_base vaddr + aligned_size vaddr memsize) % WORD }
            else r.2.2)) ∧
    ∀ r m1 as1, as_define_region_noheap m as vaddr memsize rd wr ex = some (r, m1, as1) →
      as1.as_heap_start = as.as_heap_start ∧ as1.as_heap_end = as.as_heap_end := by
  refine ⟨?_, fun r m1 as1 h => as_define_region_noheap_heap _ _ _ _ _ _ _ _ _ _ h⟩
  rw [as_define_region_eq, as_define_region_noheap_eq]
  by_cases hw : wr ≠ 0
  · rw [if_pos hw, define_pages_set_heap]
    simp only [if_pos hw]
    rfl
  · rw [if_neg hw]
    simp only [if_neg hw]
    cases define_pages (Int.lor (Int.lor rd wr) ex) (aligned_base vaddr)
        (aligned_size vaddr memsize / PAGE_SIZE) 0 m as <;> rfl

theorem as_define_region_vs_noheap_witness :
    as_define_region boot_machine fresh_as 0x4ff000 0x1000 PF_R PF_W 0
      = some (0, boot_machine, heap_as) ∧
    as_define_region_noheap boot_machine fresh_as 0x4ff000 0x1000 PF_R PF_W 0
      = some (0, boot_machine, { heap_as with as_heap_start := 0, as_heap_end := 0 }) ∧
    heap_as.as_heap_start = 0x500000 ∧ heap_as.as_heap_end = 0x500000 ∧
    (aligned_base 0x4ff000 + aligned_size 0x4ff000 0x1000) % WORD = 0x500000 ∧
    ({ heap_as with as_heap_start := 0, as_heap_end := 0 } : addrspace).as_heap_start
      = fresh_as.as_heap_start ∧
    ({ heap_as with as_heap_start := 0, as_heap_end := 0 } : addrspace).as_heap_end
      = fresh_as.as_heap_end :=
  ⟨rfl, rfl, by decide, by decide, by decide,
    ((as_define_region_vs_noheap boot_machine fresh_as 0x4ff000 0x1000 PF_R PF_W 0).2 0
      boot_machine ({ heap_as with as_heap_start := 0, as_heap_end := 0 }) rfl).1,
    ((as_define_region_vs_noheap boot_machine fresh_as 0x4ff000 0x1000 PF_R PF_W 0).2 0
      boot_machine ({ heap_as with as_heap_start := 0, as_heap_end := 0 }) rfl).2⟩

/-! ## Loading a segment: `as_prepare_load` and `as_complete_load` -/

theorem load_page_write_page_other (as : addrspace) (p : Nat × Nat) (e1 : secondary_page_entry)
    (v : Nat) (h : page_ptr v ≠ p) : load_page (write_page as p e1) v = load_page as v := by
  unfold load_page
  rw [get_page_write_page]
  cases hg : get_page as v with
  | none => rfl
  | some o =>
    cases o with
    | none => rfl
    | some q =>
      have hq := get_page_ptr _ _ _ hg
      subst hq
      simp only
      rw [page_at_write_page_other _ _ _ _ h]

theorem load_page_write_page_fst (as : addrspace) (p : Nat × Nat) (e e1 : secondary_page_entry)
    (hp : page_at as p = some e) (v : Nat) :
    (load_page (write_page as p e1) v).map (fun x => x.1) = (load_page as v).map (fun x => x.1) := by
  by_cases h : page_ptr v = p
  · unfold load_page
    rw [get_page_write_page]
    cases hg : get_page as v with
    | none => rfl
    | some o =>
      cases o with
      | none => rfl
      | some q =>
        have hq := get_page_ptr _ _ _ hg
        subst hq
        subst h
        simp only
        rw [page_at_write_page_same _ _ _ _ hp, hp]
        rfl
  · rw [load_page_write_page_other _ _ _ _ h]

theorem load_page_ne_none_of_fst (as as1 : addrspace) (v : Nat)
    (h : (load_page as1 v).map (fun x => x.1) = (load_page as v).map (fun x => x.1))
    (hn : load_page as v ≠ none) : load_page as1 v ≠ none := by
  intro h1
  rw [h1] at h
  cases h2 : load_page as v with
  | none => exact hn h2
  | some x =>
    rw [h2] at h
    exact absurd h (by simp)

theorem as_prepare_load_loop_spec (l : List region) :
    ∀ (m : machine) (as : addrspace),
    (l.map (fun r => page_ptr r.vbase)).Nodup →
    (∀ r ∈ l, load_page as r.vbase ≠ none) →
    ∃ m1 as1, as_prepare_load_loop l m as = some (m1, as1, l.map (save_flags as)) ∧
      (∀ v, (load_page as1 v).map (fun x => x.1) = (load_page as v).map (fun x => x.1)) ∧
      (∀ q, q ∉ l.map (fun r => page_ptr r.vbase) → page_at as1 q = page_at as q) := by
  induction l with
  | nil =>
    intro m as _ _
    exact ⟨m, as, rfl, fun _ => rfl, fun _ _ => rfl⟩
  | cons r rest ih =>
    intro m as hnd hl
    rw [List.map_cons, List.nodup_cons] at hnd
    obtain ⟨hnot, hnd1⟩ := hnd
    cases hp : load_page as r.vbase with
    | none => exact absurd hp (hl r (List.mem_cons_self _ _))
    | some pe =>
      obtain ⟨ptr, page⟩ := pe
      have hptr := load_page_ptr _ _ _ _ hp
      obtain ⟨_, hpa⟩ := load_page_elim _ _ _ _ hp
      have hsave : save_flags as r = { r with old_flags := page.flags } := by
        unfold save_flags
        rw [hp]
      -- any entry written at `ptr` leaves the rest of the walk as it was
      have key : ∀ (m0 : machine) (e1 : secondary_page_entry),
          ∃ m1 as1, as_prepare_load_loop rest m0 (write_page as ptr e1)
              = some (m1, as1, rest.map (save_flags as)) ∧
            (∀ v, (load_page as1 v).map (fun x => x.1) = (load_page as v).map (fun x => x.1)) ∧
            (∀ q, q ∉ (r :: rest).map (fun r => page_ptr r.vbase) →
              page_at as1 q = page_at as q) := by
        intro m0 e1
        have hl1 : ∀ r1 ∈ rest, load_page (write_page as ptr e1) r1.vbase ≠ none := by
          intro r1 hr1
          exact load_page_ne_none_of_fst _ _ _ (load_page_write_page_fst _ _ _ _ hpa _)
            (hl r1 (List.mem_cons_of_mem _ hr1))
        obtain ⟨m1, as1, h1, h2, h3⟩ := ih m0 (write_page as ptr e1) hnd1 hl1
        have hmap : rest.map (save_flags (write_page as ptr e1)) = rest.map (save_flags as) := by
          apply List.map_congr_left
          intro r1 hr1
          have hne : page_ptr r1.vbase ≠ ptr := by
            intro heq
            apply hnot
            rw [← hptr, ← heq]
            exact List.mem_map.mpr ⟨r1, hr1, rfl⟩
          unfold save_flags
          rw [load_page_write_page_other _ _ _ _ hne]
        rw [hmap] at h1
        refine ⟨m1, as1, h1, ?_, ?_⟩
        · intro v
          rw [h2 v, load_page_write_page_fst _ _ _ _ hpa]
        · intro q hq
          rw [List.map_cons, List.mem_cons, not_or] at hq
          rw [h3 q hq.2]
          exact page_at_write_page_other _ _ _ _ (by rw [hptr]; exact hq.1)
      rw [List.map_cons, hsave]
      by_cases hc : page.paddr ≠ USERSPACETOP ∧ page.paddr &&& TLBLO_DIRTY = 0
      · obtain ⟨m1, as1, h1, h2, h3⟩ := key (tlb_remove_entry m page.vaddr)
          { page with flags := Int.lor page.flags PF_W, paddr := page.paddr ||| TLBLO_DIRTY }
        refine ⟨m1, as1, ?_, h2, h3⟩
        simp only [as_prepare_load_loop, hp, hc, and_self, if_true, h1, ne_eq, not_false_eq_true]
      · obtain ⟨m1, as1, h1, h2, h3⟩ := key m { page with flags := Int.lor page.flags PF_W }
        refine ⟨m1, as1, ?_, h2, h3⟩
        simp only [as_prepare_load_loop, hp, hc, if_false, h1]


theorem as_complete_load_loop_spec (l : List region) :
    ∀ (m : machine) (as : addrspace),
    (l.map (fun r => page_ptr r.vbase)).Nodup →
    (∀ r ∈ l, load_page as r.vbase ≠ none) →
    ∃ as2, as_complete_load_loop l m as = some (m, as2) ∧
      (∀ q, q ∉ l.map (fun r => page_ptr r.vbase) → page_at as2 q = page_at as q) ∧
      (∀ r ∈ l, ∃ e, page_at as2 (page_ptr r.vbase) = some e ∧ e.flags = r.old_flags) := by
  induction l with
  | nil =>
    intro m as _ _
    exact ⟨as, rfl, fun _ _ => rfl, fun _ hr => absurd hr (List.not_mem_nil _)⟩
  | cons r rest ih =>
    intro m as hnd hl
    rw [List.map_cons, List.nodup_cons] at hnd
    obtain ⟨hnot, hnd1⟩ := hnd
    cases hp : load_page as r.vbase with
    | none => exact absurd hp (hl r (List.mem_cons_self _ _))
    | some pe =>
      obtain ⟨ptr, page⟩ := pe
      have hptr := load_page_ptr _ _ _ _ hp
      obtain ⟨_, hpa⟩ := load_page_elim _ _ _ _ hp
      have hc : ¬ (page.paddr ≠ USERSPACETOP ∧ Int.land r.old_flags PF_W = 0 ∧
          page.paddr &&& TLBLO_DIRTY = 1) := fun hh => and_dirty_ne_one _ hh.2.2
      have hl1 : ∀ r1 ∈ rest,
          load_page (write_page as ptr { page with flags := r.old_flags }) r1.vbase ≠ none := by
        intro r1 hr1
        exact load_page_ne_none_of_fst _ _ _ (load_page_write_page_fst _ _ _ _ hpa _)
          (hl r1 (List.mem_cons_of_mem _ hr1))
      obtain ⟨as2, h1, h2, h3⟩ :=
        ih m (write_page as ptr { page with flags := r.old_flags }) hnd1 hl1
      refine ⟨as2, ?_, ?_, ?_⟩
      · simp only [as_complete_load_loop, hp, hc, if_false, h1]
      · intro q hq
        rw [List.map_cons, List.mem_cons, not_or] at hq
        rw [h2 q hq.2]
        exact page_at_write_page_other _ _ _ _ (by rw [hptr]; exact hq.1)
      · intro r1 hr1
        rw [List.mem_cons] at hr1
        rcases hr1 with heq | hin
        · subst heq
          rw [h2 _ hnot, ← hptr, page_at_write_page_same _ _ _ _ hpa]
          exact ⟨_, rfl, rfl⟩
        · exact h3 r1 hin

theorem save_flags_vbase (as : addrspace) (r : region) : (save_flags as r).vbase = r.vbase := by
  unfold save_flags
  cases load_page as r.vbase <;> rfl

/-- C18: for every address space whose region list names pairwise distinct
pages, each with an entry in the page table, `as_prepare_load` returns 0, the
`as_complete_load` that follows returns 0, and afterwards every page entry,
in the region list or not, has the flags it had before `as_prepare_load`. -/
theorem prepare_complete_load_flags (m : machine) (as : addrspace)
    (hnd : (as.as_region.map (fun r => page_ptr r.vbase)).Nodup)
    (hl : ∀ r ∈ as.as_region, load_page as r.vbase ≠ none) :
    ∃ m1 as1 m2 as2, as_prepare_load m as = some (0, m1, as1) ∧
      as_complete_load m1 as1 = some (0, m2, as2) ∧
      ∀ q, (page_at as2 q).map (fun e => e.flags) = (page_at as q).map (fun e => e.flags) := by
  obtain ⟨m1, as1, h1, h2, h3⟩ := as_prepare_load_loop_spec as.as_region m as hnd hl
  have hptrs : (as.as_region.map (save_flags as)).map (fun r => page_ptr r.vbase)
      = as.as_region.map (fun r => page_ptr r.vbase) := by
    rw [List.map_map]
    apply List.map_congr_left
    intro r _
    simp only [Function.comp, save_flags_vbase]
  have hnd2 : ((as.as_region.map (save_flags as)).map (fun r => page_ptr r.vbase)).Nodup := by
    rw [hptrs]
    exact hnd
  have hlp : ∀ v, load_page { as1 with as_region := as.as_region.map (save_flags as) } v
      = load_page as1 v := fun _ => rfl
  have hpp : ∀ q, page_at { as1 with as_region := as.as_region.map (save_flags as) } q
      = page_at as1 q := fun _ => rfl
  have hl2 : ∀ r ∈ as.as_region.map (save_flags as),
      load_page { as1 with as_region := as.as_region.map (save_flags as) } r.vbase ≠ none := by
    intro r hr
    obtain ⟨r0, hr0, heq⟩ := List.mem_map.mp hr
    rw [hlp, ← heq, save_flags_vbase]
    exact load_page_ne_none_of_fst _ _ _ (h2 _) (hl r0 hr0)
  obtain ⟨as2, h4, h5, h6⟩ :=
    as_complete_load_loop_spec (as.as_region.map (save_flags as)) m1
      { as1 with as_region := as.as_region.map (save_flags as) } hnd2 hl2
  refine ⟨m1, { as1 with as_region := as.as_region.map (save_flags as) }, m1, as2, ?_, ?_, ?_⟩
  · unfold as_prepare_load
    rw [h1]
  · unfold as_complete_load
    simp only [h4]
  · intro q
    by_cases hq : q ∈ as.as_region.map (fun r => page_ptr r.vbase)
    · obtain ⟨r0, hr0, heq⟩ := List.mem_map.mp hq
      obtain ⟨e, he1, he2⟩ := h6 (save_flags as r0) (List.mem_map.mpr ⟨r0, hr0, rfl⟩)
      rw [save_flags_vbase, heq] at he1
      cases hp : load_page as r0.vbase with
      | none => exact absurd hp (hl r0 hr0)
      | some pe =>
        obtain ⟨ptr, page⟩ := pe
        have hptr := load_page_ptr _ _ _ _ hp
        obtain ⟨_, hpa⟩ := load_page_elim _ _ _ _ hp
        rw [hptr, heq] at hpa
        have hs : (save_flags as r0).old_flags = page.flags := by
          unfold save_flags
          rw [hp]
        rw [he1, hpa, Option.map_some', Option.map_some', he2, hs]
    · rw [h5 q (by rw [hptrs]; exact hq), hpp, h3 q hq]

theorem prepare_complete_load_flags_witness :
    text_read_as.as_region = [{ vbase := 0x400000, old_flags := 5 }] ∧
    ∃ m1 as1 m2 as2, as_prepare_load text_read_machine text_read_as = some (0, m1, as1) ∧
      as_complete_load m1 as1 = some (0, m2, as2) ∧
      ∀ q, (page_at as2 q).map (fun e => e.flags)
        = (page_at text_read_as q).map (fun e => e.flags) :=
  ⟨by decide,
    prepare_complete_load_flags text_read_machine text_read_as (by decide) (by decide)⟩

/-! ## Defining regions -/

theorem pt_wf_write_page (as : addrspace) (p : Nat × Nat) (e e1 : secondary_page_entry)
    (hwf : pt_wf as) (hp : page_at as p = some e) (hv : e1.vaddr = e.vaddr) :
    pt_wf (write_page as p e1) := by
  unfold page_at at hp
  cases ht : (as.page_table p.1).target with
  | none =>
    rw [ht] at hp
    exact absurd hp (by simp)
  | some t =>
    rw [ht] at hp
    simp only [Option.some.injEq] at hp
    intro i hi
    unfold write_page
    simp only [ht]
    by_cases hip : i = p.1
    · subst hip
      simp only [Function.update_same]
      refine ⟨(hwf _ hi).1, ?_⟩
      intro t1 ht1 j hj
      simp only [Option.some.injEq] at ht1
      subst ht1
      by_cases hjp : j = p.2
      · rw [hjp, Function.update_same, hv, ← hp]
        exact (hwf _ hi).2 t ht p.2 (hjp ▸ hj)
      · simp only [Function.update_noteq hjp]
        exact (hwf _ hi).2 t ht j hj
    · simp only [Function.update_noteq hip]
      exact hwf i hi

theorem blank_entry_index (pfx j : Nat) (hp : pfx < NUM_ROOT_ENTRIES)
    (hj : j < NUM_SECONDARY_ENTRIES) : (blank_entry pfx j).vaddr = pfx * 1024 + j := by
  have hp1 : pfx < 1024 := hp
  have hj1 : j < 2 ^ 10 := hj
  have h5 : (pfx <<< 10) ||| j = 2 ^ 10 * pfx + j := by
    rw [Nat.shiftLeft_eq, Nat.mul_comm]
    exact (Nat.mul_add_lt_is_or hj1 pfx).symm
  unfold blank_entry
  simp only
  rw [h5, Nat.mod_eq_of_lt]
  · omega
  · unfold WORD
    omega

theorem pt_wf_install_table (as : addrspace) (pfx : Nat) (hwf : pt_wf as)
    (hpfx : pfx < NUM_ROOT_ENTRIES) : pt_wf (install_table as pfx) := by
  intro i hi
  unfold install_table
  simp only
  by_cases hip : i = pfx
  · subst hip
    simp only [Function.update_same]
    refine ⟨(hwf _ hi).1, ?_⟩
    intro t1 ht1 j hj
    simp only [Option.some.injEq] at ht1
    subst ht1
    exact blank_entry_index _ _ hi hj
  · simp only [Function.update_noteq hip]
    exact hwf i hi

theorem kmalloc_all_true (m : machine) (hk : ∀ b ∈ m.kheap, b = true) :
    (kmalloc m).1 = true ∧ ∀ b ∈ (kmalloc m).2.kheap, b = true := by
  cases hh : m.kheap with
  | nil =>
    have h1 : kmalloc m = (true, m) := by
      unfold kmalloc
      rw [hh]
    rw [h1]
    exact ⟨rfl, hk⟩
  | cons b rest =>
    have h1 : kmalloc m = (b, { m with kheap := rest }) := by
      unfold kmalloc
      rw [hh]
    rw [h1]
    rw [hh] at hk
    exact ⟨hk b (List.mem_cons_self _ _), fun c hc => hk c (List.mem_cons_of_mem _ hc)⟩

theorem add_single_vaddr_page_total (m : machine) (as : addrspace) (a : Nat) (f : Int)
    (hwf : pt_wf as) (hk : ∀ b ∈ m.kheap, b = true) :
    ∃ m1 as1, add_single_vaddr_page m as a f = some (m1, as1) ∧ pt_wf as1 ∧
      ∀ b ∈ m1.kheap, b = true := by
  obtain ⟨b1, b2, b3⟩ := page_ptr_bounds a
  have hp1 : (page_ptr a).1 < NUM_ROOT_ENTRIES := b1
  have hp2 : (page_ptr a).2 < NUM_SECONDARY_ENTRIES := b2
  obtain ⟨hpfx, hsec⟩ := hwf _ hp1
  cases ht : (as.page_table (page_ptr a).1).target with
  | some t =>
    have hv : (t (page_ptr a).2).vaddr = a % WORD / PAGE_SIZE := by
      rw [hsec t ht _ hp2, b3]
    refine ⟨m, _, add_single_vaddr_page_existing m as a f t hpfx ht hv, ?_, hk⟩
    exact pt_wf_write_page _ _ _ _ hwf (page_at_of_target _ _ _ ht) rfl
  | none =>
    obtain ⟨k1, k2⟩ := kmalloc_all_true m hk
    refine ⟨_, _, add_single_vaddr_page_new m as a f hpfx ht k1, ?_, k2⟩
    have hwf1 := pt_wf_install_table as _ hwf hp1
    have hpa : page_at (install_table as (page_ptr a).1) (page_ptr a)
        = some (blank_entry (page_ptr a).1 (page_ptr a).2) := by
      rw [page_at_install_table, if_pos rfl]
    exact pt_wf_write_page _ _ _ _ hwf1 hpa rfl

theorem add_single_vaddr_page_view (m m1 : machine) (as as1 : addrspace) (a : Nat) (f : Int)
    (h : add_single_vaddr_page m as a f = some (m1, as1)) :
    page_at as1 (page_ptr a) ≠ none ∧
    entry_view as1 (page_ptr a) = { entry_view as (page_ptr a) with flags := f } ∧
    (∀ q, q ≠ page_ptr a → entry_view as1 q = entry_view as q) ∧
    (∀ q, page_at as q ≠ none → page_at as1 q ≠ none) := by
  have hself := add_single_vaddr_page_self _ _ _ _ _ _ h
  have hex : page_at as1 (page_ptr a) ≠ none := by
    rcases hself with ⟨e, _, h2⟩ | ⟨_, h2⟩ <;> rw [h2] <;> simp
  refine ⟨hex, ?_, ?_, ?_⟩
  · unfold entry_view
    rcases hself with ⟨e, h1, h2⟩ | ⟨h1, h2⟩ <;> rw [h1, h2]
  · intro q hq
    unfold entry_view
    rcases add_single_vaddr_page_other _ _ _ _ _ _ h q hq with h1 | ⟨h1, h2⟩
    · rw [h1]
    · rw [h1, h2]
  · intro q hq
    by_cases hqa : q = page_ptr a
    · rw [hqa]
      exact hex
    · cases he : page_at as q with
      | none => exact absurd he hq
      | some e =>
        rw [add_single_vaddr_page_keeps _ _ _ _ _ _ h q hqa e he]
        simp

theorem page_ptr_apart (a b : Nat) (hb : b < WORD) (h : a + PAGE_SIZE ≤ b) :
    page_ptr a ≠ page_ptr b := by
  intro heq
  rw [page_ptr_eq_iff] at heq
  unfold WORD PAGE_SIZE at *
  omega

theorem range_reverse_map_succ (n : Nat) (g : Nat → region) :
    (List.range (n + 1)).reverse.map g
      = (List.range n).reverse.map (fun k => g (k + 1)) ++ [g 0] := by
  rw [List.range_succ_eq_map, List.reverse_cons, List.map_append, List.map_reverse,
    List.map_reverse, List.map_map]
  rfl

theorem define_pages_spec (flags : Int) (vaddr : Nat) (n : Nat) :
    ∀ (i : Nat) (m : machine) (as : addrspace),
    pt_wf as → (∀ b ∈ m.kheap, b = true) →
    (n ≠ 0 → vaddr + i + n * PAGE_SIZE ≤ WORD) →
    ∃ m1 as1, define_pages flags vaddr n i m as = some (0, m1, as1) ∧
      as1.as_region = (List.range n).reverse.map
        (fun k => ({ vbase := vaddr + i + k * PAGE_SIZE, old_flags := flags } : region))
        ++ as.as_region ∧
      (∀ k, k < n → page_at as1 (page_ptr (vaddr + i + k * PAGE_SIZE)) ≠ none ∧
        entry_view as1 (page_ptr (vaddr + i + k * PAGE_SIZE))
          = { entry_view as (page_ptr (vaddr + i + k * PAGE_SIZE)) with flags := flags }) ∧
      (∀ q, (∀ k, k < n → q ≠ page_ptr (vaddr + i + k * PAGE_SIZE)) →
        entry_view as1 q = entry_view as q) ∧
      (∀ q, page_at as q ≠ none → page_at as1 q ≠ none) ∧
      m1.frame_table = m.frame_table ∧ m1.ram = m.ram ∧ m1.tlb = m.tlb ∧
      m1.released = m.released := by
  induction n with
  | zero =>
    intro i m as _ _ _
    refine ⟨m, as, rfl, rfl, ?_, fun _ _ => rfl, fun _ h => h, rfl, rfl, rfl, rfl⟩
    intro k hk
    exact absurd hk (Nat.not_lt_zero k)
  | succ n ih =>
    intro i m as hwf hk hb
    have hb1 : vaddr + i + (n + 1) * PAGE_SIZE ≤ WORD := hb (Nat.succ_ne_zero n)
    have ha0 : (vaddr + i) % WORD = vaddr + i :=
      Nat.mod_eq_of_lt (by unfold WORD PAGE_SIZE at *; omega)
    have hmod : n ≠ 0 → (i + PAGE_SIZE) % WORD = i + PAGE_SIZE := by
      intro hn
      apply Nat.mod_eq_of_lt
      have : 1 ≤ n := Nat.pos_of_ne_zero hn
      unfold WORD PAGE_SIZE at *
      nlinarith
    obtain ⟨m1, as1, h1, hwf1, hk1⟩ := add_single_vaddr_page_total m as (vaddr + i) flags hwf hk
    obtain ⟨k1, k2⟩ := kmalloc_all_true m1 hk1
    obtain ⟨hm1, hm2, hm3, hm4⟩ := add_single_vaddr_page_machine _ _ _ _ _ _ h1
    obtain ⟨hr1, _, _⟩ := add_single_vaddr_page_fields _ _ _ _ _ _ h1
    obtain ⟨v1, v2, v3, v4⟩ := add_single_vaddr_page_view _ _ _ _ _ _ h1
    obtain ⟨f1, f2, f3, f4⟩ := kmalloc_fields m1
    have hwf2 : pt_wf { as1 with
        as_region := ({ vbase := vaddr + i, old_flags := flags }) :: as1.as_region } := hwf1
    have hbn : n ≠ 0 → vaddr + (i + PAGE_SIZE) % WORD + n * PAGE_SIZE ≤ WORD := by
      intro hn
      rw [hmod hn]
      unfold WORD PAGE_SIZE at *
      omega
    obtain ⟨m2, as2, g1, g2, g3, g4, g5, g6, g7, g8, g9⟩ :=
      ih ((i + PAGE_SIZE) % WORD) (kmalloc m1).2 _ hwf2 k2 hbn
    have hidx : ∀ k, k < n →
        vaddr + (i + PAGE_SIZE) % WORD + k * PAGE_SIZE = vaddr + i + (k + 1) * PAGE_SIZE := by
      intro k hk
      rw [hmod (by omega)]
      unfold PAGE_SIZE
      omega
    have hlt : ∀ k, k < n + 1 → vaddr + i + k * PAGE_SIZE < WORD := by
      intro k hk
      have : k * PAGE_SIZE + PAGE_SIZE ≤ (n + 1) * PAGE_SIZE := by
        have : k + 1 ≤ n + 1 := hk
        nlinarith
      unfold WORD PAGE_SIZE at *
      omega
    have hne : ∀ k, k < n →
        page_ptr (vaddr + i) ≠ page_ptr (vaddr + (i + PAGE_SIZE) % WORD + k * PAGE_SIZE) := by
      intro k hk
      rw [hidx k hk]
      apply page_ptr_apart
      · exact hlt (k + 1) (by omega)
      · unfold PAGE_SIZE
        omega
    refine ⟨m2, as2, ?_, ?_, ?_, ?_, ?_, ?_, ?_, ?_, ?_⟩
    · cases hkm : kmalloc m1 with
      | mk b m3 =>
        rw [hkm] at k1 g1
        simp only at k1 g1
        subst k1
        simp only [define_pages, ha0, h1, hkm]
        exact g1
    · have hl : (List.range n).reverse.map
            (fun k => ({ vbase := vaddr + (i + PAGE_SIZE) % WORD + k * PAGE_SIZE,
                         old_flags := flags } : region))
          = (List.range n).reverse.map
            (fun k => ({ vbase := vaddr + i + (k + 1) * PAGE_SIZE,
                         old_flags := flags } : region)) := by
        apply List.map_congr_left
        intro k hk
        rw [List.mem_reverse, List.mem_range] at hk
        rw [hidx k hk]
      rw [g2, hl, range_reverse_map_succ, List.append_assoc]
      simp only [List.singleton_append, hr1, Nat.zero_mul, Nat.add_zero]
    · intro k hk
      cases k with
      | zero =>
        simp only [Nat.zero_mul, Nat.add_zero]
        refine ⟨g5 _ v1, ?_⟩
        rw [g4 _ hne]
        exact v2
      | succ k =>
        have hk' : k < n := by omega
        obtain ⟨e1, e2⟩ := g3 k hk'
        rw [hidx k hk'] at e1 e2
        refine ⟨e1, ?_⟩
        rw [e2]
        have : entry_view { as1 with
            as_region := ({ vbase := vaddr + i, old_flags := flags }) :: as1.as_region }
            (page_ptr (vaddr + i + (k + 1) * PAGE_SIZE))
            = entry_view as (page_ptr (vaddr + i + (k + 1) * PAGE_SIZE)) := by
          have hx := v3 (page_ptr (vaddr + i + (k + 1) * PAGE_SIZE))
            (by rw [← hidx k hk']; exact (hne k hk').symm)
          exact hx
        rw [this]
    · intro q hq
      have hq0 : q ≠ page_ptr (vaddr + i) := by
        have := hq 0 (by omega)
        simpa using this
      have hqs : ∀ k, k < n → q ≠ page_ptr (vaddr + (i + PAGE_SIZE) % WORD + k * PAGE_SIZE) := by
        intro k hk
        rw [hidx k hk]
        exact hq (k + 1) (by omega)
      rw [g4 q hqs]
      exact v3 q hq0
    · intro q hq
      exact g5 q (v4 q hq)
    · rw [g6, f1, hm1]
    · rw [g7, f2, hm2]
    · rw [g8, f3, hm3]
    · rw [g9, f4, hm4]

theorem aligned_values (vaddr memsize : Nat) (hv : vaddr < WORD)
    (hsize : memsize + vaddr % PAGE_SIZE + (PAGE_SIZE - 1) < WORD) :
    aligned_base vaddr = vaddr / PAGE_SIZE * PAGE_SIZE ∧
    aligned_size vaddr memsize
      = (memsize + vaddr % PAGE_SIZE + (PAGE_SIZE - 1)) / PAGE_SIZE * PAGE_SIZE := by
  have hx : (WORD - 1) ^^^ PAGE_FRAME = 2 ^ 12 - 1 := by decide
  have hoff : vaddr &&& ((WORD - 1) ^^^ PAGE_FRAME) = vaddr % 4096 := by
    rw [hx, Nat.and_pow_two_sub_one_eq_mod]
  unfold aligned_base aligned_size
  rw [hoff]
  unfold WORD PAGE_SIZE PAGE_FRAME at *
  refine ⟨and_frame vaddr hv, ?_⟩
  have h1 : (memsize + vaddr % 4096) % 2 ^ 32 = memsize + vaddr % 4096 :=
    Nat.mod_eq_of_lt (by omega)
  have h2 : (memsize + vaddr % 4096 + 4096 - 1) % 2 ^ 32 = memsize + vaddr % 4096 + (4096 - 1) :=
    Nat.mod_eq_of_lt (by omega)
  rw [h1, h2]
  exact and_frame _ hsize

theorem define_pages_defined (flags : Int) (base n : Nat) (m : machine) (as as0 : addrspace)
    (hwf : pt_wf as) (hk : ∀ b ∈ m.kheap, b = true) (hb : base + n * PAGE_SIZE ≤ WORD)
    (hr : as.as_region = as0.as_region) (hp : as.page_table = as0.page_table) :
    pages_defined m as0 base n flags (define_pages flags base n 0 m as) := by
  obtain ⟨m1, as1, g1, g2, g3, g4, _, g6, g7, _, g9⟩ :=
    define_pages_spec flags base n 0 m as hwf hk (fun _ => hb)
  have hpa : ∀ q, page_at as q = page_at as0 q := by
    intro q
    unfold page_at
    rw [hp]
  have hev : ∀ q, entry_view as q = entry_view as0 q := by
    intro q
    unfold entry_view
    rw [hpa]
  simp only [Nat.add_zero] at g2 g3 g4
  refine ⟨m1, as1, g1, ?_, ?_, ?_, g6, g7, g9⟩
  · rw [g2, hr]
  · intro k hk
    rw [← hev]
    exact g3 k hk
  · intro q hq
    rw [← hev]
    exact g4 q hq

/-- C16 as amended: for every address space whose page table is well formed,
every 32-bit `vaddr` and every size whose page-rounded size (offset of `vaddr`
in its page included) is less than 2^32 and whose page-rounded end does not
exceed 2^32, with every `kmalloc` succeeding, `as_define_region` and
`as_define_region_noheap` each return 0 and push exactly one region node for
every page from `vaddr` rounded down to `vaddr + size` rounded up, in ascending
order in front of the existing nodes, each with
`old_flags = readable | writeable | executable`; each such page's entry gets
these flags with its `paddr` and `copy_on_write` as they were; no other entry
changes; the frame table is unchanged. -/
theorem as_define_region_pages (m : machine) (as : addrspace) (vaddr memsize : Nat)
    (rd wr ex : Int) (hwf : pt_wf as) (hk : ∀ b ∈ m.kheap, b = true) (hv : vaddr < WORD)
    (hsize : memsize + vaddr % PAGE_SIZE + (PAGE_SIZE - 1) < WORD)
    (hend : vaddr / PAGE_SIZE * PAGE_SIZE
      + (memsize + vaddr % PAGE_SIZE + (PAGE_SIZE - 1)) / PAGE_SIZE * PAGE_SIZE ≤ WORD) :
    pages_defined m as (vaddr / PAGE_SIZE * PAGE_SIZE)
      ((memsize + vaddr % PAGE_SIZE + (PAGE_SIZE - 1)) / PAGE_SIZE)
      (Int.lor (Int.lor rd wr) ex) (as_define_region m as vaddr memsize rd wr ex) ∧
    pages_defined m as (vaddr / PAGE_SIZE * PAGE_SIZE)
      ((memsize + vaddr % PAGE_SIZE + (PAGE_SIZE - 1)) / PAGE_SIZE)
      (Int.lor (Int.lor rd wr) ex) (as_define_region_noheap m as vaddr memsize rd wr ex) := by
  obtain ⟨hb, hs⟩ := aligned_values vaddr memsize hv hsize
  have hn : aligned_size vaddr memsize / PAGE_SIZE
      = (memsize + vaddr % PAGE_SIZE + (PAGE_SIZE - 1)) / PAGE_SIZE := by
    rw [hs]
    exact Nat.mul_div_cancel _ (by decide)
  rw [as_define_region_eq, as_define_region_noheap_eq, hn, hb]
  refine ⟨?_, define_pages_defined _ _ _ _ _ _ hwf hk hend rfl rfl⟩
  by_cases hw : wr ≠ 0
  · rw [if_pos hw]
    exact define_pages_defined _ _ _ _ _ _ hwf hk hend rfl rfl
  · rw [if_neg hw]
    exact define_pages_defined _ _ _ _ _ _ hwf hk hend rfl rfl

theorem pt_wf_fresh_as : pt_wf fresh_as := by
  intro i _
  exact ⟨rfl, fun t ht => absurd ht (by simp [fresh_as])⟩

theorem as_define_region_pages_witness :
    two_page_as.as_region
      = [{ vbase := 0x10001000, old_flags := 6 }, { vbase := 0x10000000, old_flags := 6 }] ∧
    (pages_defined boot_machine fresh_as (0x10000000 / PAGE_SIZE * PAGE_SIZE)
      ((0x2000 + 0x10000000 % PAGE_SIZE + (PAGE_SIZE - 1)) / PAGE_SIZE)
      (Int.lor (Int.lor PF_R PF_W) 0)
      (as_define_region boot_machine fresh_as 0x10000000 0x2000 PF_R PF_W 0) ∧
    pages_defined boot_machine fresh_as (0x10000000 / PAGE_SIZE * PAGE_SIZE)
      ((0x2000 + 0x10000000 % PAGE_SIZE + (PAGE_SIZE - 1)) / PAGE_SIZE)
      (Int.lor (Int.lor PF_R PF_W) 0)
      (as_define_region_noheap boot_machine fresh_as 0x10000000 0x2000 PF_R PF_W 0)) :=
  ⟨by decide,
    as_define_region_pages boot_machine fresh_as 0x10000000 0x2000 PF_R PF_W 0 pt_wf_fresh_as
      (by decide) (by decide) (by decide) (by decide)⟩

/-- C16 as stated fails: for `vaddr = 0` and `size = 0xfffff001` the
page-rounded end is 2^32, which does not exceed 2^32, yet the 32-bit rounding
of the size (lines 225 and 266) wraps to 0, the loop runs zero times, and both
functions return 0 with no region node pushed and no page defined. -/
theorem as_define_region_whole_space_counterexample :
    0 / PAGE_SIZE * PAGE_SIZE
      + (0xfffff001 + 0 % PAGE_SIZE + (PAGE_SIZE - 1)) / PAGE_SIZE * PAGE_SIZE ≤ 2 ^ 32 ∧
    as_define_region boot_machine fresh_as 0 0xfffff001 PF_R 0 PF_X
      = some (0, boot_machine, fresh_as) ∧
    as_define_region_noheap boot_machine fresh_as 0 0xfffff001 PF_R 0 PF_X
      = some (0, boot_machine, fresh_as) ∧
    fresh_as.as_region = [] ∧
    get_page fresh_as 0 = some none :=
  ⟨by decide, rfl, rfl, rfl, rfl⟩

/-! ## Destroying an address space -/

theorem frame_of_word (x : Nat) (h : x < WORD) : (x &&& TLBLO_PPAGE) >>> 12 = x >>> 12 := by
  unfold WORD at h
  unfold TLBLO_PPAGE
  rw [and_frame x h]
  omega

theorem as_destroy_loop_spec (as : addrspace) (l : List region) :
    ∀ m : machine,
    l.Pairwise (frames_differ as) →
    (∀ r ∈ l, ∀ e, page_at as (page_ptr r.vbase) = some e → e.paddr < WORD) →
    (∀ r ∈ l, load_page as r.vbase ≠ none) →
    ∃ m1, as_destroy_loop as l m = some m1 ∧
      (∀ r ∈ l, ∀ e, page_at as (page_ptr r.vbase) = some e → e.paddr ≠ USERSPACETOP →
        m1.frame_table (e.paddr >>> 12) = m.frame_table (e.paddr >>> 12) - 1) ∧
      (∀ f, (∀ r ∈ l, ∀ e, page_at as (page_ptr r.vbase) = some e →
          e.paddr ≠ USERSPACETOP → e.paddr >>> 12 ≠ f) → m1.frame_table f = m.frame_table f) ∧
      (∀ kv, kv ∈ m1.released ↔ kv ∈ m.released ∨
        ∃ r ∈ l, ∃ e, page_at as (page_ptr r.vbase) = some e ∧ e.paddr ≠ USERSPACETOP ∧
          m.frame_table (e.paddr >>> 12) = 1 ∧
          kv = PADDR_TO_KVADDR (((e.paddr >>> 12) <<< 12) % WORD)) ∧
      m1.ram = m.ram := by
  induction l with
  | nil =>
    intro m _ _ _
    refine ⟨m, rfl, ?_, fun _ _ => rfl, ?_, rfl⟩
    · intro r hr
      exact absurd hr (List.not_mem_nil _)
    · intro kv
      constructor
      · exact fun h => Or.inl h
      · rintro (h | ⟨r, hr, _⟩)
        · exact h
        · exact absurd hr (List.not_mem_nil _)
  | cons r rest ih =>
    intro m hpw hword hload
    rw [List.pairwise_cons] at hpw
    obtain ⟨hhead, hpw1⟩ := hpw
    have hword1 : ∀ r ∈ rest, ∀ e, page_at as (page_ptr r.vbase) = some e → e.paddr < WORD :=
      fun r1 hr1 => hword r1 (List.mem_cons_of_mem _ hr1)
    have hload1 : ∀ r ∈ rest, load_page as r.vbase ≠ none :=
      fun r1 hr1 => hload r1 (List.mem_cons_of_mem _ hr1)
    cases hp : load_page as r.vbase with
    | none => exact absurd hp (hload r (List.mem_cons_self _ _))
    | some pe =>
      obtain ⟨ptr, page⟩ := pe
      have hptr := load_page_ptr _ _ _ _ hp
      obtain ⟨_, hpa⟩ := load_page_elim _ _ _ _ hp
      rw [hptr] at hpa
      have hw := hword r (List.mem_cons_self _ _) page hpa
      by_cases hf : page.paddr ≠ USERSPACETOP
      · obtain ⟨m1, h1, h2, h3, h4, h5⟩ :=
          ih (decrement_ref_count m (page.paddr &&& TLBLO_PPAGE)) hpw1 hword1 hload1
        have hft := decrement_ref_count_frame_table m (page.paddr &&& TLBLO_PPAGE)
        have hrel := decrement_ref_count_released m (page.paddr &&& TLBLO_PPAGE)
        rw [frame_of_word _ hw] at hft hrel
        have hrest : ∀ r1 ∈ rest, ∀ e, page_at as (page_ptr r1.vbase) = some e →
            e.paddr ≠ USERSPACETOP → e.paddr >>> 12 ≠ page.paddr >>> 12 := by
          intro r1 hr1 e he hne heq
          exact hhead r1 hr1 page e hpa he hf hne heq.symm
        refine ⟨m1, ?_, ?_, ?_, ?_, ?_⟩
        · simp only [as_destroy_loop, hp, hf, if_true, ne_eq, not_false_eq_true]
          exact h1
        · intro r1 hr1 e he hne
          rw [List.mem_cons] at hr1
          rcases hr1 with heq | hin
          · subst heq
            rw [hpa] at he
            simp only [Option.some.injEq] at he
            subst he
            rw [h3 _ hrest, hft, Function.update_same]
          · rw [h2 r1 hin e he hne, hft, Function.update_noteq (hrest r1 hin e he hne)]
        · intro f hfn
          have hf0 : page.paddr >>> 12 ≠ f := hfn r (List.mem_cons_self _ _) page hpa hf
          rw [h3 f (fun r1 hr1 => hfn r1 (List.mem_cons_of_mem _ hr1)), hft,
            Function.update_noteq (Ne.symm hf0)]
        · intro kv
          rw [h4 kv, hrel]
          constructor
          · rintro (h | ⟨r1, hr1, e, he, hne, hc, hk⟩)
            · by_cases hz : m.frame_table (page.paddr >>> 12) - 1 = 0
              · rw [if_pos hz, List.mem_cons] at h
                rcases h with h | h
                · exact Or.inr ⟨r, List.mem_cons_self _ _, page, hpa, hf, by omega, h⟩
                · exact Or.inl h
              · rw [if_neg hz] at h
                exact Or.inl h
            · rw [hft, Function.update_noteq (hrest r1 hr1 e he hne)] at hc
              exact Or.inr ⟨r1, List.mem_cons_of_mem _ hr1, e, he, hne, hc, hk⟩
          · rintro (h | ⟨r1, hr1, e, he, hne, hc, hk⟩)
            · left
              by_cases hz : m.frame_table (page.paddr >>> 12) - 1 = 0
              · rw [if_pos hz]
                exact List.mem_cons_of_mem _ h
              · rw [if_neg hz]
                exact h
            · rw [List.mem_cons] at hr1
              rcases hr1 with heq | hin
              · subst heq
                rw [hpa] at he
                simp only [Option.some.injEq] at he
                subst he
                left
                rw [if_pos (by omega), hk]
                exact List.mem_cons_self _ _
              · right
                refine ⟨r1, hin, e, he, hne, ?_, hk⟩
                rw [hft, Function.update_noteq (hrest r1 hin e he hne)]
                exact hc
        · rw [h5, decrement_ref_count_ram]
      · have hf' : page.paddr = USERSPACETOP := not_not.mp hf
        obtain ⟨m1, h1, h2, h3, h4, h5⟩ := ih m hpw1 hword1 hload1
        refine ⟨m1, ?_, ?_, ?_, ?_, h5⟩
        · simp only [as_destroy_loop, hp, hf, if_false]
          exact h1
        · intro r1 hr1 e he hne
          rw [List.mem_cons] at hr1
          rcases hr1 with heq | hin
          · subst heq
            rw [hpa] at he
            simp only [Option.some.injEq] at he
            subst he
            exact absurd hf' hne
          · exact h2 r1 hin e he hne
        · intro f hfn
          exact h3 f (fun r1 hr1 => hfn r1 (List.mem_cons_of_mem _ hr1))
        · intro kv
          rw [h4 kv]
          constructor
          · rintro (h | ⟨r1, hr1, e, he, hne, hc, hk⟩)
            · exact Or.inl h
            · exact Or.inr ⟨r1, List.mem_cons_of_mem _ hr1, e, he, hne, hc, hk⟩
          · rintro (h | ⟨r1, hr1, e, he, hne, hc, hk⟩)
            · exact Or.inl h
            · rw [List.mem_cons] at hr1
              rcases hr1 with heq | hin
              · subst heq
                rw [hpa] at he
                simp only [Option.some.injEq] at he
                subst he
                exact absurd hf' hne
              · exact Or.inr ⟨r1, hin, e, he, hne, hc, hk⟩


theorem frame_kvaddr_inj (x y : Nat) (hx : x < WORD) (hy : y < WORD)
    (h : PADDR_TO_KVADDR (((x >>> 12) <<< 12) % WORD)
      = PADDR_TO_KVADDR (((y >>> 12) <<< 12) % WORD)) : x >>> 12 = y >>> 12 := by
  unfold PADDR_TO_KVADDR MIPS_KSEG0 at h
  unfold WORD at *
  omega

/-- C7 as amended: for every address space in which every region node has a
page entry and no two region nodes name the same frame, `as_destroy` returns
and has decremented the reference count of the frame of every region page by
exactly one; a frame whose count was 1 ends with count 0 and is released, a
frame whose count was 2 or more is not released, the frames released are
exactly those of region pages with count 1 before, and no other reference
count changes. -/
theorem as_destroy_releases_frames (has_as : Bool) (m : machine) (as : addrspace)
    (hdiff : as.as_region.Pairwise (frames_differ as))
    (hword : ∀ r ∈ as.as_region, ∀ e, page_at as (page_ptr r.vbase) = some e → e.paddr < WORD)
    (hload : ∀ r ∈ as.as_region, load_page as r.vbase ≠ none) :
    ∃ m1, as_destroy has_as m as = some m1 ∧
      (∀ r ∈ as.as_region, ∀ e, page_at as (page_ptr r.vbase) = some e →
        e.paddr ≠ USERSPACETOP →
        m1.frame_table (e.paddr >>> 12) = m.frame_table (e.paddr >>> 12) - 1 ∧
        (m.frame_table (e.paddr >>> 12) = 1 →
          m1.frame_table (e.paddr >>> 12) = 0 ∧
          PADDR_TO_KVADDR (((e.paddr >>> 12) <<< 12) % WORD) ∈ m1.released) ∧
        (2 ≤ m.frame_table (e.paddr >>> 12) →
          PADDR_TO_KVADDR (((e.paddr >>> 12) <<< 12) % WORD) ∉ m.released →
          PADDR_TO_KVADDR (((e.paddr >>> 12) <<< 12) % WORD) ∉ m1.released)) ∧
      (∀ f, (∀ r ∈ as.as_region, ∀ e, page_at as (page_ptr r.vbase) = some e →
          e.paddr ≠ USERSPACETOP → e.paddr >>> 12 ≠ f) → m1.frame_table f = m.frame_table f) ∧
      (∀ kv, kv ∈ m1.released ↔ kv ∈ m.released ∨
        ∃ r ∈ as.as_region, ∃ e, page_at as (page_ptr r.vbase) = some e ∧
          e.paddr ≠ USERSPACETOP ∧ m.frame_table (e.paddr >>> 12) = 1 ∧
          kv = PADDR_TO_KVADDR (((e.paddr >>> 12) <<< 12) % WORD)) := by
  obtain ⟨d1, d2, _⟩ := as_deactivate_fields has_as m
  obtain ⟨m1, h1, h2, h3, h4, _⟩ :=
    as_destroy_loop_spec as as.as_region (as_deactivate has_as m) hdiff hword hload
  rw [d1] at h2 h3 h4
  rw [d2] at h4
  refine ⟨m1, h1, ?_, h3, h4⟩
  intro r hr e he hne
  have hdec := h2 r hr e he hne
  refine ⟨hdec, ?_, ?_⟩
  · intro hone
    refine ⟨by rw [hdec, hone]; rfl, ?_⟩
    rw [h4]
    exact Or.inr ⟨r, hr, e, he, hne, hone, rfl⟩
  · intro htwo hnot hin
    rw [h4] at hin
    rcases hin with hin | ⟨r1, hr1, e1, he1, _, hc1, hk⟩
    · exact hnot hin
    · have hfe := frame_kvaddr_inj _ _ (hword r hr e he) (hword r1 hr1 e1 he1) hk
      rw [hfe, hc1] at htwo
      exact absurd htwo (by decide)

theorem as_destroy_releases_frames_witness :
    data_written_as.as_region = [{ vbase := 0x10000000, old_flags := 6 }] ∧
    load_page data_written_as 0x10000000
      = some ((64, 0), { vaddr := 0x10000, paddr := 0x5600, copy_on_write := 0, flags := 6 }) ∧
    data_written_machine.frame_table 5 = 1 ∧ data_written_machine.released = [] ∧
    (as_destroy true data_written_machine data_written_as).map
      (fun m => (m.frame_table 5, m.released)) = some (0, [0x80005000]) ∧
    ∃ m1, as_destroy true data_written_machine data_written_as = some m1 ∧
      m1.frame_table (0x5600 >>> 12) = data_written_machine.frame_table (0x5600 >>> 12) - 1 ∧
      PADDR_TO_KVADDR (((0x5600 >>> 12) <<< 12) % WORD) ∈ m1.released := by
  have hreg : data_written_as.as_region = [{ vbase := 0x10000000, old_flags := 6 }] := by
    decide
  have hpage : page_at data_written_as
      (page_ptr ({ vbase := 0x10000000, old_flags := 6 } : region).vbase)
      = some { vaddr := 0x10000, paddr := 0x5600, copy_on_write := 0, flags := 6 } := by
    decide
  obtain ⟨m1, h1, h2, _⟩ :=
    as_destroy_releases_frames true data_written_machine data_written_as
      (by
        rw [hreg]
        exact List.pairwise_singleton _ _)
      (by
        rw [hreg]
        intro r hr e he
        rw [List.mem_singleton] at hr
        subst hr
        rw [hpage] at he
        simp only [Option.some.injEq] at he
        rw [← he]
        decide)
      (by decide)
  obtain ⟨h3, h4, _⟩ := h2 { vbase := 0x10000000, old_flags := 6 } (by decide)
    { vaddr := 0x10000, paddr := 0x5600, copy_on_write := 0, flags := 6 } hpage (by decide)
  exact ⟨by decide, by decide, by decide, by decide, by decide, m1, h1, h3,
    (h4 (by decide)).2⟩

/-- C7 as stated fails: in `alias_as` the pages that have a frame are the two
pages of its region list, each recorded once, and both name frame 5, whose
reference count is 2; `as_destroy` decrements that count twice, to 0 and not to
1, and releases the frame although its count was 2. -/
theorem as_destroy_shared_frame_counterexample :
    alias_as.as_region
      = [{ vbase := 0x10001000, old_flags := 6 }, { vbase := 0x10000000, old_flags := 6 }] ∧
    (alias_as.as_region.map (fun r => page_ptr r.vbase)).Nodup ∧
    load_page alias_as 0x10000000
      = some ((64, 0), { vaddr := 0x10000, paddr := 0x5200, copy_on_write := 0, flags := 6 }) ∧
    load_page alias_as 0x10001000
      = some ((64, 1), { vaddr := 0x10001, paddr := 0x5200, copy_on_write := 0, flags := 6 }) ∧
    alias_machine.frame_table (0x5200 >>> 12) = 2 ∧ alias_machine.released = [] ∧
    (as_destroy true alias_machine alias_as).map
      (fun m => (m.frame_table (0x5200 >>> 12), m.released)) = some (0, [0x80005000]) ∧
    (0 : Int) ≠ 2 - 1 := by
  decide

/-! ## Agreement of `add_single_vaddr_page` and `get_page` -/

theorem get_page_wf (as : addrspace) (hwf : pt_wf as) (v : Nat) :
    get_page as v = match (as.page_table (page_ptr v).1).target with
      | none => some none
      | some _ => some (some (page_ptr v)) := by
  rw [get_page_eq]
  have h := (hwf _ (page_ptr_bounds v).1).1
  refine (if_neg (not_not.mpr h)).trans ?_
  cases (as.page_table (page_ptr v).1).target <;> rfl

theorem get_page_same_page (as : addrspace) (v v1 : Nat) (h : page_ptr v1 = page_ptr v) :
    get_page as v1 = get_page as v := by
  rw [get_page_eq, get_page_eq, h]

theorem add_single_vaddr_page_agrees_wf (m : machine) (as : addrspace) (v : Nat) (f : Int)
    (hwf : pt_wf as) :
    ((∀ b ∈ m.kheap, b = true) → ∃ m1 as1, add_single_vaddr_page m as v f = some (m1, as1)) ∧
    (∀ m1 as1, add_single_vaddr_page m as v f = some (m1, as1) →
      (∀ v1, v1 % WORD / PAGE_SIZE = v % WORD / PAGE_SIZE →
        ∃ e, get_page as1 v1 = some (some (page_ptr v)) ∧
          page_at as1 (page_ptr v) = some e ∧
          e.vaddr = v % WORD / PAGE_SIZE ∧ e.flags = f ∧
          (∀ e0, page_at as (page_ptr v) = some e0 →
            e.paddr = e0.paddr ∧ e.copy_on_write = e0.copy_on_write) ∧
          (page_at as (page_ptr v) = none → e.paddr = USERSPACETOP ∧ e.copy_on_write = 0)) ∧
      (∀ v1, v1 % WORD / PAGE_SIZE ≠ v % WORD / PAGE_SIZE →
        (get_page as1 v1 = get_page as v1 ∧
          page_at as1 (page_ptr v1) = page_at as (page_ptr v1)) ∨
        (get_page as v1 = some none ∧ get_page as1 v1 = some (some (page_ptr v1)) ∧
          ∃ e, page_at as1 (page_ptr v1) = some e ∧ e.flags = -1 ∧
            e.paddr = USERSPACETOP ∧ e.copy_on_write = 0)) ∧
      m1.frame_table = m.frame_table ∧ m1.ram = m.ram ∧ m1.released = m.released) ∧
    (∀ v1, get_page as v1 ≠ none ∧
      (get_page as v1 = some none ↔
        (as.page_table ((v1 % WORD / PAGE_SIZE) >>> 10)).target = none)) := by
  refine ⟨?_, ?_, ?_⟩
  · intro hk
    obtain ⟨m1, as1, h, _⟩ := add_single_vaddr_page_total m as v f hwf hk
    exact ⟨m1, as1, h⟩
  · intro m1 as1 h
    obtain ⟨hm1, hm2, _, hm4⟩ := add_single_vaddr_page_machine _ _ _ _ _ _ h
    obtain ⟨hpfx, hc⟩ := add_single_vaddr_page_inv _ _ _ _ _ _ h
    refine ⟨?_, ?_, hm1, hm2, hm4⟩
    · intro v1 hv1
      have hp1 : page_ptr v1 = page_ptr v := (page_ptr_eq_iff v1 v).mpr hv1
      have hg : get_page as1 v1 = some (some (page_ptr v)) := by
        rw [get_page_same_page _ _ _ hp1]
        exact add_single_vaddr_page_get_self _ _ _ _ _ _ h
      rcases hc with ⟨t, ht, hv, _, ha⟩ | ⟨ht, _, _, ha⟩
      · have hpa := page_at_of_target as (page_ptr v) t ht
        refine ⟨{ t (page_ptr v).2 with flags := f }, hg, ?_, hv, rfl, ?_, ?_⟩
        · rw [ha]
          exact page_at_write_page_same _ _ _ _ hpa
        · intro e0 he0
          rw [hpa] at he0
          simp only [Option.some.injEq] at he0
          rw [← he0]
          exact ⟨rfl, rfl⟩
        · intro hn
          rw [hpa] at hn
          exact absurd hn (by simp)
      · have hpa : page_at (install_table as (page_ptr v).1) (page_ptr v)
            = some (blank_entry (page_ptr v).1 (page_ptr v).2) := by
          rw [page_at_install_table, if_pos rfl]
        refine ⟨{ blank_entry (page_ptr v).1 (page_ptr v).2 with flags := f }, hg, ?_,
          blank_entry_vaddr v, rfl, ?_, ?_⟩
        · rw [ha]
          exact page_at_write_page_same _ _ _ _ hpa
        · intro e0 he0
          rw [page_at_of_no_target as (page_ptr v) ht] at he0
          exact absurd he0 (by simp)
        · intro _
          exact ⟨rfl, rfl⟩
    · intro v1 hv1
      have hp1 : page_ptr v1 ≠ page_ptr v := fun hh => hv1 ((page_ptr_eq_iff v1 v).mp hh)
      rcases hc with ⟨t, _, _, _, ha⟩ | ⟨ht, _, _, ha⟩
      · left
        rw [ha]
        exact ⟨get_page_write_page _ _ _ _, page_at_write_page_other _ _ _ _ hp1⟩
      · by_cases hroot : (page_ptr v1).1 = (page_ptr v).1
        · right
          have hpfx1 : root_page_entry.vaddr_prefix (as.page_table (page_ptr v1).1)
              = (page_ptr v1).1 := (hwf _ (page_ptr_bounds v1).1).1
          refine ⟨?_, ?_, blank_entry (page_ptr v1).1 (page_ptr v1).2, ?_, rfl, rfl, rfl⟩
          · rw [get_page_wf as hwf, hroot, ht]
          · rw [ha, get_page_write_page, ← hroot]
            exact get_page_install_table_same as v1 hpfx1
          · rw [ha, page_at_write_page_other _ _ _ _ hp1, page_at_install_table, if_pos hroot,
              hroot]
        · left
          rw [ha]
          refine ⟨?_, ?_⟩
          · rw [get_page_write_page, get_page_install_table _ _ _ hroot]
          · rw [page_at_write_page_other _ _ _ _ hp1, page_at_install_table, if_neg hroot]
  · intro v1
    have hpp : (page_ptr v1).1 = (v1 % WORD / PAGE_SIZE) >>> 10 := rfl
    rw [get_page_wf as hwf, ← hpp]
    cases (as.page_table (page_ptr v1).1).target with
    | none => exact ⟨by simp, by simp⟩
    | some t => exact ⟨by simp, by simp⟩

/-! ## Frames released by `as_remove_region` -/

theorem as_remove_region_loop_eq (as : addrspace) (vaddr memsize : Nat) (l : List region) :
    ∀ m : machine,
    as_remove_region_loop as vaddr memsize l m
      = (as_destroy_loop as (l.filter (in_range vaddr memsize)) m).map
          (fun m1 => (m1, l.filter (fun r => !in_range vaddr memsize r))) := by
  induction l with
  | nil =>
    intro m
    rfl
  | cons cur rest ih =>
    intro m
    by_cases hc : cur.vbase ≥ vaddr ∧ cur.vbase < (vaddr + memsize) % WORD
    · have hin : in_range vaddr memsize cur = true := decide_eq_true hc
      have hf1 : List.filter (in_range vaddr memsize) (cur :: rest)
          = cur :: List.filter (in_range vaddr memsize) rest :=
        List.filter_cons_of_pos hin
      have hf2 : List.filter (fun r => !in_range vaddr memsize r) (cur :: rest)
          = List.filter (fun r => !in_range vaddr memsize r) rest :=
        List.filter_cons_of_neg (by rw [hin]; simp)
      rw [hf1, hf2]
      cases hp : load_page as cur.vbase with
      | none => simp only [as_remove_region_loop, hc, and_self, if_true, hp, as_destroy_loop,
          Option.map_none']
      | some pe =>
        obtain ⟨ptr, page⟩ := pe
        by_cases hf : page.paddr ≠ USERSPACETOP
        · simp only [as_remove_region_loop, hc, and_self, if_true, hp, as_destroy_loop, hf,
            ne_eq, not_false_eq_true, ih]
        · simp only [as_remove_region_loop, hc, and_self, if_true, hp, as_destroy_loop, hf,
            if_false, ih]
    · have hin : in_range vaddr memsize cur = false := decide_eq_false hc
      have hf1 : List.filter (in_range vaddr memsize) (cur :: rest)
          = List.filter (in_range vaddr memsize) rest :=
        List.filter_cons_of_neg (by rw [hin]; simp)
      have hf2 : List.filter (fun r => !in_range vaddr memsize r) (cur :: rest)
          = cur :: List.filter (fun r => !in_range vaddr memsize r) rest :=
        List.filter_cons_of_pos (by rw [hin]; rfl)
      rw [hf1, hf2]
      simp only [as_remove_region_loop, hc, if_false, ih]
      cases as_destroy_loop as (List.filter (in_range vaddr memsize) rest) m <;> rfl


/-- C24 as amended: for every address space in which the nodes that
`as_remove_region(as, v, s)` removes have page entries and no two of them name
the same frame, the call returns and lowers by exactly one the reference count
of the frame of each removed node's page that has a frame, releases exactly
the frames whose count thereby reaches 0 (count 1 before), and changes the
reference count of no other frame. -/
theorem as_remove_region_frames (m : machine) (as : addrspace) (vaddr memsize : Nat)
    (hdiff : (as.as_region.filter (in_range vaddr memsize)).Pairwise (frames_differ as))
    (hword : ∀ r ∈ as.as_region, in_range vaddr memsize r = true →
      ∀ e, page_at as (page_ptr r.vbase) = some e → e.paddr < WORD)
    (hload : ∀ r ∈ as.as_region, in_range vaddr memsize r = true →
      load_page as r.vbase ≠ none) :
    ∃ m1 as1, as_remove_region m as vaddr memsize = some (m1, as1) ∧
      (∀ r ∈ as.as_region, in_range vaddr memsize r = true →
        ∀ e, page_at as (page_ptr r.vbase) = some e → e.paddr ≠ USERSPACETOP →
        m1.frame_table (e.paddr >>> 12) = m.frame_table (e.paddr >>> 12) - 1) ∧
      (∀ f, (∀ r ∈ as.as_region, in_range vaddr memsize r = true →
          ∀ e, page_at as (page_ptr r.vbase) = some e →
          e.paddr ≠ USERSPACETOP → e.paddr >>> 12 ≠ f) → m1.frame_table f = m.frame_table f) ∧
      (∀ kv, kv ∈ m1.released ↔ kv ∈ m.released ∨
        ∃ r ∈ as.as_region, in_range vaddr memsize r = true ∧
          ∃ e, page_at as (page_ptr r.vbase) = some e ∧ e.paddr ≠ USERSPACETOP ∧
          m.frame_table (e.paddr >>> 12) = 1 ∧
          kv = PADDR_TO_KVADDR (((e.paddr >>> 12) <<< 12) % WORD)) := by
  obtain ⟨m1, h1, h2, h3, h4, _⟩ :=
    as_destroy_loop_spec as (as.as_region.filter (in_range vaddr memsize)) m hdiff
      (fun r hr => hword r (List.mem_filter.mp hr).1 (List.mem_filter.mp hr).2)
      (fun r hr => hload r (List.mem_filter.mp hr).1 (List.mem_filter.mp hr).2)
  refine ⟨m1, { as with
    as_region := as.as_region.filter (fun r => !in_range vaddr memsize r) }, ?_, ?_, ?_, ?_⟩
  · unfold as_remove_region
    rw [as_remove_region_loop_eq, h1]
    rfl
  · intro r hr hin e he hne
    exact h2 r (List.mem_filter.mpr ⟨hr, hin⟩) e he hne
  · intro f hf
    exact h3 f (fun r hr => hf r (List.mem_filter.mp hr).1 (List.mem_filter.mp hr).2)
  · intro kv
    rw [h4 kv]
    constructor
    · rintro (h | ⟨r, hr, e, he⟩)
      · exact Or.inl h
      · exact Or.inr ⟨r, (List.mem_filter.mp hr).1, (List.mem_filter.mp hr).2, e, he⟩
    · rintro (h | ⟨r, hr, hin, e, he⟩)
      · exact Or.inl h
      · exact Or.inr ⟨r, List.mem_filter.mpr ⟨hr, hin⟩, e, he⟩

theorem as_remove_region_frames_witness :
    heap_written_as.as_region.filter (in_range 0x500000 0x1000)
      = [{ vbase := 0x500000, old_flags := 7 }] ∧
    load_page heap_written_as 0x500000
      = some ((1, 256), { vaddr := 0x500, paddr := 0x5600, copy_on_write := 0, flags := 7 }) ∧
    heap_written_machine.frame_table 5 = 1 ∧
    ∃ m1 as1, as_remove_region heap_written_machine heap_written_as 0x500000 0x1000
        = some (m1, as1) ∧
      m1.frame_table (0x5600 >>> 12) = heap_written_machine.frame_table (0x5600 >>> 12) - 1 ∧
      (PADDR_TO_KVADDR (((0x5600 >>> 12) <<< 12) % WORD) ∈ m1.released) := by
  have hreg : heap_written_as.as_region.filter (in_range 0x500000 0x1000)
      = [{ vbase := 0x500000, old_flags := 7 }] := by decide
  have hall : heap_written_as.as_region
      = [{ vbase := 0x500000, old_flags := 7 }, { vbase := 0x4ff000, old_flags := 6 }] := by
    decide
  have hpage : page_at heap_written_as
      (page_ptr ({ vbase := 0x500000, old_flags := 7 } : region).vbase)
      = some { vaddr := 0x500, paddr := 0x5600, copy_on_write := 0, flags := 7 } := by
    decide
  obtain ⟨m1, as1, h1, h2, _, h4⟩ :=
    as_remove_region_frames heap_written_machine heap_written_as 0x500000 0x1000
      (by
        rw [hreg]
        exact List.pairwise_singleton _ _)
      (by
        rw [hall]
        intro r hr hin e he
        simp only [List.mem_cons, List.mem_singleton, List.not_mem_nil, or_false] at hr
        rcases hr with hr | hr
        · subst hr
          rw [hpage] at he
          simp only [Option.some.injEq] at he
          rw [← he]
          decide
        · subst hr
          exact absurd hin (by decide))
      (by decide)
  have hmem : ({ vbase := 0x500000, old_flags := 7 } : region) ∈ heap_written_as.as_region := by
    decide
  have hin : in_range 0x500000 0x1000 { vbase := 0x500000, old_flags := 7 } = true := by
    decide
  have hne : (0x5600 : Nat) ≠ USERSPACETOP := by decide
  have hone : heap_written_machine.frame_table (0x5600 >>> 12) = 1 := by decide
  refine ⟨hreg, by decide, by decide, m1, as1, h1, ?_, ?_⟩
  · exact h2 _ hmem hin { vaddr := 0x500, paddr := 0x5600, copy_on_write := 0, flags := 7 }
      hpage hne
  · rw [h4]
    exact Or.inr ⟨_, hmem, hin,
      { vaddr := 0x500, paddr := 0x5600, copy_on_write := 0, flags := 7 }, hpage, hne, hone,
      rfl⟩

/-- C24 as stated fails: the region list of `alias_as` has pairwise distinct
page bases, both pages name frame 5 with reference count 2, and
`as_remove_region(as, 0x10000000, 0x2000)` removes both nodes and lowers the
count of frame 5 by two, to 0, releasing it. -/
theorem as_remove_region_shared_frame_counterexample :
    alias_as.as_region
      = [{ vbase := 0x10001000, old_flags := 6 }, { vbase := 0x10000000, old_flags := 6 }] ∧
    (alias_as.as_region.map (fun r => r.vbase)).Nodup ∧
    load_page alias_as 0x10000000
      = some ((64, 0), { vaddr := 0x10000, paddr := 0x5200, copy_on_write := 0, flags := 6 }) ∧
    load_page alias_as 0x10001000
      = some ((64, 1), { vaddr := 0x10001, paddr := 0x5200, copy_on_write := 0, flags := 6 }) ∧
    alias_machine.frame_table (0x5200 >>> 12) = 2 ∧ alias_machine.released = [] ∧
    (as_remove_region alias_machine alias_as 0x10000000 0x2000).map
      (fun r => (r.1.frame_table (0x5200 >>> 12), r.1.released, r.2.as_region))
      = some (0, [0x80005000], []) ∧
    (0 : Int) ≠ 2 - 1 := by
  decide

/-! ## Invariants of the reachable address spaces -/

theorem flags_ok_lor (a b : Int) (ha : flags_ok a) (hb : flags_ok b) :
    flags_ok (Int.lor a b) := by
  obtain ⟨ha0, ha7⟩ := ha
  obtain ⟨hb0, hb7⟩ := hb
  obtain ⟨n, rfl⟩ := Int.eq_ofNat_of_zero_le ha0
  obtain ⟨k, rfl⟩ := Int.eq_ofNat_of_zero_le hb0
  have hn : n ≤ 7 := by omega
  have hk : k ≤ 7 := by omega
  unfold flags_ok
  interval_cases n <;> interval_cases k <;> decide

theorem flags_ok_ne (f : Int) (h : flags_ok f) : f ≠ -1 := by
  intro h1
  have := h.1
  omega

theorem page_at_congr (as as1 : addrspace) (h : as1.page_table = as.page_table) (q : Nat × Nat) :
    page_at as1 q = page_at as q := by
  unfold page_at
  rw [h]

theorem pt_wf_congr (as as1 : addrspace) (h : as1.page_table = as.page_table) (hwf : pt_wf as) :
    pt_wf as1 := by
  intro i hi
  rw [h]
  exact hwf i hi

theorem pages_ok_congr {F : Int → Prop} (as as1 : addrspace) (h : as1.page_table = as.page_table)
    (l : List region) (hl : pages_ok F as l) : pages_ok F as1 l := by
  intro r hr
  rw [page_at_congr as as1 h]
  exact hl r hr

theorem region_inv_intro {F : Int → Prop} (as : addrspace) (hwf : pt_wf as)
    (hf : ∀ r ∈ as.as_region, F r.old_flags) (hp : pages_ok F as as.as_region) :
    region_inv F as :=
  ⟨hwf, fun r hr => ⟨hf r hr, hp r hr⟩⟩

theorem region_inv_elim {F : Int → Prop} (as : addrspace) (h : region_inv F as) :
    pt_wf as ∧ (∀ r ∈ as.as_region, F r.old_flags) ∧ pages_ok F as as.as_region :=
  ⟨h.1, fun r hr => (h.2 r hr).1, fun r hr => (h.2 r hr).2⟩

theorem pages_ok_write_page {F : Int → Prop}
    (as : addrspace) (p : Nat × Nat) (e e1 : secondary_page_entry)
    (hp : page_at as p = some e) (hf : F e.flags → F e1.flags)
    (l : List region) (hl : pages_ok F as l) : pages_ok F (write_page as p e1) l := by
  intro r hr
  obtain ⟨e0, he0, hf0⟩ := hl r hr
  by_cases hq : page_ptr r.vbase = p
  · rw [hq, page_at_write_page_same _ _ _ _ hp]
    rw [hq, hp] at he0
    simp only [Option.some.injEq] at he0
    rw [← he0] at hf0
    exact ⟨e1, rfl, hf hf0⟩
  · rw [page_at_write_page_other _ _ _ _ hq]
    exact ⟨e0, he0, hf0⟩

theorem add_single_vaddr_page_pt_wf (m m1 : machine) (as as1 : addrspace) (a : Nat) (f : Int)
    (hwf : pt_wf as) (h : add_single_vaddr_page m as a f = some (m1, as1)) : pt_wf as1 := by
  obtain ⟨_, hc⟩ := add_single_vaddr_page_inv _ _ _ _ _ _ h
  rcases hc with ⟨t, ht, _, _, ha⟩ | ⟨_, _, _, ha⟩
  · rw [ha]
    exact pt_wf_write_page _ _ _ _ hwf (page_at_of_target _ _ _ ht) rfl
  · rw [ha]
    have hwf1 := pt_wf_install_table as _ hwf (page_ptr_bounds a).1
    have hpa : page_at (install_table as (page_ptr a).1) (page_ptr a)
        = some (blank_entry (page_ptr a).1 (page_ptr a).2) := by
      rw [page_at_install_table, if_pos rfl]
    exact pt_wf_write_page _ _ _ _ hwf1 hpa rfl

theorem add_single_vaddr_page_pages_ok {F : Int → Prop}
    (m m1 : machine) (as as1 : addrspace) (a : Nat) (f : Int)
    (hf : F f) (h : add_single_vaddr_page m as a f = some (m1, as1))
    (l : List region) (hl : pages_ok F as l) :
    pages_ok F as1 l ∧ ∃ e, page_at as1 (page_ptr a) = some e ∧ F e.flags := by
  have hself : ∃ e, page_at as1 (page_ptr a) = some e ∧ F e.flags := by
    rcases add_single_vaddr_page_self _ _ _ _ _ _ h with ⟨e, _, h2⟩ | ⟨_, h2⟩
    · exact ⟨_, h2, hf⟩
    · exact ⟨_, h2, hf⟩
  refine ⟨?_, hself⟩
  intro r hr
  by_cases hq : page_ptr r.vbase = page_ptr a
  · rw [hq]
    exact hself
  · obtain ⟨e0, he0, hf0⟩ := hl r hr
    exact ⟨e0, add_single_vaddr_page_keeps _ _ _ _ _ _ h _ hq e0 he0, hf0⟩

theorem define_pages_region_inv {F : Int → Prop}
    (flags : Int) (vaddr : Nat) (hf : F flags) (n : Nat) :
    ∀ (i : Nat) (m m1 : machine) (as as1 : addrspace) (r : Int),
    region_inv F as → define_pages flags vaddr n i m as = some (r, m1, as1) → region_inv F as1 := by
  induction n with
  | zero =>
    intro i m m1 as as1 r hinv h
    simp only [define_pages, Option.some.injEq, Prod.mk.injEq] at h
    obtain ⟨_, _, h3⟩ := h
    subst h3
    exact hinv
  | succ n ih =>
    intro i m m1 as as1 r hinv h
    obtain ⟨hwf, hfl, hpg⟩ := region_inv_elim as hinv
    cases ha : add_single_vaddr_page m as ((vaddr + i) % WORD) flags with
    | none =>
      simp only [define_pages, ha] at h
      exact absurd h (by simp)
    | some p =>
      obtain ⟨m2, as2⟩ := p
      have hwf2 := add_single_vaddr_page_pt_wf _ _ _ _ _ _ hwf ha
      obtain ⟨hr2, _, _⟩ := add_single_vaddr_page_fields _ _ _ _ _ _ ha
      obtain ⟨hpg2, hself⟩ := add_single_vaddr_page_pages_ok _ _ _ _ _ _ hf ha _ hpg
      have hinv2 : region_inv F as2 := by
        refine region_inv_intro as2 hwf2 ?_ ?_
        · rw [hr2]
          exact hfl
        · rw [hr2]
          exact hpg2
      cases hk : kmalloc m2 with
      | mk b m3 =>
        cases b with
        | false =>
          simp only [define_pages, ha, hk, Option.some.injEq, Prod.mk.injEq] at h
          obtain ⟨_, _, h3⟩ := h
          subst h3
          exact hinv2
        | true =>
          simp only [define_pages, ha, hk] at h
          refine ih _ _ _ _ _ _ ?_ h
          refine region_inv_intro _ hwf2 ?_ ?_
          · intro r1 hr1
            simp only [List.mem_cons] at hr1
            rcases hr1 with heq | hin
            · rw [heq]
              exact hf
            · exact hfl r1 (hr2 ▸ hin)
          · intro r1 hr1
            simp only [List.mem_cons] at hr1
            rcases hr1 with heq | hin
            · rw [heq]
              exact hself
            · exact hpg2 r1 (hr2 ▸ hin)

theorem region_inv_congr {F : Int → Prop} (as as1 : addrspace) (hp : as1.page_table = as.page_table)
    (hr : as1.as_region = as.as_region) (h : region_inv F as) : region_inv F as1 := by
  obtain ⟨hwf, hfl, hpg⟩ := region_inv_elim as h
  refine region_inv_intro as1 (pt_wf_congr as as1 hp hwf) ?_ ?_
  · rw [hr]
    exact hfl
  · rw [hr]
    exact pages_ok_congr as as1 hp _ hpg

theorem as_define_region_noheap_region_inv {F : Int → Prop} (m m1 : machine) (as as1 : addrspace)
    (vaddr memsize : Nat) (rd wr ex r : Int)
    (hF : perm_closed F) (hrd : F rd) (hwr : F wr) (hex : F ex) (hinv : region_inv F as)
    (h : as_define_region_noheap m as vaddr memsize rd wr ex = some (r, m1, as1)) :
    region_inv F as1 := by
  rw [as_define_region_noheap_eq] at h
  exact define_pages_region_inv _ _ (hF.1 _ _ (hF.1 _ _ hrd hwr) hex) _ _ _ _ _ _ _ hinv h

theorem as_define_region_region_inv {F : Int → Prop} (m m1 : machine) (as as1 : addrspace)
    (vaddr memsize : Nat) (rd wr ex r : Int)
    (hF : perm_closed F) (hrd : F rd) (hwr : F wr) (hex : F ex) (hinv : region_inv F as)
    (h : as_define_region m as vaddr memsize rd wr ex = some (r, m1, as1)) :
    region_inv F as1 := by
  rw [as_define_region_eq] at h
  refine define_pages_region_inv _ _ (hF.1 _ _ (hF.1 _ _ hrd hwr) hex) _ _ _ _ _ _ _ ?_ h
  by_cases hw : wr ≠ 0
  · rw [if_pos hw]
    exact region_inv_congr as _ rfl rfl hinv
  · rw [if_neg hw]
    exact hinv

theorem as_define_stack_region_inv {F : Int → Prop}
    (stack_size : Nat) (m m1 : machine) (as as1 : addrspace)
    (r : Int) (sp : Option Nat) (hF : perm_closed F) (hinv : region_inv F as)
    (h : as_define_stack stack_size m as = some (r, sp, m1, as1)) : region_inv F as1 := by
  unfold as_define_stack at h
  split at h
  · exact absurd h (by simp)
  · rename_i err m2 as2 hd
    have hinv2 : region_inv F as2 :=
      as_define_region_noheap_region_inv _ _ _ _ _ _ _ _ _ _ hF hF.2.1 hF.2.2.1 hF.2.2.2.2
        hinv hd
    split at h
    · simp only [Option.some.injEq, Prod.mk.injEq] at h
      obtain ⟨_, _, _, h4⟩ := h
      rw [← h4]
      exact hinv2
    · simp only [Option.some.injEq, Prod.mk.injEq] at h
      obtain ⟨_, _, _, h4⟩ := h
      rw [← h4]
      exact hinv2

theorem as_remove_region_region_inv {F : Int → Prop}
    (m m1 : machine) (as as1 : addrspace) (vaddr memsize : Nat)
    (hinv : region_inv F as) (h : as_remove_region m as vaddr memsize = some (m1, as1)) :
    region_inv F as1 := by
  obtain ⟨hwf, hfl, hpg⟩ := region_inv_elim as hinv
  unfold as_remove_region at h
  rw [as_remove_region_loop_eq] at h
  cases hd : as_destroy_loop as (List.filter (in_range vaddr memsize) as.as_region) m with
  | none =>
    rw [hd] at h
    exact absurd h (by simp)
  | some m2 =>
    rw [hd] at h
    simp only [Option.map_some', Option.some.injEq, Prod.mk.injEq] at h
    obtain ⟨_, h2⟩ := h
    rw [← h2]
    refine region_inv_intro _ hwf ?_ ?_
    · intro r hr
      exact hfl r (List.mem_filter.mp hr).1
    · intro r hr
      exact hpg r (List.mem_filter.mp hr).1

theorem as_prepare_load_loop_inv {F : Int → Prop} (hF : perm_closed F) (l : List region) :
    ∀ (m m1 : machine) (as as1 : addrspace) (nodes : List region) (L : List region),
    pt_wf as → pages_ok F as l → pages_ok F as L →
    as_prepare_load_loop l m as = some (m1, as1, nodes) →
    pt_wf as1 ∧ pages_ok F as1 L ∧
    ∀ n ∈ nodes, F n.old_flags ∧ ∃ r ∈ l, n.vbase = r.vbase := by
  induction l with
  | nil =>
    intro m m1 as as1 nodes L hwf _ hL h
    simp only [as_prepare_load_loop, Option.some.injEq, Prod.mk.injEq] at h
    obtain ⟨_, h2, h3⟩ := h
    subst h2; subst h3
    exact ⟨hwf, hL, fun n hn => absurd hn (List.not_mem_nil _)⟩
  | cons r rest ih =>
    intro m m1 as as1 nodes L hwf hl hL h
    cases hp : load_page as r.vbase with
    | none =>
      simp only [as_prepare_load_loop, hp] at h
      exact absurd h (by simp)
    | some pe =>
      obtain ⟨ptr, page⟩ := pe
      have hptr := load_page_ptr _ _ _ _ hp
      obtain ⟨_, hpa⟩ := load_page_elim _ _ _ _ hp
      obtain ⟨e0, he0, hf0⟩ := hl r (List.mem_cons_self _ _)
      rw [← hptr, hpa] at he0
      simp only [Option.some.injEq] at he0
      rw [← he0] at hf0
      have hfw : F (Int.lor page.flags PF_W) := hF.1 _ _ hf0 hF.2.2.1
      have hrest : pages_ok F as rest := fun r1 hr1 => hl r1 (List.mem_cons_of_mem _ hr1)
      have key : ∀ (m0 : machine) (e1 : secondary_page_entry) (nodes0 : List region),
          e1.vaddr = page.vaddr → e1.flags = Int.lor page.flags PF_W →
          as_prepare_load_loop rest m0 (write_page as ptr e1) = some (m1, as1, nodes0) →
          pt_wf as1 ∧ pages_ok F as1 L ∧
          ∀ n ∈ nodes0, F n.old_flags ∧ ∃ r1 ∈ rest, n.vbase = r1.vbase := by
        intro m0 e1 nodes0 hv hfe hrec
        exact ih m0 m1 _ as1 nodes0 L (pt_wf_write_page _ _ _ _ hwf hpa hv)
          (pages_ok_write_page _ _ _ _ hpa (fun _ => hfe ▸ hfw) _ hrest)
          (pages_ok_write_page _ _ _ _ hpa (fun _ => hfe ▸ hfw) _ hL) hrec
      have fin : ∀ (nodes0 : List region),
          (pt_wf as1 ∧ pages_ok F as1 L ∧
            ∀ n ∈ nodes0, F n.old_flags ∧ ∃ r1 ∈ rest, n.vbase = r1.vbase) →
          nodes = ({ r with old_flags := page.flags } : region) :: nodes0 →
          pt_wf as1 ∧ pages_ok F as1 L ∧
            ∀ n ∈ nodes, F n.old_flags ∧ ∃ r1 ∈ r :: rest, n.vbase = r1.vbase := by
        intro nodes0 ⟨k1, k2, k3⟩ hn
        refine ⟨k1, k2, ?_⟩
        intro n hnin
        rw [hn, List.mem_cons] at hnin
        rcases hnin with heq | hin
        · rw [heq]
          exact ⟨hf0, r, List.mem_cons_self _ _, rfl⟩
        · obtain ⟨g1, r1, hr1, g2⟩ := k3 n hin
          exact ⟨g1, r1, List.mem_cons_of_mem _ hr1, g2⟩
      by_cases hc : page.paddr ≠ USERSPACETOP ∧ page.paddr &&& TLBLO_DIRTY = 0
      · simp only [as_prepare_load_loop, hp, hc, and_self, if_true, ne_eq,
          not_false_eq_true] at h
        split at h
        · exact absurd h (by simp)
        · rename_i m2 as2 nodes0 hrec
          simp only [Option.some.injEq, Prod.mk.injEq] at h
          obtain ⟨h1, h2, h3⟩ := h
          subst h1; subst h2
          exact fin nodes0
            (key _ { page with flags := Int.lor page.flags PF_W,
                               paddr := page.paddr ||| TLBLO_DIRTY } nodes0 rfl rfl hrec)
            h3.symm
      · simp only [as_prepare_load_loop, hp, hc, if_false] at h
        split at h
        · exact absurd h (by simp)
        · rename_i m2 as2 nodes0 hrec
          simp only [Option.some.injEq, Prod.mk.injEq] at h
          obtain ⟨h1, h2, h3⟩ := h
          subst h1; subst h2
          exact fin nodes0
            (key _ { page with flags := Int.lor page.flags PF_W } nodes0 rfl rfl hrec) h3.symm

theorem as_prepare_load_region_inv {F : Int → Prop} (m m1 : machine) (as as1 : addrspace)
    (r : Int) (hF : perm_closed F) (hinv : region_inv F as) (h : as_prepare_load m as = some (r, m1, as1)) :
    region_inv F as1 := by
  obtain ⟨hwf, hfl, hpg⟩ := region_inv_elim as hinv
  unfold as_prepare_load at h
  split at h
  · exact absurd h (by simp)
  · rename_i m2 as2 nodes hl
    simp only [Option.some.injEq, Prod.mk.injEq] at h
    obtain ⟨_, _, h3⟩ := h
    rw [← h3]
    obtain ⟨k1, k2, k3⟩ := as_prepare_load_loop_inv hF _ _ _ _ _ _ _ hwf hpg hpg hl
    refine region_inv_intro _ k1 ?_ ?_
    · intro n hn
      exact (k3 n hn).1
    · intro n hn
      obtain ⟨_, r1, hr1, hv⟩ := k3 n hn
      rw [hv]
      exact k2 r1 hr1

theorem as_complete_load_loop_inv {F : Int → Prop} (l : List region) :
    ∀ (m m1 : machine) (as as1 : addrspace) (L : List region),
    pt_wf as → (∀ r ∈ l, F r.old_flags) → pages_ok F as L →
    as_complete_load_loop l m as = some (m1, as1) →
    pt_wf as1 ∧ pages_ok F as1 L ∧ as1.as_region = as.as_region := by
  induction l with
  | nil =>
    intro m m1 as as1 L hwf _ hL h
    simp only [as_complete_load_loop, Option.some.injEq, Prod.mk.injEq] at h
    obtain ⟨_, h2⟩ := h
    subst h2
    exact ⟨hwf, hL, rfl⟩
  | cons r rest ih =>
    intro m m1 as as1 L hwf hfl hL h
    cases hp : load_page as r.vbase with
    | none =>
      simp only [as_complete_load_loop, hp] at h
      exact absurd h (by simp)
    | some pe =>
      obtain ⟨ptr, page⟩ := pe
      obtain ⟨_, hpa⟩ := load_page_elim _ _ _ _ hp
      have hc : ¬ (page.paddr ≠ USERSPACETOP ∧ Int.land r.old_flags PF_W = 0 ∧
          page.paddr &&& TLBLO_DIRTY = 1) := fun hh => and_dirty_ne_one _ hh.2.2
      simp only [as_complete_load_loop, hp, hc, if_false] at h
      have hfr := hfl r (List.mem_cons_self _ _)
      obtain ⟨k1, k2, k3⟩ := ih m m1 (write_page as ptr { page with flags := r.old_flags })
        as1 L (pt_wf_write_page as ptr page { page with flags := r.old_flags } hwf hpa rfl)
        (fun r1 hr1 => hfl r1 (List.mem_cons_of_mem _ hr1))
        (pages_ok_write_page as ptr page { page with flags := r.old_flags } hpa (fun _ => hfr)
          _ hL) h
      exact ⟨k1, k2, by rw [k3, write_page_as_region]⟩

theorem as_complete_load_region_inv {F : Int → Prop} (m m1 : machine) (as as1 : addrspace) (r : Int)
    (hinv : region_inv F as) (h : as_complete_load m as = some (r, m1, as1)) :
    region_inv F as1 := by
  obtain ⟨hwf, hfl, hpg⟩ := region_inv_elim as hinv
  unfold as_complete_load at h
  split at h
  · exact absurd h (by simp)
  · rename_i m2 as2 hl
    simp only [Option.some.injEq, Prod.mk.injEq] at h
    obtain ⟨_, _, h3⟩ := h
    rw [← h3]
    obtain ⟨k1, k2, k3⟩ := as_complete_load_loop_inv _ _ _ _ _ _ hwf hfl hpg hl
    refine region_inv_intro _ k1 ?_ ?_
    · rw [k3]
      exact hfl
    · rw [k3]
      exact k2

theorem or_valid_bit (x : Nat) : (x ||| TLBLO_VALID) &&& TLBLO_VALID ≠ 0 := by
  intro hz
  have h1 := congrArg (fun z => Nat.testBit z 9) hz
  simp only [Nat.testBit_and, Nat.testBit_or] at h1
  have h2 : Nat.testBit TLBLO_VALID 9 = true := by decide
  rw [h2] at h1
  simp at h1

theorem ensure_paddr_inv (kvaddr : Nat) (m m1 : machine) (e e1 : secondary_page_entry)
    (h : ensure_paddr kvaddr m e = some (m1, e1)) :
    e1.vaddr = e.vaddr ∧ e1.flags = e.flags ∧ e1.copy_on_write = e.copy_on_write ∧
    ((e.paddr ≠ USERSPACETOP ∧ e1 = e ∧ m1 = m) ∨
     (e.paddr = USERSPACETOP ∧ e1.paddr ≠ USERSPACETOP ∧ e1.paddr &&& TLBLO_VALID ≠ 0)) := by
  obtain ⟨v, p, c, f⟩ := e
  by_cases hp : p = USERSPACETOP
  · by_cases h0 : PADDR_TO_KVADDR (KVADDR_TO_PADDR kvaddr) = 0
    · simp only [ensure_paddr, hp, if_true, h0] at h
      exact absurd h (by simp)
    · by_cases hw : Int.land f PF_W ≠ 0
      · simp only [ensure_paddr, hp, if_true, h0, if_false, hw, or_valid_ne_sentinel, ne_eq,
          not_false_eq_true, Option.some.injEq, Prod.mk.injEq] at h
        obtain ⟨_, h2⟩ := h
        rw [← h2]
        exact ⟨rfl, rfl, rfl, Or.inr ⟨hp, or_valid_ne_sentinel _, or_valid_bit _⟩⟩
      · simp only [ensure_paddr, hp, if_true, h0, if_false, hw, or_valid_ne_sentinel, ne_eq,
          not_false_eq_true, Option.some.injEq, Prod.mk.injEq] at h
        obtain ⟨_, h2⟩ := h
        rw [← h2]
        exact ⟨rfl, rfl, rfl, Or.inr ⟨hp, or_valid_ne_sentinel _, or_valid_bit _⟩⟩
  · simp only [ensure_paddr, hp, if_false, Option.some.injEq, Prod.mk.injEq] at h
    obtain ⟨h1, h2⟩ := h
    rw [← h2]
    exact ⟨rfl, rfl, rfl, Or.inl ⟨hp, rfl, h1.symm⟩⟩

theorem vm_fault_cow_inv (kvaddr : Nat) (m m1 : machine) (e e1 : secondary_page_entry)
    (h : vm_fault_cow kvaddr m e = some (m1, e1)) :
    e1.vaddr = e.vaddr ∧ e1.flags = e.flags ∧ e1.copy_on_write = 0 ∧
    e.paddr ≠ USERSPACETOP ∧
    (e1.paddr = e.paddr ∨ e1.paddr = e.paddr ||| TLBLO_DIRTY ∨
      (e1.paddr ≠ USERSPACETOP ∧ e1.paddr &&& TLBLO_VALID ≠ 0)) := by
  by_cases hp : e.paddr = USERSPACETOP
  · simp only [vm_fault_cow, hp, if_true] at h
    exact absurd h (by simp)
  · by_cases hs : m.frame_table (e.paddr >>> 12) = 1
    · rw [vm_fault_cow_sole kvaddr m e hp hs] at h
      simp only [Option.some.injEq, Prod.mk.injEq] at h
      obtain ⟨_, h2⟩ := h
      rw [← h2]
      refine ⟨rfl, rfl, rfl, hp, ?_⟩
      by_cases hw : Int.land e.flags PF_W ≠ 0
      · rw [if_pos hw]
        exact Or.inr (Or.inl rfl)
      · rw [if_neg hw]
        exact Or.inl rfl
    · cases hens : ensure_paddr kvaddr m { e with paddr := USERSPACETOP } with
      | none =>
        simp only [vm_fault_cow, hp, if_false, hs, hens] at h
        exact absurd h (by simp)
      | some r =>
        rw [vm_fault_cow_shared kvaddr m e hp hs r hens] at h
        simp only [Option.some.injEq, Prod.mk.injEq] at h
        obtain ⟨_, h2⟩ := h
        rw [← h2]
        obtain ⟨r1, r2⟩ := r
        obtain ⟨k1, k2, _, k4⟩ := ensure_paddr_inv _ _ _ _ _ hens
        rcases k4 with ⟨k5, _, _⟩ | ⟨_, k6, k7⟩
        · exact absurd rfl k5
        · exact ⟨k1, k2, rfl, hp, Or.inr (Or.inr ⟨k6, k7⟩)⟩

theorem vm_fault_inv (as as1 : addrspace) (kvaddr slot : Nat) (m m1 : machine)
    (faulttype ret : Int) (faultaddress : Nat)
    (h : vm_fault (some (some as)) kvaddr slot m faulttype faultaddress
      = some (ret, m1, some (some as1))) :
    as1 = as ∨
    ∃ p e m2 e1, page_at as p = some e ∧ e.flags ≠ -1 ∧ as1 = write_page as p e1 ∧
      ((e.copy_on_write ≠ 0 ∧ vm_fault_cow kvaddr m e = some (m2, e1)) ∨
        ensure_paddr kvaddr m e = some (m2, e1)) := by
  unfold vm_fault at h
  simp only at h
  split at h
  · exact absurd h (by simp)
  · rename_i page hg
    split at h
    · exact absurd h (by simp)
    · simp only [Option.some.injEq, Prod.mk.injEq] at h
      exact Or.inl h.2.2.symm
    · split at h
      · simp only [Option.some.injEq, Prod.mk.injEq] at h
        exact Or.inl h.2.2.symm
      · rename_i p _
        split at h
        · exact absurd h (by simp)
        · rename_i e hpa
          split at h
          · simp only [Option.some.injEq, Prod.mk.injEq] at h
            exact Or.inl h.2.2.symm
          · rename_i hdef
            split at h
            · exact absurd h (by simp)
            · rename_i m2 e1 hres
              simp only [Option.some.injEq, Prod.mk.injEq] at h
              right
              refine ⟨p, e, m2, e1, hpa, hdef, h.2.2.symm, ?_⟩
              by_cases hc : e.copy_on_write ≠ 0 ∧
                  (faulttype = VM_FAULT_READONLY ∨ faulttype = VM_FAULT_WRITE)
              · rw [if_pos hc] at hres
                exact Or.inl ⟨hc.1, hres⟩
              · rw [if_neg hc] at hres
                exact Or.inr hres

theorem vm_fault_region_inv {F : Int → Prop}
    (as as1 : addrspace) (kvaddr slot : Nat) (m m1 : machine)
    (faulttype ret : Int) (faultaddress : Nat) (hinv : region_inv F as)
    (h : vm_fault (some (some as)) kvaddr slot m faulttype faultaddress
      = some (ret, m1, some (some as1))) : region_inv F as1 := by
  rcases vm_fault_inv _ _ _ _ _ _ _ _ _ h with heq | ⟨p, e, m2, e1, hpa, _, ha, hres⟩
  · rw [heq]
    exact hinv
  · obtain ⟨hwf, hfl, hpg⟩ := region_inv_elim as hinv
    have hfields : e1.vaddr = e.vaddr ∧ e1.flags = e.flags := by
      rcases hres with ⟨_, hc⟩ | he
      · obtain ⟨k1, k2, _⟩ := vm_fault_cow_inv _ _ _ _ _ hc
        exact ⟨k1, k2⟩
      · obtain ⟨k1, k2, _⟩ := ensure_paddr_inv _ _ _ _ _ he
        exact ⟨k1, k2⟩
    rw [ha]
    refine region_inv_intro _ (pt_wf_write_page _ _ _ _ hwf hpa hfields.1) ?_ ?_
    · rw [write_page_as_region]
      exact hfl
    · rw [write_page_as_region]
      exact pages_ok_write_page _ _ _ _ hpa (fun hh => hfields.2 ▸ hh) _ hpg

theorem as_copy_cases (m m1 : machine) (old old1 : addrspace) (r : Int)
    (nw : Option addrspace) (h : as_copy m old = some (r, m1, old1, nw)) :
    (old1 = old ∧ nw = none) ∨
    ∃ newas, nw = some newas ∧
      as_copy_loop old.as_region (kmalloc m).2 old
        { fresh_as with as_heap_start := old.as_heap_start, as_heap_end := old.as_heap_end }
        = some (m1, old1, newas) := by
  cases nw with
  | some newas =>
    right
    exact ⟨newas, rfl, (as_copy_inv m m1 old old1 newas r h).2.2⟩
  | none =>
    left
    unfold as_copy as_create at h
    cases hk : kmalloc m with
    | mk b m2 =>
      cases b with
      | false =>
        simp only [hk, Option.some.injEq, Prod.mk.injEq] at h
        exact ⟨h.2.2.1.symm, rfl⟩
      | true =>
        simp only [hk] at h
        split at h
        · exact absurd h (by simp)
        · simp only [Option.some.injEq, Prod.mk.injEq] at h
          exact absurd h.2.2.2 (by simp)

theorem as_copy_loop_inv {F : Int → Prop} (l : List region) :
    ∀ (m m1 : machine) (old old1 newas new1 : addrspace) (L : List region),
    pt_wf old → pages_ok F old L → pt_wf newas →
    as_copy_loop l m old newas = some (m1, old1, new1) →
    pt_wf old1 ∧ pages_ok F old1 L ∧ old1.as_region = old.as_region ∧ pt_wf new1 := by
  induction l with
  | nil =>
    intro m m1 old old1 newas new1 L hwf hL hwn h
    simp only [as_copy_loop, Option.some.injEq, Prod.mk.injEq] at h
    obtain ⟨_, h2, h3⟩ := h
    subst h2; subst h3
    exact ⟨hwf, hL, rfl, hwn⟩
  | cons cur rest ih =>
    intro m m1 old old1 newas new1 L hwf hL hwn h
    cases hs : as_copy_step cur m old newas with
    | none =>
      simp only [as_copy_loop, hs] at h
      exact absurd h (by simp)
    | some t =>
      obtain ⟨m2, old2, new2⟩ := t
      simp only [as_copy_loop, hs] at h
      obtain ⟨op, oe, m3, n1, hload, hadd, hc⟩ := as_copy_step_inv _ _ _ _ _ _ _ hs
      obtain ⟨_, hpa⟩ := load_page_elim _ _ _ _ hload
      have hwn1 := add_single_vaddr_page_pt_wf _ _ _ _ _ _ hwn hadd
      rcases hc with ⟨_, _, ho, hn⟩ | ⟨_, ne, m4, hne, _, _, ho, hn⟩
      · rw [ho, hn] at h
        exact ih _ _ _ _ _ _ L hwf hL hwn1 h
      · rw [ho, hn] at h
        obtain ⟨k1, k2, k3, k4⟩ := ih _ _ _ _ _ _ L
          (pt_wf_write_page old op oe
            { oe with copy_on_write := 1,
                      paddr := oe.paddr &&& ((WORD - 1) ^^^ TLBLO_DIRTY) } hwf hpa rfl)
          (pages_ok_write_page old op oe
            { oe with copy_on_write := 1,
                      paddr := oe.paddr &&& ((WORD - 1) ^^^ TLBLO_DIRTY) } hpa (fun hh => hh) _ hL)
          (pt_wf_write_page n1 (page_ptr cur.vbase) ne
            { ne with paddr := oe.paddr &&& ((WORD - 1) ^^^ TLBLO_DIRTY),
                      copy_on_write := 1 } hwn1 hne rfl) h
        exact ⟨k1, k2, by rw [k3, write_page_as_region], k4⟩

theorem as_copy_region_inv {F : Int → Prop} (m m1 : machine) (old old1 : addrspace) (r : Int)
    (nw : Option addrspace) (hinv : region_inv F old)
    (h : as_copy m old = some (r, m1, old1, nw)) :
    region_inv F old1 ∧ ∀ newas, nw = some newas → region_inv F newas := by
  obtain ⟨hwf, hfl, hpg⟩ := region_inv_elim old hinv
  rcases as_copy_cases _ _ _ _ _ _ h with ⟨h1, h2⟩ | ⟨newas, h1, hl⟩
  · rw [h1, h2]
    exact ⟨hinv, fun _ hh => absurd hh (by simp)⟩
  · have hwn : ∀ x : addrspace, x.page_table = fresh_as.page_table → pt_wf x :=
      fun x hx => pt_wf_congr fresh_as x hx pt_wf_fresh_as
    obtain ⟨k1, k2, k3, k4⟩ := as_copy_loop_inv _ _ _ _ _ _ _ _ hwf hpg (hwn _ (by rfl)) hl
    refine ⟨region_inv_intro _ k1 ?_ ?_, ?_⟩
    · rw [k3]
      exact hfl
    · rw [k3]
      exact k2
    · intro n hn
      rw [h1] at hn
      simp only [Option.some.injEq] at hn
      rw [← hn]
      have hr : newas.as_region = [] := by
        rw [as_copy_loop_new_region _ _ _ _ _ _ _ hl]
        rfl
      refine region_inv_intro _ k4 ?_ ?_
      · rw [hr]
        intro r1 hr1
        exact absurd hr1 (List.not_mem_nil _)
      · rw [hr]
        intro r1 hr1
        exact absurd hr1 (List.not_mem_nil _)

theorem sys_sbrk_shape (m m1 : machine) (as as1 : addrspace) (amount r : Int) (rv : Option Nat)
    (h : sys_sbrk m as amount = some (r, rv, m1, as1)) :
    ∃ as2, as1.page_table = as2.page_table ∧ as1.as_region = as2.as_region ∧
      as1.as_heap_start = as2.as_heap_start ∧
      (as2 = as ∨
        (∃ b s ret m2, as_define_region_noheap m as b s PF_R PF_W PF_X = some (ret, m2, as2)) ∨
        (∃ b s m2, as_remove_region m as b s = some (m2, as2))) := by
  unfold sys_sbrk at h
  simp only at h
  split at h
  · simp only [Option.some.injEq, Prod.mk.injEq] at h
    exact ⟨as, by rw [← h.2.2.2], by rw [← h.2.2.2], by rw [← h.2.2.2], Or.inl rfl⟩
  · split at h
    · simp only [Option.some.injEq, Prod.mk.injEq] at h
      exact ⟨as, by rw [← h.2.2.2], by rw [← h.2.2.2], by rw [← h.2.2.2], Or.inl rfl⟩
    · split at h
      · simp only [Option.some.injEq, Prod.mk.injEq] at h
        exact ⟨as, by rw [← h.2.2.2], by rw [← h.2.2.2], by rw [← h.2.2.2], Or.inl rfl⟩
      · split at h
        · split at h
          · split at h
            · exact absurd h (by simp)
            · rename_i r0 m2 as2 hd
              simp only [Option.some.injEq, Prod.mk.injEq] at h
              exact ⟨as2, by rw [← h.2.2.2], by rw [← h.2.2.2], by rw [← h.2.2.2],
                Or.inr (Or.inl ⟨_, _, r0, m2, hd⟩)⟩
          · simp only [Option.some.injEq, Prod.mk.injEq] at h
            exact ⟨as, by rw [← h.2.2.2], by rw [← h.2.2.2], by rw [← h.2.2.2], Or.inl rfl⟩
        · split at h
          · split at h
            · exact absurd h (by simp)
            · rename_i m2 as2 hd
              simp only [Option.some.injEq, Prod.mk.injEq] at h
              exact ⟨as2, by rw [← h.2.2.2], by rw [← h.2.2.2], by rw [← h.2.2.2],
                Or.inr (Or.inr ⟨_, _, m2, hd⟩)⟩
          · simp only [Option.some.injEq, Prod.mk.injEq] at h
            exact ⟨as, by rw [← h.2.2.2], by rw [← h.2.2.2], by rw [← h.2.2.2], Or.inl rfl⟩

theorem sys_sbrk_region_inv {F : Int → Prop} (m m1 : machine) (as as1 : addrspace) (amount r : Int)
    (rv : Option Nat) (hF : perm_closed F) (hinv : region_inv F as)
    (h : sys_sbrk m as amount = some (r, rv, m1, as1)) : region_inv F as1 := by
  obtain ⟨as2, hp, hr, _, hc⟩ := sys_sbrk_shape _ _ _ _ _ _ _ h
  refine region_inv_congr as2 as1 hp hr ?_
  rcases hc with heq | ⟨b, s, ret, m2, hd⟩ | ⟨b, s, m2, hd⟩
  · rw [heq]
    exact hinv
  · exact as_define_region_noheap_region_inv _ _ _ _ _ _ _ _ _ _ hF hF.2.1 hF.2.2.1 hF.2.2.2.1
      hinv hd
  · exact as_remove_region_region_inv _ _ _ _ _ _ hinv hd

theorem region_inv_fresh {F : Int → Prop}
    (m m1 : machine) (as : addrspace) (h : as_create m = (m1, some as)) :
    region_inv F as := by
  unfold as_create at h
  cases hk : kmalloc m with
  | mk b m2 =>
    cases b with
    | false =>
      simp only [hk, Prod.mk.injEq] at h
      exact absurd h.2 (by simp)
    | true =>
      simp only [hk, Prod.mk.injEq, Option.some.injEq] at h
      rw [← h.2]
      refine region_inv_intro _ pt_wf_fresh_as ?_ ?_
      · intro r hr
        exact absurd hr (List.not_mem_nil _)
      · intro r hr
        exact absurd hr (List.not_mem_nil _)

theorem reachable_region_inv {F : Int → Prop} (hF : perm_closed F) (Q : addrspace → Prop)
    (as : addrspace) (h : reachable F Q as) : region_inv F as := by
  induction h with
  | create m m1 as hc => exact region_inv_fresh m m1 as hc
  | define_region m m1 as as1 vaddr memsize rd wr ex ret _ hrd hwr hex hd ih =>
    exact as_define_region_region_inv _ _ _ _ _ _ _ _ _ _ hF hrd hwr hex ih hd
  | define_region_noheap m m1 as as1 vaddr memsize rd wr ex ret _ hrd hwr hex hd ih =>
    exact as_define_region_noheap_region_inv _ _ _ _ _ _ _ _ _ _ hF hrd hwr hex ih hd
  | define_stack m m1 as as1 stack_size ret sp _ hd ih =>
    exact as_define_stack_region_inv _ _ _ _ _ _ _ hF ih hd
  | remove_region m m1 as as1 vaddr memsize _ hd ih =>
    exact as_remove_region_region_inv _ _ _ _ _ _ ih hd
  | prepare_load m m1 as as1 ret _ _ hd ih =>
    exact as_prepare_load_region_inv _ _ _ _ _ hF ih hd
  | complete_load m m1 as as1 ret _ hd ih =>
    exact as_complete_load_region_inv _ _ _ _ _ ih hd
  | sbrk m m1 as as1 amount ret rv _ hd ih =>
    exact sys_sbrk_region_inv _ _ _ _ _ _ _ hF ih hd
  | fault m m1 as as1 kvaddr slot faulttype ret faultaddress _ hd ih =>
    exact vm_fault_region_inv _ _ _ _ _ _ _ _ _ ih hd
  | copy_old m m1 old old1 ret newas _ hd ih =>
    exact (as_copy_region_inv _ _ _ _ _ _ ih hd).1
  | copy_new m m1 old old1 newas ret _ hd ih =>
    exact (as_copy_region_inv _ _ _ _ _ _ ih hd).2 newas rfl

theorem page_at_write_page_cases (as : addrspace) (p q : Nat × Nat)
    (e1 e : secondary_page_entry) (h : page_at (write_page as p e1) q = some e) :
    e = e1 ∨ page_at as q = some e := by
  by_cases hq : q = p
  · cases hp : page_at as p with
    | none =>
      right
      have hw : write_page as p e1 = as := by
        unfold page_at at hp
        unfold write_page
        cases ht : (as.page_table p.1).target with
        | none => rfl
        | some t =>
          rw [ht] at hp
          exact absurd hp (by simp)
      rw [hw] at h
      exact h
    | some e0 =>
      left
      rw [hq, page_at_write_page_same _ _ _ _ hp] at h
      simp only [Option.some.injEq] at h
      exact h.symm
  · right
    rw [page_at_write_page_other _ _ _ _ hq] at h
    exact h

theorem entries_all_write_page (K : secondary_page_entry → Prop) (as : addrspace)
    (p : Nat × Nat) (e1 : secondary_page_entry) (h : entries_all K as) (h1 : K e1) :
    entries_all K (write_page as p e1) := by
  intro q e he
  rcases page_at_write_page_cases _ _ _ _ _ he with heq | hold
  · rw [heq]
    exact h1
  · exact h q e hold

theorem entries_all_congr (K : secondary_page_entry → Prop) (as as1 : addrspace)
    (hp : as1.page_table = as.page_table) (h : entries_all K as) : entries_all K as1 := by
  intro q e he
  rw [page_at_congr as as1 hp] at he
  exact h q e he

theorem add_single_vaddr_page_entries_all (K : secondary_page_entry → Prop)
    (hK : entry_closed K) (m m1 : machine) (as as1 : addrspace) (a : Nat) (f : Int)
    (h : add_single_vaddr_page m as a f = some (m1, as1)) (hall : entries_all K as) :
    entries_all K as1 := by
  obtain ⟨_, hc⟩ := add_single_vaddr_page_inv _ _ _ _ _ _ h
  rcases hc with ⟨t, ht, _, _, ha⟩ | ⟨_, _, _, ha⟩
  · rw [ha]
    exact entries_all_write_page K _ _ _ hall
      (hK.2.1 _ f (hall _ _ (page_at_of_target as (page_ptr a) t ht)))
  · rw [ha]
    refine entries_all_write_page K _ _ _ ?_ (hK.2.1 _ f (hK.1 _ _))
    intro q e he
    rw [page_at_install_table] at he
    by_cases hq : q.1 = (page_ptr a).1
    · rw [if_pos hq] at he
      simp only [Option.some.injEq] at he
      rw [← he]
      exact hK.1 _ _
    · rw [if_neg hq] at he
      exact hall q e he

theorem define_pages_entries_all (K : secondary_page_entry → Prop) (hK : entry_closed K)
    (flags : Int) (vaddr : Nat) (n : Nat) :
    ∀ (i : Nat) (m m1 : machine) (as as1 : addrspace) (r : Int),
    entries_all K as → define_pages flags vaddr n i m as = some (r, m1, as1) →
    entries_all K as1 := by
  induction n with
  | zero =>
    intro i m m1 as as1 r hall h
    simp only [define_pages, Option.some.injEq, Prod.mk.injEq] at h
    obtain ⟨_, _, h3⟩ := h
    subst h3
    exact hall
  | succ n ih =>
    intro i m m1 as as1 r hall h
    cases ha : add_single_vaddr_page m as ((vaddr + i) % WORD) flags with
    | none =>
      simp only [define_pages, ha] at h
      exact absurd h (by simp)
    | some p =>
      obtain ⟨m2, as2⟩ := p
      have hall2 := add_single_vaddr_page_entries_all K hK _ _ _ _ _ _ ha hall
      cases hk : kmalloc m2 with
      | mk b m3 =>
        cases b with
        | false =>
          simp only [define_pages, ha, hk, Option.some.injEq, Prod.mk.injEq] at h
          obtain ⟨_, _, h3⟩ := h
          subst h3
          exact hall2
        | true =>
          simp only [define_pages, ha, hk] at h
          exact ih _ _ _ _ _ _ (entries_all_congr K as2 _ (by rfl) hall2) h

theorem as_define_region_noheap_entries_all (K : secondary_page_entry → Prop)
    (hK : entry_closed K) (m m1 : machine) (as as1 : addrspace) (vaddr memsize : Nat)
    (rd wr ex r : Int) (hall : entries_all K as)
    (h : as_define_region_noheap m as vaddr memsize rd wr ex = some (r, m1, as1)) :
    entries_all K as1 := by
  rw [as_define_region_noheap_eq] at h
  exact define_pages_entries_all K hK _ _ _ _ _ _ _ _ _ hall h

theorem as_define_region_entries_all (K : secondary_page_entry → Prop)
    (hK : entry_closed K) (m m1 : machine) (as as1 : addrspace) (vaddr memsize : Nat)
    (rd wr ex r : Int) (hall : entries_all K as)
    (h : as_define_region m as vaddr memsize rd wr ex = some (r, m1, as1)) :
    entries_all K as1 := by
  rw [as_define_region_eq] at h
  refine define_pages_entries_all K hK _ _ _ _ _ _ _ _ _ ?_ h
  by_cases hw : wr ≠ 0
  · rw [if_pos hw]
    exact entries_all_congr K as _ rfl hall
  · rw [if_neg hw]
    exact hall

theorem as_define_stack_entries_all (K : secondary_page_entry → Prop)
    (hK : entry_closed K) (stack_size : Nat) (m m1 : machine) (as as1 : addrspace)
    (r : Int) (sp : Option Nat) (hall : entries_all K as)
    (h : as_define_stack stack_size m as = some (r, sp, m1, as1)) : entries_all K as1 := by
  unfold as_define_stack at h
  split at h
  · exact absurd h (by simp)
  · rename_i err m2 as2 hd
    have hall2 := as_define_region_noheap_entries_all K hK _ _ _ _ _ _ _ _ _ _ hall hd
    split at h
    · simp only [Option.some.injEq, Prod.mk.injEq] at h
      obtain ⟨_, _, _, h4⟩ := h
      rw [← h4]
      exact hall2
    · simp only [Option.some.injEq, Prod.mk.injEq] at h
      obtain ⟨_, _, _, h4⟩ := h
      rw [← h4]
      exact hall2

theorem as_remove_region_entries_all (K : secondary_page_entry → Prop)
    (m m1 : machine) (as as1 : addrspace) (vaddr memsize : Nat) (hall : entries_all K as)
    (h : as_remove_region m as vaddr memsize = some (m1, as1)) : entries_all K as1 := by
  unfold as_remove_region at h
  split at h
  · exact absurd h (by simp)
  · simp only [Option.some.injEq, Prod.mk.injEq] at h
    obtain ⟨_, h2⟩ := h
    rw [← h2]
    exact entries_all_congr K as _ rfl hall

theorem as_complete_load_loop_entries_all (K : secondary_page_entry → Prop)
    (hK : entry_closed K) (l : List region) :
    ∀ (m m1 : machine) (as as1 : addrspace),
    entries_all K as → as_complete_load_loop l m as = some (m1, as1) → entries_all K as1 := by
  induction l with
  | nil =>
    intro m m1 as as1 hall h
    simp only [as_complete_load_loop, Option.some.injEq, Prod.mk.injEq] at h
    obtain ⟨_, h2⟩ := h
    subst h2
    exact hall
  | cons r rest ih =>
    intro m m1 as as1 hall h
    cases hp : load_page as r.vbase with
    | none =>
      simp only [as_complete_load_loop, hp] at h
      exact absurd h (by simp)
    | some pe =>
      obtain ⟨ptr, page⟩ := pe
      obtain ⟨_, hpa⟩ := load_page_elim _ _ _ _ hp
      have hc : ¬ (page.paddr ≠ USERSPACETOP ∧ Int.land r.old_flags PF_W = 0 ∧
          page.paddr &&& TLBLO_DIRTY = 1) := fun hh => and_dirty_ne_one _ hh.2.2
      simp only [as_complete_load_loop, hp, hc, if_false] at h
      exact ih m m1 (write_page as ptr { page with flags := r.old_flags }) as1
        (entries_all_write_page K as ptr { page with flags := r.old_flags } hall
          (hK.2.1 page r.old_flags (hall ptr page hpa))) h

theorem as_complete_load_entries_all (K : secondary_page_entry → Prop)
    (hK : entry_closed K) (m m1 : machine) (as as1 : addrspace) (r : Int)
    (hall : entries_all K as) (h : as_complete_load m as = some (r, m1, as1)) :
    entries_all K as1 := by
  unfold as_complete_load at h
  split at h
  · exact absurd h (by simp)
  · rename_i m2 as2 hl
    simp only [Option.some.injEq, Prod.mk.injEq] at h
    obtain ⟨_, _, h3⟩ := h
    rw [← h3]
    exact as_complete_load_loop_entries_all K hK _ _ _ _ _ hall hl

theorem vm_fault_entries_all (K : secondary_page_entry → Prop) (hK : entry_closed K)
    (as as1 : addrspace) (kvaddr slot : Nat) (m m1 : machine)
    (faulttype ret : Int) (faultaddress : Nat) (hall : entries_all K as)
    (h : vm_fault (some (some as)) kvaddr slot m faulttype faultaddress
      = some (ret, m1, some (some as1))) : entries_all K as1 := by
  rcases vm_fault_inv _ _ _ _ _ _ _ _ _ h with heq | ⟨p, e, m2, e1, hpa, _, ha, hres⟩
  · rw [heq]
    exact hall
  · rw [ha]
    refine entries_all_write_page K as p e1 hall ?_
    rcases hres with ⟨hc, hcow⟩ | hens
    · exact hK.2.2.2.1 _ _ _ _ _ (hall p e hpa) hc hcow
    · exact hK.2.2.1 _ _ _ _ _ (hall p e hpa) hens

theorem as_copy_loop_entries_all (K : secondary_page_entry → Prop) (hK : entry_closed K)
    (l : List region) :
    ∀ (m m1 : machine) (old old1 newas new1 : addrspace),
    entries_all K old → entries_all K newas →
    as_copy_loop l m old newas = some (m1, old1, new1) →
    entries_all K old1 ∧ entries_all K new1 := by
  induction l with
  | nil =>
    intro m m1 old old1 newas new1 ho hn h
    simp only [as_copy_loop, Option.some.injEq, Prod.mk.injEq] at h
    obtain ⟨_, h2, h3⟩ := h
    subst h2; subst h3
    exact ⟨ho, hn⟩
  | cons cur rest ih =>
    intro m m1 old old1 newas new1 ho hn h
    cases hs : as_copy_step cur m old newas with
    | none =>
      simp only [as_copy_loop, hs] at h
      exact absurd h (by simp)
    | some t =>
      obtain ⟨m2, old2, new2⟩ := t
      simp only [as_copy_loop, hs] at h
      obtain ⟨op, oe, m3, n1, hload, hadd, hc⟩ := as_copy_step_inv _ _ _ _ _ _ _ hs
      obtain ⟨_, hpa⟩ := load_page_elim _ _ _ _ hload
      have hn1 := add_single_vaddr_page_entries_all K hK _ _ _ _ _ _ hadd hn
      rcases hc with ⟨_, _, ho2, hn2⟩ | ⟨hframe, ne, m4, hne, _, _, ho2, hn2⟩
      · rw [ho2, hn2] at h
        exact ih _ _ _ _ _ _ ho hn1 h
      · rw [ho2, hn2] at h
        have hKo := ho op oe hpa
        refine ih _ _ _ _ _ _ ?_ ?_ h
        · exact entries_all_write_page K old op _ ho (hK.2.2.2.2 oe oe hKo hKo hframe)
        · exact entries_all_write_page K n1 _ _ hn1
            (hK.2.2.2.2 oe ne hKo (hn1 _ ne hne) hframe)

theorem as_copy_entries_all (K : secondary_page_entry → Prop) (hK : entry_closed K)
    (m m1 : machine) (old old1 : addrspace) (r : Int) (nw : Option addrspace)
    (hall : entries_all K old) (h : as_copy m old = some (r, m1, old1, nw)) :
    entries_all K old1 ∧ ∀ newas, nw = some newas → entries_all K newas := by
  rcases as_copy_cases _ _ _ _ _ _ h with ⟨h1, h2⟩ | ⟨newas, h1, hl⟩
  · rw [h1, h2]
    exact ⟨hall, fun _ hh => absurd hh (by simp)⟩
  · have hfresh : ∀ x : addrspace, x.page_table = fresh_as.page_table → entries_all K x := by
      intro x hx q e he
      rw [page_at_congr fresh_as x hx] at he
      have hn : page_at fresh_as q = none := rfl
      rw [hn] at he
      exact absurd he (by simp)
    obtain ⟨k1, k2⟩ := as_copy_loop_entries_all K hK _ _ _ _ _ _ _ hall (hfresh _ (by rfl)) hl
    refine ⟨k1, ?_⟩
    intro n hn
    rw [h1] at hn
    simp only [Option.some.injEq] at hn
    rw [← hn]
    exact k2

theorem sys_sbrk_entries_all (K : secondary_page_entry → Prop) (hK : entry_closed K)
    (m m1 : machine) (as as1 : addrspace) (amount r : Int) (rv : Option Nat)
    (hall : entries_all K as) (h : sys_sbrk m as amount = some (r, rv, m1, as1)) :
    entries_all K as1 := by
  obtain ⟨as2, hp, _, _, hc⟩ := sys_sbrk_shape _ _ _ _ _ _ _ h
  refine entries_all_congr K as2 as1 hp ?_
  rcases hc with heq | ⟨b, s, ret, m2, hd⟩ | ⟨b, s, m2, hd⟩
  · rw [heq]
    exact hall
  · exact as_define_region_noheap_entries_all K hK _ _ _ _ _ _ _ _ _ _ hall hd
  · exact as_remove_region_entries_all K _ _ _ _ _ _ hall hd

theorem reachable_entries_all (K : secondary_page_entry → Prop) (hK : entry_closed K)
    (P : Int → Prop) (Q : addrspace → Prop)
    (hprep : ∀ (m m1 : machine) (as as1 : addrspace) (r : Int), Q as → entries_all K as →
      as_prepare_load m as = some (r, m1, as1) → entries_all K as1)
    (as : addrspace) (h : reachable P Q as) : entries_all K as := by
  induction h with
  | create m m1 as hc =>
    unfold as_create at hc
    cases hk : kmalloc m with
    | mk b m2 =>
      cases b with
      | false =>
        simp only [hk, Prod.mk.injEq] at hc
        exact absurd hc.2 (by simp)
      | true =>
        simp only [hk, Prod.mk.injEq, Option.some.injEq] at hc
        rw [← hc.2]
        intro q e he
        exact absurd he (by simp [page_at])
  | define_region m m1 as as1 vaddr memsize rd wr ex ret _ _ _ _ hd ih =>
    exact as_define_region_entries_all K hK _ _ _ _ _ _ _ _ _ _ ih hd
  | define_region_noheap m m1 as as1 vaddr memsize rd wr ex ret _ _ _ _ hd ih =>
    exact as_define_region_noheap_entries_all K hK _ _ _ _ _ _ _ _ _ _ ih hd
  | define_stack m m1 as as1 stack_size ret sp _ hd ih =>
    exact as_define_stack_entries_all K hK _ _ _ _ _ _ _ ih hd
  | remove_region m m1 as as1 vaddr memsize _ hd ih =>
    exact as_remove_region_entries_all K _ _ _ _ _ _ ih hd
  | prepare_load m m1 as as1 ret _ hq hd ih =>
    exact hprep _ _ _ _ _ hq ih hd
  | complete_load m m1 as as1 ret _ hd ih =>
    exact as_complete_load_entries_all K hK _ _ _ _ _ ih hd
  | sbrk m m1 as as1 amount ret rv _ hd ih =>
    exact sys_sbrk_entries_all K hK _ _ _ _ _ _ _ ih hd
  | fault m m1 as as1 kvaddr slot faulttype ret faultaddress _ hd ih =>
    exact vm_fault_entries_all K hK _ _ _ _ _ _ _ _ _ ih hd
  | copy_old m m1 old old1 ret newas _ hd ih =>
    exact (as_copy_entries_all K hK _ _ _ _ _ _ ih hd).1
  | copy_new m m1 old old1 newas ret _ hd ih =>
    exact (as_copy_entries_all K hK _ _ _ _ _ _ ih hd).2 newas rfl

theorem valid_bit_iff (x : Nat) : x &&& TLBLO_VALID ≠ 0 ↔ x.testBit 9 = true := by
  have h : TLBLO_VALID = 2 ^ 9 := by decide
  rw [h, Nat.and_two_pow]
  cases x.testBit 9 <;> simp

theorem top_no_valid_bit (x : Nat) (h : x &&& TLBLO_VALID ≠ 0) : x ≠ USERSPACETOP := by
  intro hx
  rw [hx] at h
  exact h (by decide)

theorem or_dirty_valid (x : Nat) (h : x &&& TLBLO_VALID ≠ 0) :
    (x ||| TLBLO_DIRTY) &&& TLBLO_VALID ≠ 0 := by
  rw [valid_bit_iff] at h ⊢
  rw [Nat.testBit_or, h]
  rfl

theorem clear_dirty_valid (x : Nat) (h : x &&& TLBLO_VALID ≠ 0) :
    (x &&& ((WORD - 1) ^^^ TLBLO_DIRTY)) &&& TLBLO_VALID ≠ 0 ∧
    (x &&& ((WORD - 1) ^^^ TLBLO_DIRTY)) &&& TLBLO_DIRTY = 0 := by
  have h1 : ((WORD - 1) ^^^ TLBLO_DIRTY) &&& TLBLO_DIRTY = 0 := by decide
  have h2 : ((WORD - 1) ^^^ TLBLO_DIRTY) &&& TLBLO_VALID = TLBLO_VALID := by decide
  rw [Nat.and_assoc, Nat.and_assoc, h1, h2, Nat.and_zero]
  exact ⟨h, rfl⟩

theorem word_ok_frame (x : Nat) (h : word_ok x) (hne : x ≠ USERSPACETOP) :
    x &&& TLBLO_VALID ≠ 0 := by
  rcases h with h | h
  · exact absurd h hne
  · exact h

theorem entry_closed_cow_ok : entry_closed cow_ok := by
  refine ⟨?_, ?_, ?_, ?_, ?_⟩
  · intro a b
    exact ⟨Or.inl rfl, fun h => absurd rfl h⟩
  · intro e f h
    exact h
  · intro kv m m1 e e1 h hens
    obtain ⟨_, _, hcow, hc⟩ := ensure_paddr_inv _ _ _ _ _ hens
    rcases hc with ⟨_, heq, _⟩ | ⟨htop, hne, hv⟩
    · rw [heq]
      exact h
    · refine ⟨Or.inr hv, ?_⟩
      intro hc1
      rw [hcow] at hc1
      exact absurd htop (h.2 hc1).1
  · intro kv m m1 e e1 h _ hcow
    obtain ⟨_, _, hc0, hne, hp⟩ := vm_fault_cow_inv _ _ _ _ _ hcow
    refine ⟨?_, fun hc1 => absurd hc0 hc1⟩
    rcases hp with hp | hp | ⟨_, hv⟩
    · rw [hp]
      exact h.1
    · rw [hp]
      exact Or.inr (or_dirty_valid _ (word_ok_frame _ h.1 hne))
    · exact Or.inr hv
  · intro e e1 h _ hne
    obtain ⟨k1, k2⟩ := clear_dirty_valid _ (word_ok_frame _ h.1 hne)
    exact ⟨Or.inr k1, fun _ => ⟨top_no_valid_bit _ k1, k2⟩⟩

theorem as_prepare_load_loop_entries_all (K : secondary_page_entry → Prop)
    (hfl : ∀ e f, K e → K { e with flags := f })
    (hpr : ∀ e f, K e → e.paddr ≠ USERSPACETOP →
      K { e with flags := f, paddr := e.paddr ||| TLBLO_DIRTY })
    (l : List region) :
    ∀ (m m1 : machine) (as as1 : addrspace) (nodes : List region),
    entries_all K as → as_prepare_load_loop l m as = some (m1, as1, nodes) →
    entries_all K as1 := by
  induction l with
  | nil =>
    intro m m1 as as1 nodes hall h
    simp only [as_prepare_load_loop, Option.some.injEq, Prod.mk.injEq] at h
    obtain ⟨_, h2, _⟩ := h
    subst h2
    exact hall
  | cons r rest ih =>
    intro m m1 as as1 nodes hall h
    cases hp : load_page as r.vbase with
    | none =>
      simp only [as_prepare_load_loop, hp] at h
      exact absurd h (by simp)
    | some pe =>
      obtain ⟨ptr, page⟩ := pe
      obtain ⟨_, hpa⟩ := load_page_elim _ _ _ _ hp
      have hKp := hall ptr page hpa
      by_cases hc : page.paddr ≠ USERSPACETOP ∧ page.paddr &&& TLBLO_DIRTY = 0
      · simp only [as_prepare_load_loop, hp, hc, and_self, if_true, ne_eq,
          not_false_eq_true] at h
        split at h
        · exact absurd h (by simp)
        · rename_i m2 as2 nodes0 hrec
          simp only [Option.some.injEq, Prod.mk.injEq] at h
          obtain ⟨_, h2, _⟩ := h
          subst h2
          exact ih _ _ _ _ _
            (entries_all_write_page K as ptr
              { page with flags := Int.lor page.flags PF_W,
                          paddr := page.paddr ||| TLBLO_DIRTY } hall
              (hpr page (Int.lor page.flags PF_W) hKp hc.1)) hrec
      · simp only [as_prepare_load_loop, hp, hc, if_false] at h
        split at h
        · exact absurd h (by simp)
        · rename_i m2 as2 nodes0 hrec
          simp only [Option.some.injEq, Prod.mk.injEq] at h
          obtain ⟨_, h2, _⟩ := h
          subst h2
          exact ih _ _ _ _ _
            (entries_all_write_page K as ptr { page with flags := Int.lor page.flags PF_W } hall
              (hfl page (Int.lor page.flags PF_W) hKp)) hrec

theorem as_prepare_load_cow_ok (m m1 : machine) (as as1 : addrspace) (r : Int)
    (hq : no_cow as) (hall : entries_all cow_ok as)
    (h : as_prepare_load m as = some (r, m1, as1)) : entries_all cow_ok as1 := by
  unfold as_prepare_load at h
  split at h
  · exact absurd h (by simp)
  · rename_i m2 as2 nodes hl
    simp only [Option.some.injEq, Prod.mk.injEq] at h
    obtain ⟨_, _, h3⟩ := h
    rw [← h3]
    have hboth : entries_all (fun e => cow_ok e ∧ e.copy_on_write = 0) as :=
      fun q e he => ⟨hall q e he, hq q e he⟩
    have hres := as_prepare_load_loop_entries_all (fun e => cow_ok e ∧ e.copy_on_write = 0)
      (fun e f hk => hk)
      (fun e f hk hne =>
        ⟨⟨Or.inr (or_dirty_valid _ (word_ok_frame _ hk.1.1 hne)), fun hc => absurd hk.2 hc⟩,
          hk.2⟩)
      _ _ _ _ _ _ hboth hl
    exact entries_all_congr cow_ok as2 _ (by rfl) (fun q e he => (hres q e he).1)

theorem reachable_cow_ok (P : Int → Prop) (as : addrspace) (h : reachable P no_cow as) :
    entries_all cow_ok as :=
  reachable_entries_all cow_ok entry_closed_cow_ok P no_cow
    (fun m m1 as as1 r hq hall hp => as_prepare_load_cow_ok m m1 as as1 r hq hall hp) as h

theorem reachable_mono (P P1 : Int → Prop) (Q Q1 : addrspace → Prop)
    (hP : ∀ x, P x → P1 x) (hQ : ∀ a, Q a → Q1 a) (as : addrspace) (h : reachable P Q as) :
    reachable P1 Q1 as := by
  induction h with
  | create m m1 as hc => exact reachable.create m m1 as hc
  | define_region m m1 as as1 vaddr memsize rd wr ex ret _ hrd hwr hex hd ih =>
    exact reachable.define_region m m1 as as1 vaddr memsize rd wr ex ret ih (hP _ hrd)
      (hP _ hwr) (hP _ hex) hd
  | define_region_noheap m m1 as as1 vaddr memsize rd wr ex ret _ hrd hwr hex hd ih =>
    exact reachable.define_region_noheap m m1 as as1 vaddr memsize rd wr ex ret ih (hP _ hrd)
      (hP _ hwr) (hP _ hex) hd
  | define_stack m m1 as as1 stack_size ret sp _ hd ih =>
    exact reachable.define_stack m m1 as as1 stack_size ret sp ih hd
  | remove_region m m1 as as1 vaddr memsize _ hd ih =>
    exact reachable.remove_region m m1 as as1 vaddr memsize ih hd
  | prepare_load m m1 as as1 ret _ hq hd ih =>
    exact reachable.prepare_load m m1 as as1 ret ih (hQ _ hq) hd
  | complete_load m m1 as as1 ret _ hd ih =>
    exact reachable.complete_load m m1 as as1 ret ih hd
  | sbrk m m1 as as1 amount ret rv _ hd ih =>
    exact reachable.sbrk m m1 as as1 amount ret rv ih hd
  | fault m m1 as as1 kvaddr slot faulttype ret faultaddress _ hd ih =>
    exact reachable.fault m m1 as as1 kvaddr slot faulttype ret faultaddress ih hd
  | copy_old m m1 old old1 ret newas _ hd ih =>
    exact reachable.copy_old m m1 old old1 ret newas ih hd
  | copy_new m m1 old old1 newas ret _ hd ih =>
    exact reachable.copy_new m m1 old old1 newas ret ih hd

theorem perm_closed_flags_ok : perm_closed flags_ok :=
  ⟨flags_ok_lor, ⟨by decide, by decide⟩, ⟨by decide, by decide⟩, ⟨by decide, by decide⟩,
    ⟨by decide, by decide⟩⟩

theorem reachable_pt_wf (P : Int → Prop) (Q : addrspace → Prop) (as : addrspace)
    (h : reachable P Q as) : pt_wf as :=
  (reachable_region_inv
    (⟨fun _ _ _ _ => trivial, trivial, trivial, trivial, trivial⟩ :
      perm_closed (fun _ => True)) Q as
    (reachable_mono P (fun _ => True) Q Q (fun _ _ => trivial) (fun _ hq => hq) as h)).1

theorem load_page_of_entry (as : addrspace) (v : Nat) (e : secondary_page_entry)
    (hwf : pt_wf as) (h : page_at as (page_ptr v) = some e) :
    get_page as v = some (some (page_ptr v)) ∧ load_page as v = some (page_ptr v, e) := by
  have hg : get_page as v = some (some (page_ptr v)) := by
    rw [get_page_wf as hwf]
    unfold page_at at h
    cases ht : (as.page_table (page_ptr v).1).target with
    | none =>
      rw [ht] at h
      exact absurd h (by simp)
    | some t => rfl
  exact ⟨hg, load_page_intro as v _ e hg h⟩

/-- C23: in every address space reachable from `as_create` through
`as_define_region`, `as_define_region_noheap` (permission arguments within
`PF_R | PF_W | PF_X`), `as_define_stack`, `as_remove_region`, `as_prepare_load`,
`as_complete_load`, `sys_sbrk`, `vm_fault` and `as_copy` (the old and the new
address space alike), on any machine states and with any other arguments,
`get_page` on the `vbase` of every region node returns a non-null pointer to an
entry whose flags are permission bits, hence not -1; so the dereference
`load_page` that `as_copy`, `as_destroy`, `as_remove_region`, `as_prepare_load`
and `as_complete_load` perform without a null check finds an entry. -/
theorem region_nodes_have_entries (Q : addrspace → Prop) (as : addrspace)
    (h : reachable flags_ok Q as) :
    ∀ r ∈ as.as_region, ∃ e, get_page as r.vbase = some (some (page_ptr r.vbase)) ∧
      load_page as r.vbase = some (page_ptr r.vbase, e) ∧ e.flags ≠ -1 ∧ flags_ok e.flags := by
  obtain ⟨hwf, hn⟩ := reachable_region_inv perm_closed_flags_ok Q as h
  intro r hr
  obtain ⟨_, e, he, hf⟩ := hn r hr
  obtain ⟨h1, h2⟩ := load_page_of_entry as r.vbase e hwf he
  exact ⟨e, h1, h2, flags_ok_ne _ hf, hf⟩

theorem region_nodes_have_entries_witness :
    data_written_as.as_region = [{ vbase := 0x10000000, old_flags := 6 }] ∧
    ∀ r ∈ data_written_as.as_region,
      ∃ e, get_page data_written_as r.vbase = some (some (page_ptr r.vbase)) ∧
        load_page data_written_as r.vbase = some (page_ptr r.vbase, e) ∧ e.flags ≠ -1 ∧
        flags_ok e.flags :=
  ⟨by decide,
    region_nodes_have_entries (fun _ => True) data_written_as
      (reachable.fault boot_machine data_written_machine data_as data_written_as 0x80005000 3
        VM_FAULT_WRITE 0 0x10000000
        (reachable.define_region boot_machine boot_machine fresh_as data_as 0x10000000 0x1000
          PF_R PF_W 0 0 (reachable.create boot_machine boot_machine fresh_as rfl)
          ⟨by decide, by decide⟩ ⟨by decide, by decide⟩ ⟨by decide, by decide⟩ rfl)
        rfl)⟩

/-- C25: for every address space reachable from `as_create` (through any of the
operations, with any arguments), every address `v` and flags `f`:
`add_single_vaddr_page` returns when `kmalloc` succeeds, and after it
`get_page` on every address of the page of `v` returns the same non-null
entry, whose page number is `v / 4096` and whose flags are `f`, with `paddr`
and `copy_on_write` as before if the entry existed and `USERSPACETOP`, 0 if its
secondary table was just created; for every address of another page the
pointer and the entry are as before, or the entry is the undefined one (flags
-1, no frame, `copy_on_write` 0) of the table just created; the frame table is
unchanged; and `get_page` never fails its `KASSERT` and returns null exactly
when the secondary table of the top 10 bits of the page number is
unallocated. -/
theorem add_single_vaddr_page_agrees (P : Int → Prop) (Q : addrspace → Prop) (m : machine)
    (as : addrspace) (v : Nat) (f : Int) (hr : reachable P Q as) :
    ((∀ b ∈ m.kheap, b = true) → ∃ m1 as1, add_single_vaddr_page m as v f = some (m1, as1)) ∧
    (∀ m1 as1, add_single_vaddr_page m as v f = some (m1, as1) →
      (∀ v1, v1 % WORD / PAGE_SIZE = v % WORD / PAGE_SIZE →
        ∃ e, get_page as1 v1 = some (some (page_ptr v)) ∧
          page_at as1 (page_ptr v) = some e ∧
          e.vaddr = v % WORD / PAGE_SIZE ∧ e.flags = f ∧
          (∀ e0, page_at as (page_ptr v) = some e0 →
            e.paddr = e0.paddr ∧ e.copy_on_write = e0.copy_on_write) ∧
          (page_at as (page_ptr v) = none → e.paddr = USERSPACETOP ∧ e.copy_on_write = 0)) ∧
      (∀ v1, v1 % WORD / PAGE_SIZE ≠ v % WORD / PAGE_SIZE →
        (get_page as1 v1 = get_page as v1 ∧
          page_at as1 (page_ptr v1) = page_at as (page_ptr v1)) ∨
        (get_page as v1 = some none ∧ get_page as1 v1 = some (some (page_ptr v1)) ∧
          ∃ e, page_at as1 (page_ptr v1) = some e ∧ e.flags = -1 ∧
            e.paddr = USERSPACETOP ∧ e.copy_on_write = 0)) ∧
      m1.frame_table = m.frame_table ∧ m1.ram = m.ram ∧ m1.released = m.released) ∧
    (∀ v1, get_page as v1 ≠ none ∧
      (get_page as v1 = some none ↔
        (as.page_table ((v1 % WORD / PAGE_SIZE) >>> 10)).target = none)) :=
  add_single_vaddr_page_agrees_wf m as v f (reachable_pt_wf P Q as hr)

theorem add_single_vaddr_page_agrees_witness :
    ∃ m1 as1, add_single_vaddr_page boot_machine text_as 0x400123 5 = some (m1, as1) :=
  (add_single_vaddr_page_agrees (fun _ => True) (fun _ => True) boot_machine text_as 0x400123 5
    (reachable.define_region boot_machine boot_machine fresh_as text_as 0x400000 0x1000
      PF_R 0 PF_X 0 (reachable.create boot_machine boot_machine fresh_as rfl)
      trivial trivial trivial rfl)).1 (by decide)

/-! ## Divergences of the heap and of loading after a copy -/

/-- C22, the behaviour of the code: `as_prepare_load` sets `TLBLO_DIRTY` in
the `paddr` word of every region page that has a frame, whatever its
`copy_on_write` (line 335 tests only the sentinel and the bit). The address
space `parent_prepared_as` is reached by `as_create`, `as_define_region`,
`vm_fault`, `as_copy` and `as_prepare_load`; its page `0x10000000` has
`copy_on_write = 1` and `TLBLO_DIRTY` set while frame 5 has reference count 2,
and the read fault that follows loads that word into the TLB, so the shared
frame can be written without a copy-on-write break. -/
theorem prepare_load_dirties_shared_page :
    reachable flags_ok (fun _ => True) parent_prepared_as ∧
    load_page copied_parent 0x10000000
      = some ((64, 0), { vaddr := 0x10000, paddr := 0x5200, copy_on_write := 1, flags := 6 }) ∧
    copied_machine.frame_table 5 = 2 ∧
    load_page parent_prepared_as 0x10000000
      = some ((64, 0), { vaddr := 0x10000, paddr := 0x5600, copy_on_write := 1, flags := 6 }) ∧
    0x5600 &&& TLBLO_DIRTY ≠ 0 ∧
    parent_prepared_machine.frame_table 5 = 2 ∧
    (vm_fault (some (some parent_prepared_as)) 0 4 parent_prepared_machine VM_FAULT_READ
      0x10000000).map (fun r => (r.1, r.2.1.tlb 4, r.2.1.frame_table 5))
      = some (0, (0x10000000, 0x5600), 2) := by
  have h1 : reachable flags_ok (fun _ => True) fresh_as :=
    reachable.create boot_machine boot_machine fresh_as rfl
  have h2 : reachable flags_ok (fun _ => True) data_as :=
    reachable.define_region boot_machine boot_machine fresh_as data_as 0x10000000 0x1000
      PF_R PF_W 0 0 h1 ⟨by decide, by decide⟩ ⟨by decide, by decide⟩ ⟨by decide, by decide⟩ rfl
  have h3 : reachable flags_ok (fun _ => True) data_written_as :=
    reachable.fault boot_machine data_written_machine data_as data_written_as 0x80005000 3
      VM_FAULT_WRITE 0 0x10000000 h2 rfl
  have h4 : reachable flags_ok (fun _ => True) copied_parent :=
    reachable.copy_old data_written_machine copied_machine data_written_as copied_parent 0
      (some copied_child) h3 rfl
  have h5 : reachable flags_ok (fun _ => True) parent_prepared_as :=
    reachable.prepare_load copied_machine parent_prepared_machine copied_parent
      parent_prepared_as 0 h4 trivial rfl
  exact ⟨h5, by decide, by decide, by decide, by decide, by decide, by decide⟩

/-- C21, the behaviour of the code: `sys_sbrk` ignores the return value of
`as_define_region_noheap` (line 47). In scenario S4, when the `kmalloc` of the
region node fails, `as_define_region_noheap` returns `EFAULT` with no node
pushed, yet `sys_sbrk(0x1000)` returns 0 and moves `heap_end` to `0x501000`:
the page `0x500000` lies below `heap_end` and has no region node. -/
theorem sys_sbrk_ignores_failed_define :
    heap_as.as_heap_start = 0x500000 ∧ heap_as.as_heap_end = 0x500000 ∧
    heap_as.as_region.map (fun r => r.vbase) = [0x4ff000] ∧
    as_define_region_noheap starved_machine heap_as 0x500000 0x1000 PF_R PF_W PF_X
      = some (EFAULT, boot_machine, write_page heap_as (1, 256)
          { vaddr := 0x500, paddr := USERSPACETOP, copy_on_write := 0, flags := 7 }) ∧
    heap_starved.map
      (fun r => (r.1, r.2.1, r.2.2.2.as_heap_end, r.2.2.2.as_region.map (fun n => n.vbase)))
      = some (0, some 0x500000, 0x501000, [0x4ff000]) := by
  refine ⟨by decide, by decide, by decide, rfl, by decide⟩

/-! ## Heap page coverage when every allocation succeeds -/

/-- Lines 46 and 51 of `sbrk.c`: with a page-aligned `H` at most `E`, the
address `PAGE_SIZE + ((E - 1) & PAGE_FRAME)` is the base of the first page at
or above `E`, counted from `H`. -/
theorem page_above (H E : Nat) (hal : H % PAGE_SIZE = 0) (hle : H ≤ E)
    (hE : E ≤ USERSPACETOP) :
    (PAGE_SIZE + ((((WORD - 1) + E) % WORD) &&& PAGE_FRAME)) % WORD
      = H + heap_pages H E * PAGE_SIZE := by
  have hx : ((WORD - 1) + E) % WORD < 2 ^ 32 := Nat.mod_lt _ (by decide)
  unfold PAGE_FRAME
  rw [and_frame _ hx]
  unfold heap_pages WORD PAGE_SIZE USERSPACETOP MIPS_KSEG0 at *
  omega

theorem page_frame_same (H E E1 : Nat) (hal : H % PAGE_SIZE = 0) (hle : H ≤ E) (hle1 : H ≤ E1)
    (hE : E ≤ USERSPACETOP) (hE1 : E1 ≤ USERSPACETOP) :
    ((((WORD - 1) + E) % WORD) &&& PAGE_FRAME = (((WORD - 1) + E1) % WORD) &&& PAGE_FRAME) ↔
    heap_pages H E = heap_pages H E1 := by
  have hx : ((WORD - 1) + E) % WORD < 2 ^ 32 := Nat.mod_lt _ (by decide)
  have hx1 : ((WORD - 1) + E1) % WORD < 2 ^ 32 := Nat.mod_lt _ (by decide)
  unfold PAGE_FRAME
  rw [and_frame _ hx, and_frame _ hx1]
  unfold heap_pages WORD PAGE_SIZE USERSPACETOP MIPS_KSEG0 at *
  omega

theorem heap_pages_mono (H E E1 : Nat) (h : E ≤ E1) : heap_pages H E ≤ heap_pages H E1 := by
  unfold heap_pages PAGE_SIZE
  omega

theorem heap_page_below (H E k : Nat) (hle : H ≤ E) :
    k < heap_pages H E ↔ H + k * PAGE_SIZE < E := by
  unfold heap_pages PAGE_SIZE
  omega

/-- What a `sys_sbrk` call that returns 0 has done, by the branch it took:
one call of `as_define_region_noheap` (whose return value is dropped), one
call of `as_remove_region`, or nothing but the store to `as_heap_end`. -/
theorem sys_sbrk_success_cases (m m1 : machine) (as as1 : addrspace) (amount : Int)
    (rv : Option Nat) (h : sys_sbrk m as amount = some (0, rv, m1, as1)) :
    as1.as_heap_start = as.as_heap_start ∧
    as1.as_heap_end = (((as.as_heap_end : Int) + sbrk_round amount) % (WORD : Int)).toNat ∧
    ¬ (((as.as_heap_end : Int) + sbrk_round amount) % (WORD : Int)).toNat < as.as_heap_start ∧
    ¬ (((as.as_heap_end : Int) + sbrk_round amount) % (WORD : Int)).toNat > USERSPACETOP ∧
    ¬ (sbrk_round amount > 536870912 ∨ sbrk_round amount < -536870912) ∧
    ((sbrk_round amount > 0 ∧
        (((WORD - 1) + as.as_heap_end) % WORD) &&& PAGE_FRAME
          ≠ (((WORD - 1) + as1.as_heap_end) % WORD) &&& PAGE_FRAME ∧
        ∃ ret as2,
          as_define_region_noheap m as
            ((PAGE_SIZE + ((((WORD - 1) + as.as_heap_end) % WORD) &&& PAGE_FRAME)) % WORD)
            (((WORD - (PAGE_SIZE + ((((WORD - 1) + as.as_heap_end) % WORD) &&& PAGE_FRAME))
              % WORD) + as1.as_heap_end) % WORD) PF_R PF_W PF_X = some (ret, m1, as2) ∧
          as1.page_table = as2.page_table ∧ as1.as_region = as2.as_region) ∨
      (sbrk_round amount > 0 ∧
        (((WORD - 1) + as.as_heap_end) % WORD) &&& PAGE_FRAME
          = (((WORD - 1) + as1.as_heap_end) % WORD) &&& PAGE_FRAME ∧
        m1 = m ∧ as1.page_table = as.page_table ∧ as1.as_region = as.as_region) ∨
      (sbrk_round amount < 0 ∧
        ∃ as2,
          as_remove_region m as
            ((PAGE_SIZE + ((((WORD - 1) + as1.as_heap_end) % WORD) &&& PAGE_FRAME)) % WORD)
            (((WORD - (PAGE_SIZE + ((((WORD - 1) + as1.as_heap_end) % WORD) &&& PAGE_FRAME))
              % WORD) + as.as_heap_end) % WORD) = some (m1, as2) ∧
          as1.page_table = as2.page_table ∧ as1.as_region = as2.as_region) ∨
      (sbrk_round amount = 0 ∧ m1 = m ∧ as1.page_table = as.page_table ∧
        as1.as_region = as.as_region)) := by
  rcases sys_sbrk_inv _ _ _ _ _ _ _ h with ⟨h0, _⟩ | ⟨h0, _⟩ | ⟨_, _, c1, c2, c3, hs, he⟩
  · exact absurd h0 (by decide)
  · exact absurd h0 (by decide)
  · refine ⟨hs, he, c1, c2, c3, ?_⟩
    rw [he]
    unfold sys_sbrk at h
    simp only [if_neg c1, if_neg c2, if_neg c3] at h
    by_cases hpos : sbrk_round amount > 0
    · simp only [if_pos hpos] at h
      split at h
      · rename_i hcr
        split at h
        · exact absurd h (by simp)
        · rename_i r0 m2 as2 hd
          simp only [Option.some.injEq, Prod.mk.injEq, true_and] at h
          obtain ⟨_, h3, h4⟩ := h
          subst h3
          left
          refine ⟨hpos, hcr, r0, as2, hd, ?_, ?_⟩
          · rw [← h4]
          · rw [← h4]
      · rename_i hcr
        simp only [Option.some.injEq, Prod.mk.injEq, true_and] at h
        obtain ⟨_, h3, h4⟩ := h
        right; left
        refine ⟨hpos, not_not.mp hcr, h3.symm, ?_, ?_⟩
        · rw [← h4]
        · rw [← h4]
    · simp only [if_neg hpos] at h
      by_cases hneg : sbrk_round amount < 0
      · simp only [if_pos hneg] at h
        split at h
        · exact absurd h (by simp)
        · rename_i m2 as2 hd
          simp only [Option.some.injEq, Prod.mk.injEq, true_and] at h
          obtain ⟨_, h3, h4⟩ := h
          subst h3
          right; right; left
          refine ⟨hneg, as2, hd, ?_, ?_⟩
          · rw [← h4]
          · rw [← h4]
      · simp only [if_neg hneg] at h
        simp only [Option.some.injEq, Prod.mk.injEq, true_and] at h
        obtain ⟨_, h3, h4⟩ := h
        right; right; right
        refine ⟨by omega, h3.symm, ?_, ?_⟩
        · rw [← h4]
        · rw [← h4]

theorem range_reverse_split (g : Nat → Nat) (n : Nat) :
    ∀ c, (List.range (n + c)).reverse.map g
      = (List.range c).reverse.map (fun k => g (n + k)) ++ (List.range n).reverse.map g := by
  intro c
  induction c with
  | zero => simp
  | succ c ih =>
    rw [← Nat.add_assoc, List.range_succ, List.reverse_append, List.map_append, ih]
    rw [List.range_succ, List.reverse_append, List.map_append, List.append_assoc]
    rfl

theorem range_reverse_filter (g : Nat → Nat) (p : Nat → Bool) (n1 : Nat) :
    ∀ n, (∀ k, k < n → (p (g k) = true ↔ k < n1)) →
    ((List.range n).reverse.map g).filter p = (List.range (min n n1)).reverse.map g := by
  intro n
  induction n with
  | zero =>
    intro _
    simp
  | succ n ih =>
    intro h
    have ih1 := ih (fun k hk => h k (by omega))
    rw [List.range_succ, List.reverse_append, List.map_append, List.filter_append, ih1]
    by_cases hn : n < n1
    · have hp : p (g n) = true := (h n (by omega)).mpr hn
      have hmin : min (n + 1) n1 = n + 1 := by omega
      have hmin0 : min n n1 = n := by omega
      rw [hmin, hmin0, List.range_succ, List.reverse_append, List.map_append]
      simp [hp]
    · have hp : ¬ p (g n) = true := fun hh => hn ((h n (by omega)).mp hh)
      have hmin : min (n + 1) n1 = min n n1 := by omega
      rw [hmin]
      simp [hp]

theorem define_pages_pt_wf (flags : Int) (vaddr : Nat) (n : Nat) :
    ∀ (i : Nat) (m m1 : machine) (as as1 : addrspace) (r : Int),
    pt_wf as → define_pages flags vaddr n i m as = some (r, m1, as1) → pt_wf as1 := by
  induction n with
  | zero =>
    intro i m m1 as as1 r hwf h
    simp only [define_pages, Option.some.injEq, Prod.mk.injEq] at h
    obtain ⟨_, _, h3⟩ := h
    subst h3
    exact hwf
  | succ n ih =>
    intro i m m1 as as1 r hwf h
    cases ha : add_single_vaddr_page m as ((vaddr + i) % WORD) flags with
    | none =>
      simp only [define_pages, ha] at h
      exact absurd h (by simp)
    | some p =>
      obtain ⟨m2, as2⟩ := p
      have hwf2 := add_single_vaddr_page_pt_wf _ _ _ _ _ _ hwf ha
      cases hk : kmalloc m2 with
      | mk b m3 =>
        cases b with
        | false =>
          simp only [define_pages, ha, hk, Option.some.injEq, Prod.mk.injEq] at h
          obtain ⟨_, _, h3⟩ := h
          subst h3
          exact hwf2
        | true =>
          simp only [define_pages, ha, hk] at h
          refine ih _ _ _ _ _ _ ?_ h
          exact pt_wf_congr as2 _ rfl hwf2

theorem as_remove_region_shape (m m1 : machine) (as as1 : addrspace) (vaddr memsize : Nat)
    (h : as_remove_region m as vaddr memsize = some (m1, as1)) :
    as1.page_table = as.page_table ∧
    as1.as_region = as.as_region.filter (fun r => !in_range vaddr memsize r) := by
  unfold as_remove_region at h
  rw [as_remove_region_loop_eq] at h
  cases hd : as_destroy_loop as (as.as_region.filter (in_range vaddr memsize)) m with
  | none =>
    rw [hd] at h
    exact absurd h (by simp)
  | some m2 =>
    rw [hd] at h
    simp only [Option.map_some', Option.some.injEq, Prod.mk.injEq] at h
    obtain ⟨_, h2⟩ := h
    subst h2
    exact ⟨rfl, rfl⟩

theorem heap_cover_congr (as as1 : addrspace) (L : Nat)
    (hs : as1.as_heap_start = as.as_heap_start)
    (hr : as1.as_region = as.as_region) (hp : as1.page_table = as.page_table)
    (hn : heap_pages as1.as_heap_start as1.as_heap_end
      = heap_pages as.as_heap_start as.as_heap_end)
    (hc : heap_cover as L) : heap_cover as1 L := by
  obtain ⟨h1, h2⟩ := hc
  constructor
  · unfold heap_nodes at *
    rw [hn, hs, hr]
    exact h1
  · intro k hk
    rw [hn] at hk
    rw [hs, page_at_congr as as1 hp]
    exact h2 k hk

theorem entry_view_some (as : addrspace) (q : Nat × Nat) (e : secondary_page_entry)
    (h : page_at as q = some e) : entry_view as q = e := by
  unfold entry_view
  rw [h]

theorem grow_arith (H E E1 : Nat) (hal : H % PAGE_SIZE = 0) (hle : H ≤ E) (hlt : E < E1)
    (hE1 : E1 ≤ USERSPACETOP) (hne : heap_pages H E ≠ heap_pages H E1) :
    aligned_base (H + heap_pages H E * PAGE_SIZE) = H + heap_pages H E * PAGE_SIZE ∧
    aligned_size (H + heap_pages H E * PAGE_SIZE)
        (((WORD - (H + heap_pages H E * PAGE_SIZE)) + E1) % WORD) / PAGE_SIZE
      = heap_pages H E1 - heap_pages H E ∧
    heap_pages H E < heap_pages H E1 ∧
    H + heap_pages H E1 * PAGE_SIZE ≤ WORD := by
  have hmono := heap_pages_mono H E E1 (Nat.le_of_lt hlt)
  have hlt2 : heap_pages H E < heap_pages H E1 := lt_of_le_of_ne hmono hne
  have hb := (heap_page_below H E1 (heap_pages H E) (by omega)).mp hlt2
  have hv : H + heap_pages H E * PAGE_SIZE < WORD := by
    unfold USERSPACETOP MIPS_KSEG0 at hE1
    unfold WORD
    omega
  have hsz : ((WORD - (H + heap_pages H E * PAGE_SIZE)) + E1) % WORD
      = E1 - (H + heap_pages H E * PAGE_SIZE) := by
    unfold USERSPACETOP MIPS_KSEG0 at hE1
    unfold WORD at *
    omega
  have hmod : (H + heap_pages H E * PAGE_SIZE) % PAGE_SIZE = 0 := by
    unfold PAGE_SIZE at *
    omega
  obtain ⟨a1, a2⟩ := aligned_values (H + heap_pages H E * PAGE_SIZE)
    (((WORD - (H + heap_pages H E * PAGE_SIZE)) + E1) % WORD) hv (by
      rw [hsz, hmod]
      unfold USERSPACETOP MIPS_KSEG0 at hE1
      unfold WORD PAGE_SIZE at *
      omega)
  refine ⟨?_, ?_, hlt2, ?_⟩
  · rw [a1]
    unfold PAGE_SIZE at *
    omega
  · rw [a2, hsz, hmod]
    unfold heap_pages PAGE_SIZE at *
    omega
  · unfold USERSPACETOP MIPS_KSEG0 at hE1
    unfold heap_pages WORD PAGE_SIZE at *
    omega

theorem shrink_arith (H E E1 : Nat) (hal : H % PAGE_SIZE = 0) (hle1 : H ≤ E1) (hlt : E1 ≤ E)
    (hE : E ≤ USERSPACETOP) :
    ((H + heap_pages H E1 * PAGE_SIZE)
      + ((WORD - (H + heap_pages H E1 * PAGE_SIZE)) + E) % WORD) % WORD = E := by
  unfold USERSPACETOP MIPS_KSEG0 at hE
  unfold heap_pages WORD PAGE_SIZE at *
  omega

theorem heap_cover_grow (m m1 : machine) (as as1 as2 : addrspace) (ret : Int) (L E1 : Nat)
    (hk : ∀ b ∈ m.kheap, b = true) (hwf : pt_wf as)
    (hal : as.as_heap_start % PAGE_SIZE = 0) (hle : as.as_heap_start ≤ as.as_heap_end)
    (hlt : as.as_heap_end < E1) (hE1 : E1 ≤ USERSPACETOP) (hL : E1 ≤ L)
    (hne : heap_pages as.as_heap_start as.as_heap_end ≠ heap_pages as.as_heap_start E1)
    (hc : heap_cover as L)
    (hd : as_define_region_noheap m as
      (as.as_heap_start + heap_pages as.as_heap_start as.as_heap_end * PAGE_SIZE)
      (((WORD - (as.as_heap_start + heap_pages as.as_heap_start as.as_heap_end * PAGE_SIZE))
        + E1) % WORD) PF_R PF_W PF_X = some (ret, m1, as2))
    (hp : as1.page_table = as2.page_table) (hr : as1.as_region = as2.as_region)
    (hs1 : as1.as_heap_start = as.as_heap_start) (he1 : as1.as_heap_end = E1) :
    pt_wf as1 ∧ heap_cover as1 L := by
  obtain ⟨hcn, hce⟩ := hc
  rw [as_define_region_noheap_eq] at hd
  have hwf2 := define_pages_pt_wf _ _ _ _ _ _ _ _ _ hwf hd
  refine ⟨pt_wf_congr as2 as1 hp hwf2, ?_⟩
  obtain ⟨a1, a2, a3, a4⟩ := grow_arith as.as_heap_start as.as_heap_end E1 hal hle hlt hE1 hne
  rw [a1, a2] at hd
  generalize hn : heap_pages as.as_heap_start as.as_heap_end = n at *
  generalize hn1 : heap_pages as.as_heap_start E1 = n1 at *
  obtain ⟨m3, as3, g1, g2, g3, g4, g5, _⟩ :=
    define_pages_spec (Int.lor (Int.lor PF_R PF_W) PF_X) (as.as_heap_start + n * PAGE_SIZE)
      (n1 - n) 0 m as hwf hk (fun _ => by
        unfold PAGE_SIZE at *
        have : (n1 - n) * 4096 + n * 4096 = n1 * 4096 := by
          rw [← Nat.add_mul]
          congr 1
          omega
        omega)
  rw [g1] at hd
  simp only [Option.some.injEq, Prod.mk.injEq] at hd
  obtain ⟨_, _, hd3⟩ := hd
  subst hd3
  have hbelow : ∀ k, k < n1 → as.as_heap_start + k * PAGE_SIZE < E1 := by
    intro k hk1
    rw [← hn1] at hk1
    exact (heap_page_below _ _ _ (by omega)).mp hk1
  constructor
  · unfold heap_nodes at *
    rw [hs1, he1, hn1, hr, g2, List.filter_append, List.map_append, hcn]
    have hn1eq : n1 = n + (n1 - n) := by omega
    rw [hn1eq, range_reverse_split]
    congr 1
    rw [← hn1eq]
    have hall : ∀ r ∈ (List.range (n1 - n)).reverse.map
        (fun k => ({ vbase := as.as_heap_start + n * PAGE_SIZE + 0 + k * PAGE_SIZE,
                     old_flags := Int.lor (Int.lor PF_R PF_W) PF_X } : region)),
        decide (as.as_heap_start ≤ r.vbase ∧ r.vbase < L) = true := by
      intro r hr1
      rw [List.mem_map] at hr1
      obtain ⟨k, hk1, hk2⟩ := hr1
      rw [List.mem_reverse, List.mem_range] at hk1
      subst hk2
      have := hbelow (n + k) (by omega)
      apply decide_eq_true
      simp only
      rw [Nat.add_mul] at this
      omega
    rw [List.filter_eq_self.mpr hall, List.map_map]
    apply List.map_congr_left
    intro k _
    simp only [Function.comp]
    rw [Nat.add_mul]
    omega
  · intro k hk1
    rw [hs1, he1, hn1] at hk1
    rw [hs1, page_at_congr as3 as1 hp]
    by_cases hkn : k < n
    · obtain ⟨e, he, hf⟩ := hce k hkn
      have hne1 : page_at as3 (page_ptr (as.as_heap_start + k * PAGE_SIZE)) ≠ none :=
        g5 _ (by rw [he]; simp)
      cases h3 : page_at as3 (page_ptr (as.as_heap_start + k * PAGE_SIZE)) with
      | none => exact absurd h3 hne1
      | some e3 =>
        refine ⟨e3, rfl, ?_⟩
        have hv := g4 (page_ptr (as.as_heap_start + k * PAGE_SIZE)) (by
          intro j hj
          apply page_ptr_apart
          · have := hbelow (n + j) (by omega)
            rw [Nat.add_mul] at this
            unfold USERSPACETOP MIPS_KSEG0 at hE1
            unfold WORD
            omega
          · have : (k + 1) * PAGE_SIZE ≤ n * PAGE_SIZE := Nat.mul_le_mul_right _ hkn
            rw [Nat.add_mul] at this
            omega)
        rw [entry_view_some _ _ _ h3, entry_view_some _ _ _ he] at hv
        rw [hv]
        exact hf
    · obtain ⟨b1, b2⟩ := g3 (k - n) (by omega)
      have hadd : as.as_heap_start + n * PAGE_SIZE + 0 + (k - n) * PAGE_SIZE
          = as.as_heap_start + k * PAGE_SIZE := by
        have : n * PAGE_SIZE + (k - n) * PAGE_SIZE = k * PAGE_SIZE := by
          rw [← Nat.add_mul]
          congr 1
          omega
        omega
      rw [hadd] at b1 b2
      cases h3 : page_at as3 (page_ptr (as.as_heap_start + k * PAGE_SIZE)) with
      | none => exact absurd h3 b1
      | some e3 =>
        refine ⟨e3, rfl, ?_⟩
        rw [entry_view_some _ _ _ h3] at b2
        rw [b2]

theorem heap_cover_shrink (m m1 : machine) (as as1 as2 : addrspace) (L E1 : Nat)
    (hal : as.as_heap_start % PAGE_SIZE = 0) (hle1 : as.as_heap_start ≤ E1)
    (hlt : E1 ≤ as.as_heap_end) (hE : as.as_heap_end ≤ USERSPACETOP)
    (hc : heap_cover as L)
    (hd : as_remove_region m as
      (as.as_heap_start + heap_pages as.as_heap_start E1 * PAGE_SIZE)
      (((WORD - (as.as_heap_start + heap_pages as.as_heap_start E1 * PAGE_SIZE))
        + as.as_heap_end) % WORD) = some (m1, as2))
    (hp : as1.page_table = as2.page_table) (hr : as1.as_region = as2.as_region)
    (hs1 : as1.as_heap_start = as.as_heap_start) (he1 : as1.as_heap_end = E1) :
    pt_wf as → pt_wf as1 ∧ heap_cover as1 L := by
  intro hwf
  obtain ⟨hcn, hce⟩ := hc
  obtain ⟨r1, r2⟩ := as_remove_region_shape _ _ _ _ _ _ hd
  have hpt : as1.page_table = as.page_table := hp.trans r1
  refine ⟨pt_wf_congr as as1 hpt hwf, ?_⟩
  have hmono := heap_pages_mono as.as_heap_start E1 as.as_heap_end hlt
  have hend := shrink_arith as.as_heap_start as.as_heap_end E1 hal hle1 hlt hE
  constructor
  · unfold heap_nodes at *
    rw [hs1, he1, hr, r2, List.filter_comm]
    have hfm : ∀ l : List region,
        (l.filter (fun r => !in_range
          (as.as_heap_start + heap_pages as.as_heap_start E1 * PAGE_SIZE)
          (((WORD - (as.as_heap_start + heap_pages as.as_heap_start E1 * PAGE_SIZE))
            + as.as_heap_end) % WORD) r)).map (fun r => r.vbase)
        = (l.map (fun r => r.vbase)).filter (fun v => !decide
            (v ≥ as.as_heap_start + heap_pages as.as_heap_start E1 * PAGE_SIZE
              ∧ v < as.as_heap_end)) := by
      intro l
      rw [List.filter_map]
      congr 1
      apply List.filter_congr
      intro r _
      simp only [Function.comp, in_range, hend]
    rw [hfm, hcn, range_reverse_filter _ _ (heap_pages as.as_heap_start E1)]
    · rw [Nat.min_eq_right hmono]
    · intro k hk
      have hb := (heap_page_below as.as_heap_start as.as_heap_end k (by omega)).mp hk
      simp only [Bool.not_eq_true', decide_eq_false_iff_not]
      constructor
      · intro h1
        by_contra h2
        apply h1
        refine ⟨?_, hb⟩
        have : heap_pages as.as_heap_start E1 * PAGE_SIZE ≤ k * PAGE_SIZE :=
          Nat.mul_le_mul_right _ (by omega)
        omega
      · intro h1 h2
        have : (k + 1) * PAGE_SIZE ≤ heap_pages as.as_heap_start E1 * PAGE_SIZE :=
          Nat.mul_le_mul_right _ h1
        rw [Nat.add_mul] at this
        unfold PAGE_SIZE at *
        omega
  · intro k hk1
    rw [hs1, he1] at hk1
    rw [hs1, page_at_congr as as1 hpt]
    exact hce k (by omega)

/-- One successful `sys_sbrk` call keeps heap page coverage, provided every
`kmalloc` of the call succeeds: if before the call the nodes with `vbase` in
`[as_heap_start, L)` are the pages below `as_heap_end`, each with flags
`PF_R | PF_W | PF_X`, and the new `as_heap_end` is at most `L`, the same holds
afterwards. -/
theorem sys_sbrk_heap_cover (m m1 : machine) (as as1 : addrspace) (amount : Int)
    (rv : Option Nat) (L : Nat)
    (hk : ∀ b ∈ m.kheap, b = true) (hwf : pt_wf as)
    (hal : as.as_heap_start % PAGE_SIZE = 0) (hle : as.as_heap_start ≤ as.as_heap_end)
    (hE : as.as_heap_end ≤ USERSPACETOP) (hc : heap_cover as L)
    (hL1 : as1.as_heap_end ≤ L)
    (h : sys_sbrk m as amount = some (0, rv, m1, as1)) :
    pt_wf as1 ∧ as1.as_heap_start = as.as_heap_start ∧
    as1.as_heap_start ≤ as1.as_heap_end ∧ as1.as_heap_end ≤ USERSPACETOP ∧
    heap_cover as1 L := by
  obtain ⟨hs1, he1, c1, c2, c3, hcases⟩ := sys_sbrk_success_cases _ _ _ _ _ _ h
  obtain ⟨x1, x2, x3⟩ := sbrk_sum_exact _ _ _ hE c1 c2 c3
  rw [← he1] at x1 x2 x3
  have hle1 : as.as_heap_start ≤ as1.as_heap_end := x2
  have key : pt_wf as1 ∧ heap_cover as1 L := by
    rcases hcases with ⟨hpos, hcr, ret, as2, hd, hp, hr⟩ | ⟨hpos, hcr, _, hp, hr⟩ |
      ⟨hneg, as2, hd, hp, hr⟩ | ⟨hz, _, hp, hr⟩
    · rw [page_above _ _ hal hle hE] at hd
      have hne : heap_pages as.as_heap_start as.as_heap_end
          ≠ heap_pages as.as_heap_start as1.as_heap_end := fun heq =>
        hcr ((page_frame_same _ _ _ hal hle hle1 hE x3).mpr heq)
      exact heap_cover_grow m m1 as as1 as2 ret L as1.as_heap_end hk hwf hal hle (by omega)
        x3 hL1 hne hc hd hp hr hs1 rfl
    · have hn := (page_frame_same _ _ _ hal hle hle1 hE x3).mp hcr
      refine ⟨pt_wf_congr as as1 hp hwf, heap_cover_congr as as1 L hs1 hr hp ?_ hc⟩
      rw [hs1]
      exact hn.symm
    · rw [page_above _ _ hal hle1 x3] at hd
      exact heap_cover_shrink m m1 as as1 as2 L as1.as_heap_end hal hle1 (by omega) hE hc hd
        hp hr hs1 rfl hwf
    · have hee : as1.as_heap_end = as.as_heap_end := by omega
      refine ⟨pt_wf_congr as as1 hp hwf, heap_cover_congr as as1 L hs1 hr hp ?_ hc⟩
      rw [hs1, hee]
  exact ⟨key.1, hs1, by rw [hs1]; exact hle1, x3, key.2⟩

theorem heap_cover_initial (as : addrspace) (L : Nat)
    (heq : as.as_heap_end = as.as_heap_start)
    (hnone : ∀ r ∈ as.as_region, ¬ (as.as_heap_start ≤ r.vbase ∧ r.vbase < L)) :
    heap_cover as L := by
  have hz : heap_pages as.as_heap_start as.as_heap_end = 0 := by
    rw [heq]
    unfold heap_pages PAGE_SIZE
    omega
  constructor
  · unfold heap_nodes
    rw [hz]
    have : as.as_region.filter
        (fun r => decide (as.as_heap_start ≤ r.vbase ∧ r.vbase < L)) = [] := by
      rw [List.filter_eq_nil_iff]
      intro r hr
      simpa using hnone r hr
    rw [this]
    rfl
  · intro k hk
    rw [hz] at hk
    exact absurd hk (Nat.not_lt_zero k)

/-- Heap page coverage under `sys_sbrk` when allocation succeeds: from an
address space with an intact page table, page-aligned
`as_heap_start = as_heap_end` and no region node with `vbase` in
`[as_heap_start, L)`, after any sequence of successful `sys_sbrk` calls (any
amounts, `as_heap_end` never above `L`, every `kmalloc` succeeding) the region
nodes with `vbase` in `[as_heap_start, L)` are, from the highest down, the page
bases `as_heap_start + k * PAGE_SIZE` below `as_heap_end`, and each of these
pages has flags `PF_R | PF_W | PF_X`. -/
theorem sbrk_run_heap_cover (L : Nat) (as as1 : addrspace) (hwf : pt_wf as)
    (hal : as.as_heap_start % PAGE_SIZE = 0) (heq : as.as_heap_end = as.as_heap_start)
    (hnone : ∀ r ∈ as.as_region, ¬ (as.as_heap_start ≤ r.vbase ∧ r.vbase < L))
    (hrun : sbrk_run L as as1) :
    as1.as_heap_start = as.as_heap_start ∧ as1.as_heap_start ≤ as1.as_heap_end ∧
    heap_cover as1 L := by
  have key : pt_wf as1 ∧ as1.as_heap_start = as.as_heap_start ∧
      as1.as_heap_start ≤ as1.as_heap_end ∧ heap_cover as1 L ∧
      (as1.as_heap_end ≤ USERSPACETOP ∨ as1.as_heap_end = as1.as_heap_start) := by
    induction hrun with
    | nil => exact ⟨hwf, rfl, Nat.le_of_eq heq.symm, heap_cover_initial as L heq hnone, Or.inr heq⟩
    | call as1 as2 m m1 amount rv _ hk h hL ih =>
      obtain ⟨i1, i2, i3, i4, i5⟩ := ih
      have hE : as1.as_heap_end ≤ USERSPACETOP := by
        rcases i5 with i5 | i5
        · exact i5
        · rcases sys_sbrk_inv _ _ _ _ _ _ _ h with ⟨h0, _⟩ | ⟨h0, _⟩ | ⟨_, _, c1, c2, _⟩
          · exact absurd h0 (by decide)
          · exact absurd h0 (by decide)
          · omega
      obtain ⟨j1, j2, j3, j4, j5⟩ := sys_sbrk_heap_cover m m1 as1 as2 amount rv L hk i1
        (by rw [i2]; exact hal) i3 hE i4 hL h
      exact ⟨j1, j2.trans i2, j3, j5, Or.inl j4⟩
  exact ⟨key.2.1, key.2.2.1, key.2.2.2.1⟩

/-- Under heap page coverage a page base `p` with
`as_heap_start <= p < as_heap_end` is the `vbase` of exactly one region node
in `[as_heap_start, L)`, and no other address in that range is the `vbase` of
any. -/
theorem heap_cover_count (as : addrspace) (L : Nat)
    (hal : as.as_heap_start % PAGE_SIZE = 0) (hle : as.as_heap_start ≤ as.as_heap_end)
    (hc : heap_cover as L) (p : Nat) :
    (heap_nodes as L).count p
      = if p % PAGE_SIZE = 0 ∧ as.as_heap_start ≤ p ∧ p < as.as_heap_end then 1 else 0 := by
  rw [hc.1]
  have hinj : Function.Injective (fun k => as.as_heap_start + k * PAGE_SIZE) := by
    intro a b hab
    simp only [PAGE_SIZE] at hab
    omega
  have hnd : ((List.range (heap_pages as.as_heap_start as.as_heap_end)).reverse.map
      (fun k => as.as_heap_start + k * PAGE_SIZE)).Nodup :=
    List.Nodup.map hinj (List.nodup_reverse.mpr (List.nodup_range _))
  by_cases hp : p % PAGE_SIZE = 0 ∧ as.as_heap_start ≤ p ∧ p < as.as_heap_end
  · rw [if_pos hp]
    apply List.count_eq_one_of_mem hnd
    rw [List.mem_map]
    refine ⟨(p - as.as_heap_start) / PAGE_SIZE, ?_, ?_⟩
    · rw [List.mem_reverse, List.mem_range, heap_page_below _ _ _ hle]
      unfold PAGE_SIZE at *
      omega
    · unfold PAGE_SIZE at *
      omega
  · rw [if_neg hp]
    apply List.count_eq_zero_of_not_mem
    intro hm
    rw [List.mem_map] at hm
    obtain ⟨k, hk1, hk2⟩ := hm
    rw [List.mem_reverse, List.mem_range, heap_page_below _ _ _ hle] at hk1
    apply hp
    unfold PAGE_SIZE at *
    omega

/-- The example of scenario S4: from `as_heap_end = 0x500000`, `sbrk(0x3000)`
returns 0 with `*retval = 0x500000` and links nodes for `0x500000`, `0x501000`
and `0x502000`; the following `sbrk(-0x2000)` returns 0 with
`*retval = 0x503000` and unlinks `0x501000` and `0x502000`. -/
theorem sbrk_run_heap_cover_example :
    heap_grown_three = some (0, some 0x500000, heap_grown_three_machine, heap_grown_three_as) ∧
    heap_shrunk_two.map (fun r => (r.1, r.2.1)) = some (0, some 0x503000) ∧
    heap_grown_three_as.as_heap_end = 0x503000 ∧
    heap_nodes heap_grown_three_as 0x600000 = [0x502000, 0x501000, 0x500000] ∧
    heap_shrunk_two_as.as_heap_end = 0x501000 ∧
    heap_nodes heap_shrunk_two_as 0x600000 = [0x500000] ∧
    heap_shrunk_two_as.as_region.map (fun r => r.vbase) = [0x500000, 0x4ff000] ∧
    heap_cover heap_shrunk_two_as 0x600000 := by
  have hwf : pt_wf heap_as :=
    reachable_pt_wf (fun _ => True) (fun _ => True) heap_as
      (reachable.define_region boot_machine boot_machine fresh_as heap_as 0x4ff000 0x1000
        PF_R PF_W 0 0 (reachable.create boot_machine boot_machine fresh_as rfl)
        trivial trivial trivial rfl)
  have hrun : sbrk_run 0x600000 heap_as heap_shrunk_two_as :=
    sbrk_run.call heap_as heap_grown_three_as heap_shrunk_two_as heap_grown_three_machine
      heap_shrunk_two_machine (-0x2000) (some 0x503000)
      (sbrk_run.call heap_as heap_as heap_grown_three_as boot_machine heap_grown_three_machine
        0x3000 (some 0x500000) (sbrk_run.nil heap_as) (by decide) (by rfl) (by decide))
      (by decide) (by rfl) (by decide)
  refine ⟨rfl, by decide, by decide, by decide, by decide, by decide, by decide, ?_⟩
  exact (sbrk_run_heap_cover 0x600000 heap_as heap_shrunk_two_as hwf (by decide) (by decide)
    (by decide) hrun).2.2

/-! ## The heap round trip -/

theorem define_pages_nodes (flags : Int) (vaddr : Nat) (n : Nat) :
    ∀ (i : Nat) (m m1 : machine) (as as1 : addrspace) (r : Int),
    (n ≠ 0 → vaddr + i + n * PAGE_SIZE ≤ WORD) →
    define_pages flags vaddr n i m as = some (r, m1, as1) →
    ∃ pre : List region, as1.as_region = pre ++ as.as_region ∧
      ∀ x ∈ pre, ∃ k, k < n ∧ x.vbase = vaddr + i + k * PAGE_SIZE := by
  induction n with
  | zero =>
    intro i m m1 as as1 r _ h
    simp only [define_pages, Option.some.injEq, Prod.mk.injEq] at h
    obtain ⟨_, _, h3⟩ := h
    subst h3
    exact ⟨[], rfl, fun x hx => absurd hx (List.not_mem_nil x)⟩
  | succ n ih =>
    intro i m m1 as as1 r hb h
    have hb1 := hb (Nat.succ_ne_zero n)
    cases ha : add_single_vaddr_page m as ((vaddr + i) % WORD) flags with
    | none =>
      simp only [define_pages, ha] at h
      exact absurd h (by simp)
    | some p =>
      obtain ⟨m2, as2⟩ := p
      obtain ⟨hr, _, _⟩ := add_single_vaddr_page_fields _ _ _ _ _ _ ha
      cases hk : kmalloc m2 with
      | mk b m3 =>
        cases b with
        | false =>
          simp only [define_pages, ha, hk, Option.some.injEq, Prod.mk.injEq] at h
          obtain ⟨_, _, h3⟩ := h
          subst h3
          exact ⟨[], hr, fun x hx => absurd hx (List.not_mem_nil x)⟩
        | true =>
          simp only [define_pages, ha, hk] at h
          obtain ⟨pre, hp1, hp2⟩ := ih _ _ _ _ _ _ (fun hn => by
            have hi : (i + PAGE_SIZE) % WORD = i + PAGE_SIZE := by
              apply Nat.mod_eq_of_lt
              have : 0 < n * PAGE_SIZE := Nat.mul_pos (Nat.pos_of_ne_zero hn) (by decide)
              rw [Nat.add_mul] at hb1
              omega
            rw [hi]
            rw [Nat.add_mul] at hb1
            omega) h
          refine ⟨pre ++ [{ vbase := (vaddr + i) % WORD, old_flags := flags }], ?_, ?_⟩
          · rw [hp1, List.append_assoc]
            simp only [List.singleton_append, hr]
          · intro x hx
            rw [List.mem_append] at hx
            rcases hx with hx | hx
            · obtain ⟨k, hk1, hk2⟩ := hp2 x hx
              by_cases hn : n = 0
              · omega
              · have hi : (i + PAGE_SIZE) % WORD = i + PAGE_SIZE := by
                  apply Nat.mod_eq_of_lt
                  have : 0 < n * PAGE_SIZE := Nat.mul_pos (Nat.pos_of_ne_zero hn) (by decide)
                  rw [Nat.add_mul] at hb1
                  omega
                refine ⟨k + 1, by omega, ?_⟩
                rw [hk2, hi, Nat.add_mul]
                omega
            · rw [List.mem_singleton] at hx
              subst hx
              refine ⟨0, by omega, ?_⟩
              have : (vaddr + i) % WORD = vaddr + i := by
                apply Nat.mod_eq_of_lt
                rw [Nat.add_mul] at hb1
                unfold PAGE_SIZE at hb1
                omega
              simp only [this]
              omega

theorem round_up_4_opposite (a : Int) :
    round_up_4 a + round_up_4 (-a) = if a % 4 = 0 then 0 else 4 := by
  unfold round_up_4
  split <;> omega

theorem sbrk_round_multiple (a : Int) (h : a % 4 = 0) : sbrk_round a = a := by
  rw [sbrk_round_eq]
  have : ¬ (a < 0 ∧ a % 4 ≠ 0) := fun hh => hh.2 h
  rw [if_neg this]
  unfold round_up_4
  omega

theorem sys_sbrk_grow_nodes (m m1 : machine) (as as1 : addrspace) (amount : Int)
    (rv : Option Nat) (hal : as.as_heap_start % PAGE_SIZE = 0)
    (hle : as.as_heap_start ≤ as.as_heap_end) (hE : as.as_heap_end ≤ USERSPACETOP)
    (hpos : sbrk_round amount > 0)
    (h : sys_sbrk m as amount = some (0, rv, m1, as1)) :
    ∃ pre : List region, as1.as_region = pre ++ as.as_region ∧
      ∀ x ∈ pre, as.as_heap_start ≤ x.vbase ∧ x.vbase < as1.as_heap_end := by
  obtain ⟨hs1, he1, c1, c2, c3, hcases⟩ := sys_sbrk_success_cases _ _ _ _ _ _ h
  obtain ⟨x1, x2, x3⟩ := sbrk_sum_exact _ _ _ hE c1 c2 c3
  rw [← he1] at x1 x2 x3
  rcases hcases with ⟨_, hcr, ret, as2, hd, _, hr⟩ | ⟨_, _, _, _, hr⟩ |
    ⟨hneg, _⟩ | ⟨hz, _⟩
  · rw [page_above _ _ hal hle hE, as_define_region_noheap_eq] at hd
    have hne : heap_pages as.as_heap_start as.as_heap_end
        ≠ heap_pages as.as_heap_start as1.as_heap_end := fun heq =>
      hcr ((page_frame_same _ _ _ hal hle x2 hE x3).mpr heq)
    obtain ⟨a1, a2, a3, a4⟩ :=
      grow_arith as.as_heap_start as.as_heap_end as1.as_heap_end hal hle (by omega) x3 hne
    rw [a1, a2] at hd
    have hb : heap_pages as.as_heap_start as.as_heap_end * PAGE_SIZE
        + (heap_pages as.as_heap_start as1.as_heap_end
            - heap_pages as.as_heap_start as.as_heap_end) * PAGE_SIZE
        = heap_pages as.as_heap_start as1.as_heap_end * PAGE_SIZE := by
      rw [← Nat.add_mul]
      congr 1
      omega
    obtain ⟨pre, hp1, hp2⟩ := define_pages_nodes _ _ _ _ _ _ _ _ _ (fun _ => by omega) hd
    refine ⟨pre, hr.trans hp1, ?_⟩
    intro x hx
    obtain ⟨k, hk1, hk2⟩ := hp2 x hx
    have hlt := (heap_page_below as.as_heap_start as1.as_heap_end
      (heap_pages as.as_heap_start as.as_heap_end + k) x2).mp (by omega)
    rw [Nat.add_mul] at hlt
    omega
  · exact ⟨[], hr, fun x hx => absurd hx (List.not_mem_nil x)⟩
  · omega
  · omega

theorem sys_sbrk_shrink_nodes (m m1 : machine) (as as1 : addrspace) (amount : Int)
    (rv : Option Nat) (hal : as.as_heap_start % PAGE_SIZE = 0)
    (hE : as.as_heap_end ≤ USERSPACETOP)
    (hneg : sbrk_round amount < 0)
    (h : sys_sbrk m as amount = some (0, rv, m1, as1)) :
    as1.as_region = as.as_region.filter (fun r => !decide
      (r.vbase ≥ as.as_heap_start + heap_pages as.as_heap_start as1.as_heap_end * PAGE_SIZE
        ∧ r.vbase < as.as_heap_end)) := by
  obtain ⟨hs1, he1, c1, c2, c3, hcases⟩ := sys_sbrk_success_cases _ _ _ _ _ _ h
  obtain ⟨x1, x2, x3⟩ := sbrk_sum_exact _ _ _ hE c1 c2 c3
  rw [← he1] at x1 x2 x3
  rcases hcases with ⟨hpos, _⟩ | ⟨hpos, _⟩ | ⟨_, as2, hd, _, hr⟩ | ⟨hz, _⟩
  · omega
  · omega
  · rw [page_above _ _ hal x2 x3] at hd
    obtain ⟨_, r2⟩ := as_remove_region_shape _ _ _ _ _ _ hd
    have hend := shrink_arith as.as_heap_start as.as_heap_end as1.as_heap_end hal x2
      (by omega) hE
    rw [hr, r2]
    apply List.filter_congr
    intro r _
    simp only [in_range, hend]
  · omega

/-- C13 as amended: for every address space with a page-aligned
`heap_start = heap_end = H` and no region node with `vbase` in `[H, H + n)`,
and every `n > 0` that is a multiple of 4 for which both calls return 0,
`sys_sbrk(+n)` followed by `sys_sbrk(-n)` leaves `heap_end` equal to `H`,
leaves `heap_start` alone and leaves the region list as it was before the two
calls, hence with the same page bases. -/
theorem sys_sbrk_round_trip (m m1 m2 : machine) (as as1 as2 : addrspace) (n : Nat)
    (rv1 rv2 : Option Nat)
    (hal : as.as_heap_start % PAGE_SIZE = 0) (heq : as.as_heap_end = as.as_heap_start)
    (hn : 0 < n) (h4 : n % 4 = 0)
    (hnone : ∀ r ∈ as.as_region,
      ¬ (as.as_heap_start ≤ r.vbase ∧ r.vbase < as.as_heap_start + n))
    (h1 : sys_sbrk m as (n : Int) = some (0, rv1, m1, as1))
    (h2 : sys_sbrk m1 as1 (-(n : Int)) = some (0, rv2, m2, as2)) :
    as2.as_heap_end = as.as_heap_end ∧ as2.as_heap_start = as.as_heap_start ∧
    as2.as_region = as.as_region ∧
    as2.as_region.map (fun r => r.vbase) = as.as_region.map (fun r => r.vbase) := by
  have hr1 : sbrk_round (n : Int) = n := sbrk_round_multiple _ (by omega)
  have hr2 : sbrk_round (-(n : Int)) = -(n : Int) := sbrk_round_multiple _ (by omega)
  obtain ⟨hs1, he1, c1, c2, c3, _⟩ := sys_sbrk_success_cases _ _ _ _ _ _ h1
  have hE : as.as_heap_end ≤ USERSPACETOP := by omega
  obtain ⟨x1, x2, x3⟩ := sbrk_sum_exact _ _ _ hE c1 c2 c3
  rw [← he1, hr1] at x1
  rw [← he1] at x3
  obtain ⟨hs2, he2, d1, d2, d3, _⟩ := sys_sbrk_success_cases _ _ _ _ _ _ h2
  obtain ⟨y1, y2, y3⟩ := sbrk_sum_exact _ _ _ x3 d1 d2 d3
  rw [← he2, hr2] at y1
  have e1 : as1.as_heap_end = as.as_heap_start + n := by omega
  have e2 : as2.as_heap_end = as.as_heap_start := by omega
  obtain ⟨pre, hp1, hp2⟩ := sys_sbrk_grow_nodes m m1 as as1 n rv1 hal (by omega) hE
    (by rw [hr1]; omega) h1
  have hsh := sys_sbrk_shrink_nodes m1 m2 as1 as2 (-(n : Int)) rv2 (by rw [hs1]; exact hal) x3
    (by rw [hr2]; omega) h2
  have hz : heap_pages as1.as_heap_start as2.as_heap_end = 0 := by
    rw [hs1, e2]
    unfold heap_pages PAGE_SIZE
    omega
  rw [hz, hs1, e1, hp1, List.filter_append] at hsh
  have f1 : pre.filter (fun r => !decide
      (r.vbase ≥ as.as_heap_start + 0 * PAGE_SIZE ∧ r.vbase < as.as_heap_start + n)) = [] := by
    rw [List.filter_eq_nil_iff]
    intro x hx
    obtain ⟨q1, q2⟩ := hp2 x hx
    rw [e1] at q2
    have : x.vbase ≥ as.as_heap_start + 0 * PAGE_SIZE ∧ x.vbase < as.as_heap_start + n :=
      ⟨by omega, q2⟩
    rw [decide_eq_true this]
    decide
  have f2 : as.as_region.filter (fun r => !decide
      (r.vbase ≥ as.as_heap_start + 0 * PAGE_SIZE ∧ r.vbase < as.as_heap_start + n))
      = as.as_region := by
    rw [List.filter_eq_self]
    intro x hx
    have hx1 := hnone x hx
    have : ¬ (x.vbase ≥ as.as_heap_start + 0 * PAGE_SIZE ∧ x.vbase < as.as_heap_start + n) :=
      fun hh => hx1 ⟨by omega, hh.2⟩
    rw [decide_eq_false this]
    rfl
  rw [f1, f2, List.nil_append] at hsh
  exact ⟨by rw [e2, heq], hs2.trans hs1, hsh, by rw [hsh]⟩

theorem sys_sbrk_round_trip_witness :
    heap_as.as_heap_start = 0x500000 ∧ heap_as.as_heap_end = 0x500000 ∧
    heap_as.as_region.map (fun r => r.vbase) = [0x4ff000] ∧
    heap_grown_as.as_heap_end = 0x501000 ∧
    heap_grown_as.as_region.map (fun r => r.vbase) = [0x500000, 0x4ff000] ∧
    (heap_restored_as.as_heap_end = heap_as.as_heap_end ∧
      heap_restored_as.as_heap_start = heap_as.as_heap_start ∧
      heap_restored_as.as_region = heap_as.as_region ∧
      heap_restored_as.as_region.map (fun r => r.vbase)
        = heap_as.as_region.map (fun r => r.vbase)) :=
  ⟨by decide, by decide, by decide, by decide, by decide,
    sys_sbrk_round_trip boot_machine heap_grown_machine heap_restored_machine heap_as
      heap_grown_as heap_restored_as 0x1000 (some 0x500000) (some 0x501000)
      (by decide) (by decide) (by decide) (by decide) (by decide) (by rfl) (by rfl)⟩

end OS161
